import Mathlib

/-!
# dBFT consensus engine: a shallow embedding of `dbft.go` and `payload/message.go`

The engine (`DBFT`) is a single-threaded state machine.  Each entry point and
handler of `dbft.go` is embedded as a function on a `World`: the `DBFT` value
together with the chronological log of the calls the handler makes to
collaborators (outbound sends, quorum checks, the timer, the mempool, the
future-message cache).

Code of the repository that `dbft.go` calls but that lives in other files
(the `Context` predicates, `send*`, `check*`, `reset`, the cache) is taken as a
parameter in `Env`, so every theorem holds for every implementation of it.
A Go run-time panic (index out of range, nil dereference, division by zero) is
the result `none`.
-/

namespace Dbft

/-! ## Basic types -/

/-- A 256-bit hash (`util.Uint256`), identified with a natural number. -/
abbrev Uint256 := Nat

/-- A 160-bit script hash (`util.Uint160`). -/
abbrev Uint160 := Nat

/-- A validator public key (`crypto.PublicKey`). -/
abbrev PublicKey := Nat

/-- A signature (byte string, identified with a natural number). -/
abbrev Signature := Nat

/-- A block or tentative header as handed around by `MakeHeader`. -/
abbrev Block := Nat

/-- A transaction as the engine sees it (`block.Transaction`): its hash and an
otherwise uninterpreted content. -/
structure Transaction where
  Hash : Uint256
  content : Nat
deriving DecidableEq, Repr

/-- Wrap an integer into the range of `int64` (two's complement). -/
def wrapInt64 (x : Int) : Int := (x + 2 ^ 63) % 2 ^ 64 - 2 ^ 63

/-- Go's `x << s` on `int64` (`time.Duration`): shift counts of 64 and more give 0. -/
def shl64 (x : Int) (s : Nat) : Int :=
  if 64 ≤ s then 0 else wrapInt64 (x * 2 ^ s)

/-- `time.Time.Sub`: the difference saturates at the ends of `int64`. -/
def timeSub (a b : Int) : Int :=
  if a - b < -(2 ^ 63) then -(2 ^ 63)
  else if 2 ^ 63 - 1 < a - b then 2 ^ 63 - 1
  else a - b

/-- Go slice read `xs[i]`: `none` is the index-out-of-range panic. -/
def index? {α : Type} (xs : List α) (i : Nat) : Option α := xs.get? i

/-- Go slice write `xs[i] = v`: `none` is the index-out-of-range panic. -/
def assign? {α : Type} (xs : List α) (i : Nat) (v : α) : Option (List α) :=
  if i < xs.length then some (xs.set i v) else none

/-! ## Messages (package `payload`, as seen through the `ConsensusPayload` interface) -/

/-- The type byte of a consensus message. -/
inductive MessageType
  | ChangeViewType
  | PrepareRequestType
  | PrepareResponseType
  | CommitType
  | RecoveryRequestType
  | RecoveryMessageType
  | UnknownType
deriving DecidableEq, Repr

/-- Body of a ChangeView message. -/
structure ChangeView where
  NewViewNumber : Nat
deriving DecidableEq, Repr

/-- Body of a PrepareRequest message. -/
structure PrepareRequest where
  Timestamp : Nat
  Nonce : Nat
  NextConsensus : Uint160
  TransactionHashes : List Uint256
deriving DecidableEq, Repr

/-- Body of a PrepareResponse message. -/
structure PrepareResponse where
  PreparationHash : Uint256
deriving DecidableEq, Repr

/-- Body of a Commit message. -/
structure Commit where
  Signature : Signature
deriving DecidableEq, Repr

/-- Body of a RecoveryRequest message. -/
structure RecoveryRequest where
  Timestamp : Nat
deriving DecidableEq, Repr

/-- Body of a RecoveryMessage.  Its contents are only reached through the
accessors `GetChangeViews`, `GetPrepareRequest`, `GetPrepareResponses` and
`GetCommits`, which are parameters in `Env`; `tag` identifies the message. -/
structure RecoveryMessage where
  tag : Nat
deriving DecidableEq, Repr

/-- Modelled from the spec: the typed message body, one of six kinds (the
message bodies are declared in other files of package `payload`). -/
inductive Body
  | changeView (p : ChangeView)
  | prepareRequest (p : PrepareRequest)
  | prepareResponse (p : PrepareResponse)
  | commit (p : Commit)
  | recoveryRequest (p : RecoveryRequest)
  | recoveryMessage (p : RecoveryMessage)
deriving DecidableEq, Repr

/-- What the engine observes of a `payload.ConsensusPayload`: the results of
its getters.  `Payload = none` is a nil body. -/
structure ConsensusPayload where
  ValidatorIndex : Nat
  Height : Nat
  ViewNumber : Nat
  MsgType : MessageType
  Payload : Option Body
deriving DecidableEq, Repr

namespace ConsensusPayload

/-- `GetChangeView()`: nil unless the body is a ChangeView. -/
def GetChangeView (m : ConsensusPayload) : Option ChangeView :=
  match m.Payload with
  | some (Body.changeView p) => some p
  | _ => none

/-- `GetPrepareRequest()`: nil unless the body is a PrepareRequest. -/
def GetPrepareRequest (m : ConsensusPayload) : Option PrepareRequest :=
  match m.Payload with
  | some (Body.prepareRequest p) => some p
  | _ => none

/-- `GetPrepareResponse()`: nil unless the body is a PrepareResponse. -/
def GetPrepareResponse (m : ConsensusPayload) : Option PrepareResponse :=
  match m.Payload with
  | some (Body.prepareResponse p) => some p
  | _ => none

/-- `GetCommit()`: nil unless the body is a Commit. -/
def GetCommit (m : ConsensusPayload) : Option Commit :=
  match m.Payload with
  | some (Body.commit p) => some p
  | _ => none

/-- `GetRecoveryMessage()`: nil unless the body is a RecoveryMessage. -/
def GetRecoveryMessage (m : ConsensusPayload) : Option RecoveryMessage :=
  match m.Payload with
  | some (Body.recoveryMessage p) => some p
  | _ => none

/-- `SetValidatorIndex(i)`. -/
def SetValidatorIndex (m : ConsensusPayload) (i : Nat) : ConsensusPayload :=
  { m with ValidatorIndex := i }

end ConsensusPayload

/-! ## State -/

/-- Modelled from the spec: one bucket of the future-message cache (the cache
is declared in another file of package `dbft`). -/
structure Bucket where
  prepare : List ConsensusPayload
  chViews : List ConsensusPayload
  commit : List ConsensusPayload
deriving DecidableEq, Repr

/-- Modelled from the spec: the future-message cache, `mail` maps a height to
its bucket. -/
structure Cache where
  mail : List (Nat × Bucket)
deriving DecidableEq, Repr

/-- Modelled from the spec: `cache.getHeight(h)`, the bucket of height `h`, nil
when there is none. -/
def Cache.getHeight (c : Cache) (h : Nat) : Option Bucket :=
  (c.mail.find? (fun e => e.1 == h)).map (fun e => e.2)

/-- The fields of `Context` that `dbft.go` reads or writes. -/
structure Context where
  BlockIndex : Nat
  ViewNumber : Nat
  MyIndex : Int
  Validators : List PublicKey
  Timestamp : Nat
  Nonce : Nat
  NextConsensus : Uint160
  TransactionHashes : List Uint256
  Transactions : List (Uint256 × Transaction)
  PreparationPayloads : List (Option ConsensusPayload)
  CommitPayloads : List (Option ConsensusPayload)
  ChangeViewPayloads : List (Option ConsensusPayload)
  LastSeenMessage : List Int
deriving DecidableEq, Repr

/-- The engine: `Context` (embedded), the last block persist time, the
future-message cache and the `recovering` flag. -/
structure DBFT extends Context where
  blockPersistTime : Int
  cache : Cache
  recovering : Bool
deriving DecidableEq, Repr

/-- A call made by the code of `dbft.go` to a collaborator. -/
inductive Call
  | sendPrepareRequest
  | sendPrepareResponse
  | sendChangeView
  | sendRecoveryRequest
  | sendRecoveryMessage
  | checkPrepare
  | checkCommit
  | checkChangeView (view : Nat)
  | reset (view : Nat)
  | TimerReset (height : Nat) (view : Nat) (delay : Int)
  | TimerExtend (delay : Int)
  | RequestTx (missing : List Uint256)
  | cacheAddMessage (m : ConsensusPayload)
deriving DecidableEq, Repr

/-- The engine together with the log of calls made so far, oldest first. -/
structure World where
  d : DBFT
  calls : List Call
deriving DecidableEq, Repr

/-- Everything `dbft.go` uses and does not define: the configured
collaborators (`Config`), and the code of the repository that lives in other
files, taken as parameters. -/
structure Env where
  /- Config -/
  SecondsPerBlock : Int
  Now : Int
  GetTx : Uint256 → Option Transaction
  GetConsensusAddress : List PublicKey → Uint160
  GetValidators : List Transaction → List PublicKey
  VerifyBlock : Option Block → Bool
  /- methods of payloads and headers -/
  Hash : ConsensusPayload → Uint256
  Verify : Block → PublicKey → Signature → Bool
  GetChangeViews : RecoveryMessage → ConsensusPayload → List ConsensusPayload
  GetPrepareRequest : RecoveryMessage → ConsensusPayload → Option ConsensusPayload
  GetPrepareResponses : RecoveryMessage → ConsensusPayload → List ConsensusPayload
  GetCommits : RecoveryMessage → ConsensusPayload → List ConsensusPayload
  /- methods of Context -/
  GetPrimaryIndex : Context → Nat → Nat
  RequestSentOrReceived : Context → Bool
  ResponseSent : Context → Bool
  CommitSent : Context → Bool
  BlockSent : Context → Bool
  ViewChanging : Context → Bool
  MoreThanFNodesCommittedOrLost : Context → Bool
  NotAcceptingPayloadsDueToViewChanging : Context → Bool
  MakeHeader : Context → Option Block
  hasAllTransactions : Context → Bool
  /- methods of DBFT defined in other files: their effect on the engine -/
  sendPrepareRequest : DBFT → DBFT
  sendPrepareResponse : DBFT → DBFT
  sendChangeView : DBFT → DBFT
  sendRecoveryRequest : DBFT → DBFT
  sendRecoveryMessage : DBFT → DBFT
  checkPrepare : DBFT → DBFT
  checkCommit : DBFT → DBFT
  checkChangeView : Nat → DBFT → DBFT
  reset : Nat → DBFT → DBFT
  cacheAddMessage : Cache → ConsensusPayload → Cache

namespace Context

/-- Modelled from the spec: `N()`, the number of validators (the methods of
`Context` are declared in another file of package `dbft`). -/
def N (c : Context) : Nat := c.Validators.length

/-- Modelled from the spec: `F()`, f = ⌊(N−1)/3⌋; for N = 0 Go's truncating
division gives 0 as well. -/
def F (c : Context) : Nat := (c.N - 1) / 3

/-- Modelled from the spec: `WatchOnly()`, MyIndex = −1 means WatchOnly. -/
def WatchOnly (c : Context) : Bool := c.MyIndex == -1

end Context

/-- Modelled from the spec: `IsPrimary()`, this node is the validator at the
primary index of the current view. -/
def IsPrimary (env : Env) (c : Context) : Bool :=
  c.MyIndex == (env.GetPrimaryIndex c c.ViewNumber : Int)

/-- Modelled from the spec: `IsBackup()`, any non-primary, non-watch-only
validator. -/
def IsBackup (env : Env) (c : Context) : Bool :=
  !IsPrimary env c && !c.WatchOnly

namespace World

/-- The `Context` embedded in the engine. -/
def ctx (w : World) : Context := w.d.toContext

/-- Record a call to an external collaborator that leaves the engine alone. -/
def log (w : World) (c : Call) : World := { w with calls := w.calls ++ [c] }

/-- Record a call to a method of `DBFT` defined elsewhere and apply its effect. -/
def invoke (w : World) (c : Call) (f : DBFT → DBFT) : World :=
  { d := f w.d, calls := w.calls ++ [c] }

/-- Change the engine without calling anything. -/
def modify (w : World) (f : DBFT → DBFT) : World := { w with d := f w.d }

end World

/-! ## `dbft.go` -/

/-- `changeTimer(delay)`: `Timer.Reset(HV{BlockIndex, ViewNumber}, delay)`. -/
def changeTimer (delay : Int) (w : World) : World :=
  w.log (Call.TimerReset w.d.BlockIndex w.d.ViewNumber delay)

/-- `extendTimer(count)`: unless Commit was sent or the view is changing,
`Timer.Extend(count * SecondsPerBlock / (len(Validators) - F()))`. -/
def extendTimer (env : Env) (count : Int) (w : World) : Option World :=
  if !env.CommitSent w.ctx && !env.ViewChanging w.ctx then
    if (w.d.Validators.length : Int) - (w.ctx.F : Int) = 0 then none
    else some (w.log (Call.TimerExtend
      (Int.tdiv (wrapInt64 (count * env.SecondsPerBlock))
        ((w.d.Validators.length : Int) - (w.ctx.F : Int)))))
  else some w

/-- `d.Transactions[h] = tx` on the association list that stands for the map. -/
def mapInsert (m : List (Uint256 × Transaction)) (h : Uint256) (tx : Transaction) :
    List (Uint256 × Transaction) :=
  match m with
  | [] => [(h, tx)]
  | e :: rest => if e.1 = h then (h, tx) :: rest else e :: mapInsert rest h tx

/-- `_, ok := d.Transactions[h]`. -/
def mapHas (m : List (Uint256 × Transaction)) (h : Uint256) : Bool :=
  m.any (fun e => e.1 == h)

/-- First statement of `addTransaction(tx)`: `d.Transactions[tx.Hash()] = tx`. -/
def storeTransaction (tx : Transaction) (w : World) : World :=
  w.modify (fun d => { d with Transactions := mapInsert d.Transactions tx.Hash tx })

/-- The rest of `addTransaction(tx)`, from `if d.hasAllTransactions()` on. -/
def addTransactionCheck (env : Env) (w1 : World) : Option World :=
  if env.hasAllTransactions w1.ctx then
    if IsPrimary env w1.ctx || w1.ctx.WatchOnly then some w1
    else if !env.VerifyBlock (env.MakeHeader w1.ctx) then
      some (w1.invoke Call.sendChangeView env.sendChangeView)
    else do
      let w2 ← extendTimer env 2 w1
      let w3 := w2.invoke Call.sendPrepareResponse env.sendPrepareResponse
      some (w3.invoke Call.checkPrepare env.checkPrepare)
  else some w1

/-- `addTransaction(tx)`. -/
def addTransaction (env : Env) (tx : Transaction) (w : World) : Option World :=
  addTransactionCheck env (storeTransaction tx w)

/-- The loop of `OnTransaction`: the first index at which `h` occurs in the
hashes triggers `addTransaction` and ends the handler. -/
def onTransactionLoop (env : Env) (tx : Transaction) (h : Uint256) :
    List Uint256 → World → Option World
  | [], w => some w
  | x :: rest, w => if h = x then addTransaction env tx w else onTransactionLoop env tx h rest w

/-- `OnTransaction(tx)`. -/
def OnTransaction (env : Env) (tx : Transaction) (w : World) : Option World :=
  if !IsBackup env w.ctx || env.NotAcceptingPayloadsDueToViewChanging w.ctx ||
      !env.RequestSentOrReceived w.ctx || env.ResponseSent w.ctx || env.BlockSent w.ctx then
    some w
  else if mapHas w.d.Transactions tx.Hash then some w
  else onTransactionLoop env tx tx.Hash w.d.TransactionHashes w

/-- `OnTimeout(hv)`, `hv = (height, view)`. -/
def OnTimeout (env : Env) (height view : Nat) (w : World) : World :=
  if w.ctx.WatchOnly then w
  else if height ≠ w.d.BlockIndex ∨ view ≠ w.d.ViewNumber then w
  else if IsPrimary env w.ctx && !env.RequestSentOrReceived w.ctx then
    w.invoke Call.sendPrepareRequest env.sendPrepareRequest
  else if (IsPrimary env w.ctx && env.RequestSentOrReceived w.ctx) || IsBackup env w.ctx then
    if env.CommitSent w.ctx then
      changeTimer (shl64 env.SecondsPerBlock 1)
        (w.invoke Call.sendRecoveryRequest env.sendRecoveryRequest)
    else w.invoke Call.sendChangeView env.sendChangeView
  else w

/-- `processMissingTx()`: the loop over `TransactionHashes`, collecting the
misses and the hits (`txx`) and filling `Transactions`. -/
def processMissingTxLoop (env : Env) :
    List Uint256 → List Uint256 → List Transaction → World →
      List Uint256 × List Transaction × World
  | [], missing, txx, w => (missing, txx, w)
  | h :: rest, missing, txx, w =>
    match env.GetTx h with
    | none => processMissingTxLoop env rest (missing ++ [h]) txx w
    | some tx =>
      processMissingTxLoop env rest missing (txx ++ [tx])
        (w.modify (fun d => { d with Transactions := mapInsert d.Transactions h tx }))

/-- `processMissingTx()`. -/
def processMissingTx (env : Env) (w : World) : World :=
  match processMissingTxLoop env w.d.TransactionHashes [] [] w with
  | (missing, txx, w1) =>
    if missing.length = 0 then
      if w1.d.NextConsensus ≠ env.GetConsensusAddress (env.GetValidators txx) then
        w1.invoke Call.sendChangeView env.sendChangeView
      else w1
    else w1.log (Call.RequestTx missing)

/-- First loop of `updateExistingPayloads(msg)`: clear every PrepareResponse
slot whose PreparationHash differs from `msg.Hash()`. -/
def updatePreparationsLoop (env : Env) (msg : ConsensusPayload) :
    List (Option ConsensusPayload) → Nat → World → World
  | [], _, w => w
  | m :: rest, i, w =>
    match m with
    | some m =>
      if m.MsgType = MessageType.PrepareResponseType then
        match m.GetPrepareResponse with
        | some resp =>
          if resp.PreparationHash ≠ env.Hash msg then
            updatePreparationsLoop env msg rest (i + 1)
              (w.modify (fun d => { d with PreparationPayloads := d.PreparationPayloads.set i none }))
          else updatePreparationsLoop env msg rest (i + 1) w
        | none => updatePreparationsLoop env msg rest (i + 1) w
      else updatePreparationsLoop env msg rest (i + 1) w
    | none => updatePreparationsLoop env msg rest (i + 1) w

/-- Second loop of `updateExistingPayloads(msg)`: clear every Commit slot of
the current view whose signature does not verify against the header. -/
def updateCommitsLoop (env : Env) :
    List (Option ConsensusPayload) → Nat → World → Option World
  | [], _, w => some w
  | m :: rest, i, w =>
    match m with
    | some m =>
      if m.ViewNumber = w.d.ViewNumber then
        match env.MakeHeader w.ctx with
        | some header =>
          match index? w.d.Validators m.ValidatorIndex, m.GetCommit with
          | some pub, some c =>
            if !env.Verify header pub c.Signature then
              updateCommitsLoop env rest (i + 1)
                (w.modify (fun d => { d with CommitPayloads := d.CommitPayloads.set i none }))
            else updateCommitsLoop env rest (i + 1) w
          | _, _ => none
        | none => updateCommitsLoop env rest (i + 1) w
      else updateCommitsLoop env rest (i + 1) w
    | none => updateCommitsLoop env rest (i + 1) w

/-- `updateExistingPayloads(msg)`. -/
def updateExistingPayloads (env : Env) (msg : ConsensusPayload) (w : World) : Option World :=
  let w1 := updatePreparationsLoop env msg w.d.PreparationPayloads 0 w
  updateCommitsLoop env w1.d.CommitPayloads 0 w1

/-- `onPrepareRequest(msg)`. -/
def onPrepareRequest (env : Env) (msg : ConsensusPayload) (w : World) : Option World :=
  if env.RequestSentOrReceived w.ctx then some w
  else if w.d.ViewNumber ≠ msg.ViewNumber then some w
  else if msg.ValidatorIndex ≠ env.GetPrimaryIndex w.ctx w.d.ViewNumber then some w
  else do
    let w1 ← extendTimer env 2 w
    let p ← msg.GetPrepareRequest
    let w2 := w1.modify (fun d =>
      { d with
        Timestamp := p.Timestamp
        Nonce := p.Nonce
        NextConsensus := p.NextConsensus
        TransactionHashes := p.TransactionHashes
        Transactions := [] })
    let w3 := processMissingTx env w2
    let w4 ← updateExistingPayloads env msg w3
    let slots ← assign? w4.d.PreparationPayloads msg.ValidatorIndex (some msg)
    let w5 := w4.modify (fun d => { d with PreparationPayloads := slots })
    if !env.hasAllTransactions w5.ctx then some w5
    else
      some ((w5.invoke Call.sendPrepareResponse env.sendPrepareResponse).invoke
        Call.checkPrepare env.checkPrepare)

/-- `onPrepareResponse(msg)`. -/
def onPrepareResponse (env : Env) (msg : ConsensusPayload) (w : World) : Option World :=
  if w.d.ViewNumber ≠ msg.ViewNumber then some w
  else do
    let m ← index? w.d.PreparationPayloads msg.ValidatorIndex
    if m.isSome || (env.ViewChanging w.ctx && !env.MoreThanFNodesCommittedOrLost w.ctx) then
      some w
    else do
      let slots ← assign? w.d.PreparationPayloads msg.ValidatorIndex (some msg)
      let w1 := w.modify (fun d => { d with PreparationPayloads := slots })
      let tail : World → Option World := fun w2 => do
        let w3 ← extendTimer env 2 w2
        if env.RequestSentOrReceived w3.ctx then
          some (w3.invoke Call.checkPrepare env.checkPrepare)
        else some w3
      let pm ← index? w1.d.PreparationPayloads (env.GetPrimaryIndex w1.ctx w1.d.ViewNumber)
      match pm with
      | some m =>
        match m.GetPrepareRequest with
        | none => some w1
        | some _ => do
          let resp ← msg.GetPrepareResponse
          if resp.PreparationHash ≠ env.Hash m then
            some (w1.modify (fun d =>
              { d with PreparationPayloads := d.PreparationPayloads.set msg.ValidatorIndex none }))
          else tail w1
      | none => tail w1

/-- The successor loop of `onRecoveryRequest`: `for i := 1; i <= F; i++`, with
`remaining` iterations left before `i` passes `F`. -/
def shouldSendLoop (sender n : Nat) (myIndex : Int) : Nat → Nat → Option Bool
  | 0, _ => some false
  | remaining + 1, i =>
    if n = 0 then none
    else if (((sender + i) % n : Nat) : Int) = myIndex then some true
    else shouldSendLoop sender n myIndex remaining (i + 1)

/-- `onRecoveryRequest(msg)`. -/
def onRecoveryRequest (env : Env) (msg : ConsensusPayload) (w : World) : Option World :=
  if !env.CommitSent w.ctx then do
    let shouldSend ← shouldSendLoop msg.ValidatorIndex w.d.Validators.length w.d.MyIndex w.ctx.F 1
    if !shouldSend then some w
    else some (w.invoke Call.sendRecoveryMessage env.sendRecoveryMessage)
  else some (w.invoke Call.sendRecoveryMessage env.sendRecoveryMessage)

/-- `onChangeView(msg)`. -/
def onChangeView (env : Env) (msg : ConsensusPayload) (w : World) : Option World := do
  let p ← msg.GetChangeView
  if p.NewViewNumber ≤ w.d.ViewNumber then onRecoveryRequest env msg w
  else if env.CommitSent w.ctx then some w
  else do
    let m ← index? w.d.ChangeViewPayloads msg.ValidatorIndex
    let older : Option Bool :=
      match m with
      | none => some false
      | some m => m.GetChangeView.map (fun c => decide (p.NewViewNumber < c.NewViewNumber))
    let drop ← older
    if drop then some w
    else do
      let slots ← assign? w.d.ChangeViewPayloads msg.ValidatorIndex (some msg)
      let w1 := w.modify (fun d => { d with ChangeViewPayloads := slots })
      some (w1.invoke (Call.checkChangeView p.NewViewNumber) (env.checkChangeView p.NewViewNumber))

/-- `d.CommitPayloads[msg.ValidatorIndex()] = msg`. -/
def storeCommit (msg : ConsensusPayload) (w : World) : Option World := do
  let slots ← assign? w.d.CommitPayloads msg.ValidatorIndex (some msg)
  some (w.modify (fun d => { d with CommitPayloads := slots }))

/-- `onCommit(msg)`. -/
def onCommit (env : Env) (msg : ConsensusPayload) (w : World) : Option World := do
  let w1 ← extendTimer env 4 w
  if w1.d.ViewNumber = msg.ViewNumber then
    match env.MakeHeader w1.ctx with
    | none => storeCommit msg w1
    | some header => do
      let pub ← index? w1.d.Validators msg.ValidatorIndex
      let c ← msg.GetCommit
      if env.Verify header pub c.Signature then do
        let w2 ← storeCommit msg w1
        some (w2.invoke Call.checkCommit env.checkCommit)
      else some w1
  else storeCommit msg w1

/-- A `for _, m := range msgs` loop that hands every message to one handler. -/
def forEach (handler : ConsensusPayload → World → Option World) :
    List ConsensusPayload → World → Option World
  | [], w => some w
  | m :: rest, w => do
    let w1 ← handler m w
    forEach handler rest w1

/-- First block of `onRecoveryMessage`: with `msg.ViewNumber() > d.ViewNumber`
(and Commit not sent), every ChangeView of the recovery goes to `onChangeView`.
`recovery` is `msg.GetRecoveryMessage()`; a method call on nil panics. -/
def recoverChangeViews (env : Env) (msg : ConsensusPayload)
    (recovery : Option RecoveryMessage) (w : World) : Option World :=
  if w.d.ViewNumber < msg.ViewNumber then
    match recovery with
    | some r => forEach (onChangeView env) (env.GetChangeViews r msg) w
    | none => none
  else some w

/-- The `if !d.RequestSentOrReceived()` block of `onRecoveryMessage`. -/
def recoverPrepareRequest (env : Env) (msg : ConsensusPayload)
    (recovery : Option RecoveryMessage) (w : World) : Option World :=
  if !env.RequestSentOrReceived w.ctx then
    match recovery with
    | some r =>
      match env.GetPrepareRequest r msg with
      | some prepReq =>
        onPrepareRequest env
          (prepReq.SetValidatorIndex (env.GetPrimaryIndex w.ctx msg.ViewNumber % 65536)) w
      | none =>
        if IsPrimary env w.ctx then
          some (w.invoke Call.sendPrepareRequest env.sendPrepareRequest)
        else some w
    | none => none
  else some w

/-- Second block of `onRecoveryMessage`: in the current view, the
PrepareRequest and then every PrepareResponse of the recovery. -/
def recoverPreparations (env : Env) (msg : ConsensusPayload)
    (recovery : Option RecoveryMessage) (w : World) : Option World :=
  if msg.ViewNumber = w.d.ViewNumber ∧
      !(env.ViewChanging w.ctx && !env.MoreThanFNodesCommittedOrLost w.ctx) ∧
      !env.CommitSent w.ctx then
    match recoverPrepareRequest env msg recovery w with
    | some w1 =>
      match recovery with
      | some r => forEach (onPrepareResponse env) (env.GetPrepareResponses r msg) w1
      | none => none
    | none => none
  else some w

/-- Third block of `onRecoveryMessage`: with `msg.ViewNumber() <= d.ViewNumber`,
every Commit of the recovery goes to `onCommit`. -/
def recoverCommits (env : Env) (msg : ConsensusPayload)
    (recovery : Option RecoveryMessage) (w : World) : Option World :=
  if msg.ViewNumber ≤ w.d.ViewNumber then
    match recovery with
    | some r => forEach (onCommit env) (env.GetCommits r msg) w
    | none => none
  else some w

/-- The statements of `onRecoveryMessage(msg)` after `d.recovering = true`; the
deferred function is applied by `onRecoveryMessage`.  The early `return` is
taken when `msg.ViewNumber() > d.ViewNumber` and Commit was sent. -/
def onRecoveryMessageBody (env : Env) (msg : ConsensusPayload)
    (recovery : Option RecoveryMessage) (w : World) : Option World :=
  if w.d.ViewNumber < msg.ViewNumber ∧ env.CommitSent w.ctx then some w
  else
    (recoverChangeViews env msg recovery w).bind (fun w1 =>
      (recoverPreparations env msg recovery w1).bind (fun w2 =>
        recoverCommits env msg recovery w2))

/-- `onRecoveryMessage(msg)`: `recovering` is set, the body runs, and the
deferred function clears `recovering`. -/
def onRecoveryMessage (env : Env) (msg : ConsensusPayload) (w : World) : Option World := do
  let w1 := w.modify (fun d => { d with recovering := true })
  let w2 ← onRecoveryMessageBody env msg msg.GetRecoveryMessage w1
  some (w2.modify (fun d => { d with recovering := false }))

/-- The `switch msg.Type()` of `OnReceive`. -/
def handle (env : Env) (msg : ConsensusPayload) (w : World) : Option World :=
  match msg.MsgType with
  | MessageType.ChangeViewType => onChangeView env msg w
  | MessageType.PrepareRequestType => onPrepareRequest env msg w
  | MessageType.PrepareResponseType => onPrepareResponse env msg w
  | MessageType.CommitType => onCommit env msg w
  | MessageType.RecoveryRequestType => onRecoveryRequest env msg w
  | MessageType.RecoveryMessageType => onRecoveryMessage env msg w
  | MessageType.UnknownType => some w

/-- `d.cache.addMessage(msg)`. -/
def cacheMessage (env : Env) (msg : ConsensusPayload) (w : World) : World :=
  (w.modify (fun d => { d with cache := env.cacheAddMessage d.cache msg })).log
    (Call.cacheAddMessage msg)

/-- The update of `LastSeenMessage` in `OnReceive` (lines 218-221). -/
def updateLastSeen (msg : ConsensusPayload) (w : World) : Option World := do
  let h ← index? w.d.LastSeenMessage msg.ValidatorIndex
  if h < (msg.Height : Int) then
    some (w.modify (fun d =>
      { d with LastSeenMessage := d.LastSeenMessage.set msg.ValidatorIndex (msg.Height : Int) }))
  else some w

/-- `OnReceive(msg)`.  `d.ViewNumber+1` is a byte sum and `uint16(d.N())` a
truncation. -/
def OnReceive (env : Env) (msg : ConsensusPayload) (w : World) : Option World :=
  if w.d.Validators.length ≤ msg.ValidatorIndex then some w
  else if msg.Payload.isNone then some w
  else if msg.Height < w.d.BlockIndex then some w
  else if w.d.BlockIndex < msg.Height ∨
      (msg.Height = w.d.BlockIndex ∧ msg.ViewNumber = (w.d.ViewNumber + 1) % 256) then
    some (cacheMessage env msg w)
  else if w.ctx.N % 65536 < msg.ValidatorIndex then some w
  else do
    let w1 ← updateLastSeen msg w
    handle env msg w1

/-- `InitializeConsensus(view)`. -/
def InitializeConsensus (env : Env) (view : Nat) (w : World) : World :=
  let w1 := w.invoke (Call.reset view) (env.reset view)
  if w1.ctx.WatchOnly then w1
  else if IsPrimary env w1.ctx && !w1.d.recovering then
    let span : Int :=
      if w1.d.blockPersistTime ≠ 0 then timeSub env.Now w1.d.blockPersistTime else 0
    if env.SecondsPerBlock ≤ span then changeTimer 0 w1
    else changeTimer (wrapInt64 (env.SecondsPerBlock - span)) w1
  else changeTimer (shl64 env.SecondsPerBlock ((w1.d.ViewNumber + 1) % 256)) w1

/-- The handler `start` picks for a message of the prepare list. -/
def replayPrepare (env : Env) (m : ConsensusPayload) (w : World) : Option World :=
  if m.MsgType = MessageType.PrepareRequestType then onPrepareRequest env m w
  else onPrepareResponse env m w

/-- `start()`. -/
def start (env : Env) (w : World) : Option World :=
  if !IsPrimary env w.ctx then
    match w.d.cache.getHeight w.d.BlockIndex with
    | some msgs => do
      let w1 ← forEach (replayPrepare env) msgs.prepare w
      let w2 ← forEach (onChangeView env) msgs.chViews w1
      forEach (onCommit env) msgs.commit w2
    | none => some w
  else some (w.invoke Call.sendPrepareRequest env.sendPrepareRequest)

/-- `Start()`: a fresh cache, `InitializeConsensus(0)`, then `start`. -/
def Start (env : Env) (w : World) : Option World :=
  start env (InitializeConsensus env 0 (w.modify (fun d => { d with cache := { mail := [] } })))

/-- The calls a message handler of `dbft.go` can make: everything but the
timer reset, the engine reset, sendRecoveryRequest and the cache. -/
def Call.fromHandler : Call → Bool
  | Call.sendRecoveryRequest => false
  | Call.reset _ => false
  | Call.TimerReset _ _ _ => false
  | Call.cacheAddMessage _ => false
  | _ => true

/-- The log of `w2` is the log of `w1` followed by handler calls only. -/
def Added (w1 w2 : World) : Prop :=
  ∃ l : List Call, w2.calls = w1.calls ++ l ∧ ∀ c ∈ l, c.fromHandler = true

/-- The list `xs` with entry `i` raised to `max xs[i] h` (the update of
`LastSeenMessage` as the spec words it). -/
def raiseTo (xs : List Int) (i : Nat) (h : Int) : List Int :=
  xs.set i (max (xs.getD i 0) h)

/-- The world `w` with `msg` in slot `msg.ValidatorIndex` of CommitPayloads. -/
def withCommit (msg : ConsensusPayload) (w : World) : World :=
  w.modify (fun d =>
    { d with CommitPayloads := d.CommitPayloads.set msg.ValidatorIndex (some msg) })

/-- The world `w` with `msg` in slot `msg.ValidatorIndex` of ChangeViewPayloads. -/
def withChangeView (msg : ConsensusPayload) (w : World) : World :=
  w.modify (fun d =>
    { d with ChangeViewPayloads := d.ChangeViewPayloads.set msg.ValidatorIndex (some msg) })

/-- The `span` of `InitializeConsensus`: the time since the last block was
persisted, and 0 while `blockPersistTime` is the zero time. -/
def spanSince (now blockPersistTime : Int) : Int :=
  if blockPersistTime ≠ 0 then timeSub now blockPersistTime else 0

/-- The handlers `start` hands cached messages to. -/
inductive Replay
  | toPrepareRequest
  | toPrepareResponse
  | toChangeView
  | toCommit
deriving DecidableEq, Repr

/-- The phase of a replay: prepares 0, change-views 1, commits 2. -/
def Replay.phase : Replay → Nat
  | Replay.toPrepareRequest => 0
  | Replay.toPrepareResponse => 0
  | Replay.toChangeView => 1
  | Replay.toCommit => 2

/-- The handler a replay stands for. -/
def Replay.run (env : Env) : Replay → ConsensusPayload → World → Option World
  | Replay.toPrepareRequest => onPrepareRequest env
  | Replay.toPrepareResponse => onPrepareResponse env
  | Replay.toChangeView => onChangeView env
  | Replay.toCommit => onCommit env

/-- The replay order in the words of the spec: every message of the prepare
list in arrival order (a PrepareRequest to onPrepareRequest, any other to
onPrepareResponse), then every change-view, then every commit. -/
def replayPlan (b : Bucket) : List (Replay × ConsensusPayload) :=
  b.prepare.map (fun m =>
    (if m.MsgType = MessageType.PrepareRequestType then Replay.toPrepareRequest
     else Replay.toPrepareResponse, m)) ++
  (b.chViews.map (fun m => (Replay.toChangeView, m)) ++
    b.commit.map (fun m => (Replay.toCommit, m)))

/-- Run a sequence of handler invocations, one after the other; a panic ends
the run. -/
def runPlan (env : Env) : List (Replay × ConsensusPayload) → World → Option World
  | [], w => some w
  | x :: rest, w => (x.1.run env x.2 w).bind (runPlan env rest)

/-- The prepare-hash invariant on an array of preparation slots: every slot
that holds a PrepareResponse has PreparationHash `h`. -/
def ResponsesMatch (slots : List (Option ConsensusPayload)) (h : Uint256) : Prop :=
  ∀ j m resp, slots.get? j = some (some m) →
    m.MsgType = MessageType.PrepareResponseType →
    m.GetPrepareResponse = some resp → resp.PreparationHash = h

/-- What the first loop of `updateExistingPayloads(msg)` makes of one slot: a
PrepareResponse whose PreparationHash differs from `msg.Hash()` is cleared. -/
def revalidate (env : Env) (msg : ConsensusPayload) (slot : Option ConsensusPayload) :
    Option ConsensusPayload :=
  match slot with
  | some m =>
    if m.MsgType = MessageType.PrepareResponseType then
      match m.GetPrepareResponse with
      | some resp => if resp.PreparationHash ≠ env.Hash msg then none else some m
      | none => some m
    else some m
  | none => none

/-- What `onRecoveryMessage` calls between the assignment of `recovering` and
the deferred function: a handler with a message, or `d.sendPrepareRequest(ctx)`
(line 517). -/
inductive Callee
  | handler (k : Replay) (m : ConsensusPayload)
  | sendPrepareRequest
deriving DecidableEq, Repr

/-- The call a callee stands for. -/
def Callee.run (env : Env) : Callee → World → Option World
  | Callee.handler k m, w => k.run env m w
  | Callee.sendPrepareRequest, w =>
    some (w.invoke Call.sendPrepareRequest env.sendPrepareRequest)

/-- One call made by `onRecoveryMessage`, with the world it starts in. -/
structure Invocation where
  callee : Callee
  world : World
deriving DecidableEq, Repr

/-- The calls made so far, oldest first, and the world reached (`none` after a
panic). -/
abbrev Traced := List Invocation × Option World

/-- Sequencing: `f` runs in the world `r` ends in and its calls follow those of
`r`; after a panic nothing runs. -/
def Traced.andThen (r : Traced) (f : World → Traced) : Traced :=
  match r.2 with
  | some w => (r.1 ++ (f w).1, (f w).2)
  | none => (r.1, none)

/-- One call, recorded with the world it starts in. -/
def traceCall (env : Env) (c : Callee) (w : World) : Traced :=
  ([{ callee := c, world := w }], c.run env w)

/-- The loop `forEach (k.run env) msgs` with every call recorded. -/
def forEachTraced (env : Env) (k : Replay) : List ConsensusPayload → World → Traced
  | [], w => ([], some w)
  | m :: rest, w =>
    (traceCall env (Callee.handler k m) w).andThen (forEachTraced env k rest)

/-- The block `recoverChangeViews` with every call of `onChangeView` recorded. -/
def recoverChangeViewsTraced (env : Env) (msg : ConsensusPayload)
    (recovery : Option RecoveryMessage) (w : World) : Traced :=
  if w.d.ViewNumber < msg.ViewNumber then
    match recovery with
    | some r => forEachTraced env Replay.toChangeView (env.GetChangeViews r msg) w
    | none => ([], none)
  else ([], some w)

/-- The block `recoverPrepareRequest` with the call of `onPrepareRequest` or
of `sendPrepareRequest` recorded. -/
def recoverPrepareRequestTraced (env : Env) (msg : ConsensusPayload)
    (recovery : Option RecoveryMessage) (w : World) : Traced :=
  if !env.RequestSentOrReceived w.ctx then
    match recovery with
    | some r =>
      match env.GetPrepareRequest r msg with
      | some prepReq =>
        traceCall env (Callee.handler Replay.toPrepareRequest
          (prepReq.SetValidatorIndex (env.GetPrimaryIndex w.ctx msg.ViewNumber % 65536))) w
      | none =>
        if IsPrimary env w.ctx then traceCall env Callee.sendPrepareRequest w
        else ([], some w)
    | none => ([], none)
  else ([], some w)

/-- The block `recoverPreparations` with every call recorded. -/
def recoverPreparationsTraced (env : Env) (msg : ConsensusPayload)
    (recovery : Option RecoveryMessage) (w : World) : Traced :=
  if msg.ViewNumber = w.d.ViewNumber ∧
      !(env.ViewChanging w.ctx && !env.MoreThanFNodesCommittedOrLost w.ctx) ∧
      !env.CommitSent w.ctx then
    (recoverPrepareRequestTraced env msg recovery w).andThen (fun w1 =>
      match recovery with
      | some r =>
        forEachTraced env Replay.toPrepareResponse (env.GetPrepareResponses r msg) w1
      | none => ([], none))
  else ([], some w)

/-- The block `recoverCommits` with every call of `onCommit` recorded. -/
def recoverCommitsTraced (env : Env) (msg : ConsensusPayload)
    (recovery : Option RecoveryMessage) (w : World) : Traced :=
  if msg.ViewNumber ≤ w.d.ViewNumber then
    match recovery with
    | some r => forEachTraced env Replay.toCommit (env.GetCommits r msg) w
    | none => ([], none)
  else ([], some w)

/-- The statements of `onRecoveryMessage(msg)` after `d.recovering = true`
(lines 498-533) with every call recorded: the early `return` makes none. -/
def onRecoveryMessageBodyTraced (env : Env) (msg : ConsensusPayload)
    (recovery : Option RecoveryMessage) (w : World) : Traced :=
  if w.d.ViewNumber < msg.ViewNumber ∧ env.CommitSent w.ctx then ([], some w)
  else
    (recoverChangeViewsTraced env msg recovery w).andThen (fun w1 =>
      (recoverPreparationsTraced env msg recovery w1).andThen (fun w2 =>
        recoverCommitsTraced env msg recovery w2))

/-- `onRecoveryMessage(msg)` with every call recorded: `recovering` is set,
the body runs, and the deferred function clears `recovering`. -/
def onRecoveryMessageTraced (env : Env) (msg : ConsensusPayload) (w : World) : Traced :=
  let r := onRecoveryMessageBodyTraced env msg msg.GetRecoveryMessage
    (w.modify (fun d => { d with recovering := true }))
  (r.1, r.2.map (fun w2 => w2.modify (fun d => { d with recovering := false })))

/-- The trace `t` is a run from `w` that ends in `res`: every call starts in
the world recorded for it, the first in `w` and each later one in the world the
call before it returned; a call that panics is the last one and `res` is
`none`; after the last call `res`, when it is a world, is the world that call
returned (`w` itself when there is no call), and it is `none` for a panic
outside the calls (a method call on a nil `recovery`). -/
def IsRun (env : Env) : World → List Invocation → Option World → Prop
  | w, [], res => ∀ w1, res = some w1 → w1 = w
  | w, i :: rest, res =>
    i.world = w ∧
      match i.callee.run env w with
      | some w1 => IsRun env w1 rest res
      | none => rest = [] ∧ res = none

/-- The methods of `DBFT` that the handlers call and that are defined in other
files leave the `recovering` flag alone (only `onRecoveryMessage` assigns it). -/
def KeepsRecovering (env : Env) : Prop :=
  (∀ d, (env.sendPrepareRequest d).recovering = d.recovering) ∧
  (∀ d, (env.sendPrepareResponse d).recovering = d.recovering) ∧
  (∀ d, (env.sendChangeView d).recovering = d.recovering) ∧
  (∀ d, (env.sendRecoveryMessage d).recovering = d.recovering) ∧
  (∀ d, (env.checkPrepare d).recovering = d.recovering) ∧
  (∀ d, (env.checkCommit d).recovering = d.recovering) ∧
  (∀ v d, (env.checkChangeView v d).recovering = d.recovering)

/-! ## A sample environment

Concrete collaborators on which the handlers can be evaluated: four
validators' worth of slots, a mempool that knows every transaction, and
`send*` methods that record the node's own payload. -/

/-- Slot `i` of a payload array, empty when `i` is out of range or negative. -/
def slotAt (xs : List (Option ConsensusPayload)) (i : Int) : Option ConsensusPayload :=
  if 0 ≤ i then (xs.get? i.toNat).join else none

/-- Sample `GetPrimaryIndex`: (H − view) mod N. -/
def samplePrimaryIndex (c : Context) (view : Nat) : Nat :=
  (((c.BlockIndex : Int) - (view : Int)) % (c.N : Int)).toNat

/-- Sample `RequestSentOrReceived`: the primary's preparation slot is filled. -/
def sampleRequestSentOrReceived (c : Context) : Bool :=
  (slotAt c.PreparationPayloads (samplePrimaryIndex c c.ViewNumber)).isSome

/-- Sample `ViewChanging`: the node's own ChangeView asks for a later view. -/
def sampleViewChanging (c : Context) : Bool :=
  match slotAt c.ChangeViewPayloads c.MyIndex with
  | some m =>
    match m.GetChangeView with
    | some p => decide (c.ViewNumber < p.NewViewNumber)
    | none => false
  | none => false

/-- Sample `hasAllTransactions`: every proposed hash has its transaction. -/
def sampleHasAllTransactions (c : Context) : Bool :=
  c.TransactionHashes.all (fun h => mapHas c.Transactions h)

/-- Sample own payload of the given kind. -/
def ownPayload (d : DBFT) (t : MessageType) (b : Body) : ConsensusPayload :=
  { ValidatorIndex := d.MyIndex.toNat, Height := d.BlockIndex, ViewNumber := d.ViewNumber,
    MsgType := t, Payload := some b }

/-- Sample `cache.addMessage`: the message is appended to the list of its kind
in the bucket of its height. -/
def sampleAddMessage (c : Cache) (m : ConsensusPayload) : Cache :=
  let b : Bucket := (c.getHeight m.Height).getD { prepare := [], chViews := [], commit := [] }
  let b1 : Bucket :=
    match m.MsgType with
    | MessageType.PrepareRequestType => { b with prepare := b.prepare ++ [m] }
    | MessageType.PrepareResponseType => { b with prepare := b.prepare ++ [m] }
    | MessageType.ChangeViewType => { b with chViews := b.chViews ++ [m] }
    | MessageType.CommitType => { b with commit := b.commit ++ [m] }
    | _ => b
  { mail := (m.Height, b1) :: c.mail.filter (fun e => e.1 != m.Height) }

/-- The sample environment. -/
def sampleEnv : Env where
  SecondsPerBlock := 15000000000
  Now := 0
  GetTx := fun h => some { Hash := h, content := 0 }
  GetConsensusAddress := fun vs => vs.sum
  GetValidators := fun txx => txx.map (fun tx => tx.Hash)
  VerifyBlock := fun b => b.isSome
  Hash := fun m => 1000 * m.Height + 10 * m.ViewNumber + m.ValidatorIndex
  Verify := fun _ pub sig => pub == sig
  GetChangeViews := fun _ _ => []
  GetPrepareRequest := fun _ _ => none
  GetPrepareResponses := fun _ _ => []
  GetCommits := fun _ _ => []
  GetPrimaryIndex := samplePrimaryIndex
  RequestSentOrReceived := sampleRequestSentOrReceived
  ResponseSent := fun c => (slotAt c.PreparationPayloads c.MyIndex).isSome
  CommitSent := fun c => (slotAt c.CommitPayloads c.MyIndex).isSome
  BlockSent := fun _ => false
  ViewChanging := sampleViewChanging
  MoreThanFNodesCommittedOrLost := fun _ => false
  NotAcceptingPayloadsDueToViewChanging := sampleViewChanging
  MakeHeader := fun c =>
    if sampleRequestSentOrReceived c && sampleHasAllTransactions c then some c.BlockIndex
    else none
  hasAllTransactions := sampleHasAllTransactions
  sendPrepareRequest := fun d =>
    { d with PreparationPayloads := (d.PreparationPayloads.set d.MyIndex.toNat
        (some (ownPayload d MessageType.PrepareRequestType (Body.prepareRequest
          { Timestamp := 0, Nonce := 0, NextConsensus := 0, TransactionHashes := [] })))) }
  sendPrepareResponse := fun d =>
    { d with PreparationPayloads := (d.PreparationPayloads.set d.MyIndex.toNat
        (some (ownPayload d MessageType.PrepareResponseType (Body.prepareResponse
          { PreparationHash := 1000 * d.BlockIndex + 10 * d.ViewNumber +
              samplePrimaryIndex d.toContext d.ViewNumber })))) }
  sendChangeView := fun d =>
    { d with ChangeViewPayloads := (d.ChangeViewPayloads.set d.MyIndex.toNat
        (some (ownPayload d MessageType.ChangeViewType (Body.changeView
          { NewViewNumber := (d.ViewNumber + 1) % 256 })))) }
  sendRecoveryRequest := fun d => d
  sendRecoveryMessage := fun d => d
  checkPrepare := fun d => d
  checkCommit := fun d => d
  checkChangeView := fun _ d => d
  reset := fun _ d => d
  cacheAddMessage := sampleAddMessage

/-- A sample engine: height 10, view `view`, four validators, node `myIndex`,
nothing received yet. -/
def sampleDBFT (view : Nat) (myIndex : Int) : DBFT where
  BlockIndex := 10
  ViewNumber := view
  MyIndex := myIndex
  Validators := [11, 12, 13, 14]
  Timestamp := 0
  Nonce := 0
  NextConsensus := 0
  TransactionHashes := []
  Transactions := []
  PreparationPayloads := [none, none, none, none]
  CommitPayloads := [none, none, none, none]
  ChangeViewPayloads := [none, none, none, none]
  LastSeenMessage := [0, 0, 0, 0]
  blockPersistTime := 0
  cache := { mail := [] }
  recovering := false

/-- A sample world with an empty call log. -/
def sampleWorld (view : Nat) (myIndex : Int) : World :=
  { d := sampleDBFT view myIndex, calls := [] }

/-- A PrepareRequest of the primary (validator 2 at height 10, view 0) over the
transactions 5 and 6, whose NextConsensus 99 is not the address 11 of the
validators chosen from them. -/
def badNextConsensusRequest : ConsensusPayload where
  ValidatorIndex := 2
  Height := 10
  ViewNumber := 0
  MsgType := MessageType.PrepareRequestType
  Payload := some (Body.prepareRequest
    { Timestamp := 1, Nonce := 2, NextConsensus := 99, TransactionHashes := [5, 6] })

/-- A ChangeView of validator 0 for height 10 that carries view number 0. -/
def viewZeroMessage : ConsensusPayload where
  ValidatorIndex := 0
  Height := 10
  ViewNumber := 0
  MsgType := MessageType.ChangeViewType
  Payload := some (Body.changeView { NewViewNumber := 0 })

/-- A PrepareResponse of validator 3 for height 10 and the given view. -/
def responseMessage (view : Nat) : ConsensusPayload where
  ValidatorIndex := 3
  Height := 10
  ViewNumber := view
  MsgType := MessageType.PrepareResponseType
  Payload := some (Body.prepareResponse { PreparationHash := 10002 })

/-- The sample engine of backup 1 after the PrepareRequest of the primary
(validator 2) over the transactions 5 and 6, none of them received yet, with
the node's own Commit already in its slot and no PrepareResponse sent. -/
def committedWorld : World where
  d := { sampleDBFT 0 1 with
    TransactionHashes := [5, 6]
    PreparationPayloads := [none, none, some badNextConsensusRequest, none]
    CommitPayloads := [none,
      some { ValidatorIndex := 1, Height := 10, ViewNumber := 0,
             MsgType := MessageType.CommitType, Payload := some (Body.commit { Signature := 12 }) },
      none, none] }
  calls := []

/-- A Commit of validator 3 for height 10 and the given view, signed 14 (the
key of validator 3, which the sample `Verify` accepts). -/
def commitMessage (view : Nat) : ConsensusPayload where
  ValidatorIndex := 3
  Height := 10
  ViewNumber := view
  MsgType := MessageType.CommitType
  Payload := some (Body.commit { Signature := 14 })

/-- A ChangeView of validator 3 for height 10 asking for view `newView`. -/
def changeViewMessage (newView : Nat) : ConsensusPayload where
  ValidatorIndex := 3
  Height := 10
  ViewNumber := 0
  MsgType := MessageType.ChangeViewType
  Payload := some (Body.changeView { NewViewNumber := newView })

/-- The sample environment with a clock that reads 10^18 ns. -/
def lateEnv : Env := { sampleEnv with Now := 1000000000000000000 }

/-- The sample engine of node 2 (primary of view 0) whose last block was
persisted at 5 s, ahead of the clock of the sample environment (0). -/
def aheadWorld : World :=
  { d := { sampleDBFT 0 2 with blockPersistTime := 5000000000 }, calls := [] }

/-- A PrepareRequest of the primary (validator 2 at height 10, view 0) over the
transactions 5 and 6 whose NextConsensus is the address 11 of the validators
chosen from them. -/
def goodRequest : ConsensusPayload where
  ValidatorIndex := 2
  Height := 10
  ViewNumber := 0
  MsgType := MessageType.PrepareRequestType
  Payload := some (Body.prepareRequest
    { Timestamp := 1, Nonce := 2, NextConsensus := 11, TransactionHashes := [5, 6] })

/-- The sample engine of backup 1 at view 0 whose cache holds, for the current
height 10, a PrepareResponse, a ChangeView and a Commit of validator 3. -/
def cachedWorld : World :=
  { d := { sampleDBFT 0 1 with
      cache := sampleAddMessage (sampleAddMessage (sampleAddMessage { mail := [] }
        (commitMessage 0)) (responseMessage 0)) (changeViewMessage 1) },
    calls := [] }

/-- The sample engine of backup 1 at view 0 that already holds, in slot 3, a
PrepareResponse whose PreparationHash 777 is not the hash 10002 of
`goodRequest`. -/
def staleResponseWorld : World :=
  { d := { sampleDBFT 0 1 with
      PreparationPayloads := [none, none, none,
        some { ValidatorIndex := 3, Height := 10, ViewNumber := 0,
               MsgType := MessageType.PrepareResponseType,
               Payload := some (Body.prepareResponse { PreparationHash := 777 }) }] },
    calls := [] }

/-- The sample environment in which a RecoveryMessage carries one ChangeView,
one PrepareResponse and one Commit of validator 3. -/
def recoveryEnv : Env :=
  { sampleEnv with
    GetChangeViews := fun _ _ => [changeViewMessage 1]
    GetPrepareResponses := fun _ _ => [responseMessage 0]
    GetCommits := fun _ _ => [commitMessage 0] }

/-- A RecoveryMessage of validator 3 for height 10 and the given view. -/
def recoveryMessage (view : Nat) : ConsensusPayload where
  ValidatorIndex := 3
  Height := 10
  ViewNumber := view
  MsgType := MessageType.RecoveryMessageType
  Payload := some (Body.recoveryMessage { tag := 0 })

/-- A PrepareResponse for height 10, view 0 that carries the index 2 of the
primary as its ValidatorIndex. -/
def primaryResponse : ConsensusPayload where
  ValidatorIndex := 2
  Height := 10
  ViewNumber := 0
  MsgType := MessageType.PrepareResponseType
  Payload := some (Body.prepareResponse { PreparationHash := 777 })

/-! ## `payload/message.go`

The unsigned wire form of a consensus payload, written and read with the
binary reader and writer of the `io` package of neo-go (an external library):
little-endian fixed-width integers, and byte strings prefixed with their
length as a variable-length integer.  The inner `message` is declared in
another file of package `payload`; its codec is a parameter. -/

/-- A byte. -/
abbrev Byte := Fin 256

/-- The errors `io.ReadFull` reports. -/
inductive ReadError
  | EOF
  | ErrUnexpectedEOF
deriving DecidableEq, Repr

/-- The `w` little-endian bytes of `v` (`v` truncated to `w` bytes). -/
def putLE : Nat → Nat → List Byte
  | 0, _ => []
  | w + 1, v => Fin.ofNat (v % 256) :: putLE w (v / 256)

/-- The number whose little-endian bytes are `bs`. -/
def getLE : List Byte → Nat
  | [] => 0
  | b :: bs => b.val + 256 * getLE bs

/-- `io.BinWriter` over a `bytes.Buffer`: the bytes written so far and the
sticky error. -/
structure BinWriter where
  buf : List Byte
  Err : Option ReadError
deriving DecidableEq, Repr

/-- `io.BinReader` over a `bytes.Reader`: the bytes not yet read and the sticky
error. -/
structure BinReader where
  buf : List Byte
  Err : Option ReadError
deriving DecidableEq, Repr

/-- `io.NewBufBinWriter()`. -/
def NewBufBinWriter : BinWriter := { buf := [], Err := none }

/-- `BufBinWriter.Bytes()`: nil after an error. -/
def BinWriter.Bytes (w : BinWriter) : List Byte :=
  if w.Err.isSome then [] else w.buf

/-- `io.NewBinReaderFromBuf(data)`. -/
def NewBinReaderFromBuf (data : List Byte) : BinReader := { buf := data, Err := none }

/-- `BinWriter.WriteLE(v)` for an integer of `width` bytes: nothing after an
error; a write into a `bytes.Buffer` does not fail. -/
def BinWriter.WriteLE (w : BinWriter) (width v : Nat) : BinWriter :=
  if w.Err.isSome then w else { w with buf := w.buf ++ putLE width v }

/-- `BinWriter.WriteLE(b)` for a byte slice. -/
def BinWriter.WriteRaw (w : BinWriter) (b : List Byte) : BinWriter :=
  if w.Err.isSome then w else { w with buf := w.buf ++ b }

/-- `BinWriter.WriteVarUint(val)`. -/
def BinWriter.WriteVarUint (w : BinWriter) (val : Nat) : BinWriter :=
  if w.Err.isSome then w
  else if val < 0xfd then w.WriteLE 1 val
  else if val < 0xFFFF then (w.WriteLE 1 0xfd).WriteLE 2 val
  else if val < 0xFFFFFFFF then (w.WriteLE 1 0xfe).WriteLE 4 val
  else (w.WriteLE 1 0xff).WriteLE 8 val

/-- `BinWriter.WriteBytes(b)`: the length as a variable-length integer, then
the bytes. -/
def BinWriter.WriteBytes (w : BinWriter) (b : List Byte) : BinWriter :=
  (w.WriteVarUint (b.length % 2 ^ 64)).WriteRaw b

/-- `io.ReadFull` of `n` bytes from a `bytes.Reader`: the bytes and the rest, or
the error once the buffer runs short (what was there is consumed). -/
def readFull (n : Nat) (buf : List Byte) : Except ReadError (List Byte) × List Byte :=
  if n ≤ buf.length then (Except.ok (buf.take n), buf.drop n)
  else if buf.length = 0 then (Except.error ReadError.EOF, [])
  else (Except.error ReadError.ErrUnexpectedEOF, [])

/-- `r.Err = binary.Read(r.r, binary.LittleEndian, &v)` for an integer of
`width` bytes whose previous value is `old`: on an error `v` keeps `old`. -/
def BinReader.binaryRead (r : BinReader) (width old : Nat) : Nat × BinReader :=
  match readFull width r.buf with
  | (Except.ok bs, rest) => (getLE bs, { buf := rest, Err := none })
  | (Except.error e, rest) => (old, { buf := rest, Err := some e })

/-- `BinReader.ReadLE(&v)`: nothing after an error. -/
def BinReader.ReadLE (r : BinReader) (width old : Nat) : Nat × BinReader :=
  if r.Err.isSome then (old, r) else r.binaryRead width old

/-- `BinReader.ReadVarUint()`. -/
def BinReader.ReadVarUint (r : BinReader) : Nat × BinReader :=
  if r.Err.isSome then (0, r)
  else
    match r.binaryRead 1 0 with
    | (b, r1) =>
      if b = 0xfd then r1.binaryRead 2 0
      else if b = 0xfe then r1.binaryRead 4 0
      else if b = 0xff then r1.binaryRead 8 0
      else (b, r1)

/-- `BinReader.ReadBytes()`: a slice of the announced length, filled from the
reader; it stays zero when the read fails. -/
def BinReader.ReadBytes (r : BinReader) : List Byte × BinReader :=
  match r.ReadVarUint with
  | (n, r1) =>
    if r1.Err.isSome then (List.replicate n 0, r1)
    else
      match readFull n r1.buf with
      | (Except.ok bs, rest) => (bs, { buf := rest, Err := none })
      | (Except.error e, rest) => (List.replicate n 0, { buf := rest, Err := some e })

/-- The codec of the inner `message` (declared elsewhere in package `payload`):
`EncodeBinary` writes it to a writer, `DecodeBinary` reads it from a reader
into a receiver. -/
structure MessageCodec (M : Type) where
  EncodeBinary : M → BinWriter → BinWriter
  DecodeBinary : M → BinReader → M × BinReader

/-- `consensusPayload`: the inner message, the header fields and the cached
hash.  `prevHash` is a 32-byte array, written and read as its 32 bytes; it is
identified with the number whose little-endian digits those bytes are. -/
structure consensusPayload (M : Type) where
  message : M
  version : Nat
  validatorIndex : Nat
  prevHash : Uint256
  height : Nat
  hash : Option Uint256

namespace consensusPayload

variable {M : Type}

/-- `EncodeBinary(w)`. -/
def EncodeBinary (codec : MessageCodec M) (p : consensusPayload M) (w : BinWriter) : BinWriter :=
  let ww := NewBufBinWriter
  let data := (codec.EncodeBinary p.message ww).Bytes
  ((((w.WriteLE 4 p.version).WriteLE 32 p.prevHash).WriteLE 4 p.height).WriteLE 2
    p.validatorIndex).WriteBytes data

/-- `DecodeBinary(r)` on the receiver `p`. -/
def DecodeBinary (codec : MessageCodec M) (p : consensusPayload M) (r : BinReader) :
    consensusPayload M × BinReader :=
  match r.ReadLE 4 p.version with
  | (version, r1) =>
    match r1.ReadLE 32 p.prevHash with
    | (prevHash, r2) =>
      match r2.ReadLE 4 p.height with
      | (height, r3) =>
        match r3.ReadLE 2 p.validatorIndex with
        | (validatorIndex, r4) =>
          match r4.ReadBytes with
          | (data, r5) =>
            let rr := NewBinReaderFromBuf data
            ({ p with
                version := version
                prevHash := prevHash
                height := height
                validatorIndex := validatorIndex
                message := (codec.DecodeBinary p.message rr).1 }, r5)

/-- `MarshalUnsigned()`. -/
def MarshalUnsigned (codec : MessageCodec M) (p : consensusPayload M) : List Byte :=
  (p.EncodeBinary codec NewBufBinWriter).Bytes

/-- `UnmarshalUnsigned(data)` on the receiver `p`: the receiver afterwards and
the returned error. -/
def UnmarshalUnsigned (codec : MessageCodec M) (p : consensusPayload M) (data : List Byte) :
    consensusPayload M × Option ReadError :=
  match p.DecodeBinary codec (NewBinReaderFromBuf data) with
  | (p1, r) => (p1, r.Err)

/-- `Hash()`: the cached hash when there is one, else `crypto.Hash256` of the
unsigned form. -/
def Hash (codec : MessageCodec M) (hash256 : List Byte → Uint256) (p : consensusPayload M) :
    Uint256 :=
  match p.hash with
  | some h => h
  | none => hash256 (p.MarshalUnsigned codec)

end consensusPayload

/-- The bytes `WriteVarUint` emits. -/
def varUintBytes (val : Nat) : List Byte :=
  if val < 0xfd then putLE 1 val
  else if val < 0xFFFF then putLE 1 0xfd ++ putLE 2 val
  else if val < 0xFFFFFFFF then putLE 1 0xfe ++ putLE 4 val
  else putLE 1 0xff ++ putLE 8 val

/-- A sample inner message: the type byte and the view number. -/
structure sampleMessage where
  msgType : Nat
  viewNumber : Nat
deriving DecidableEq, Repr

/-- A sample codec: the two bytes, each read like a fixed-width integer. -/
def sampleCodec : MessageCodec sampleMessage where
  EncodeBinary := fun m w => (w.WriteLE 1 m.msgType).WriteLE 1 m.viewNumber
  DecodeBinary := fun m r =>
    match r.ReadLE 1 m.msgType with
    | (t, r1) =>
      match r1.ReadLE 1 m.viewNumber with
      | (v, r2) => ({ msgType := t, viewNumber := v }, r2)

/-- A sample hash function on byte strings. -/
def sampleHash256 (data : List Byte) : Uint256 := getLE data

/-- A sample payload. -/
def samplePayload : consensusPayload sampleMessage where
  message := { msgType := 0x20, viewNumber := 3 }
  version := 1
  validatorIndex := 2
  prevHash := 0xabcdef
  height := 10
  hash := none

/-- The zero value of `consensusPayload`, as a receiver. -/
def emptyPayload : consensusPayload sampleMessage where
  message := { msgType := 0, viewNumber := 0 }
  version := 0
  validatorIndex := 0
  prevHash := 0
  height := 0
  hash := none

/-- The unsigned form of the sample payload with the inner message cut down to
its first byte: the header and a message of length 1. -/
def truncatedData : List Byte :=
  putLE 4 1 ++ putLE 32 0xabcdef ++ putLE 4 10 ++ putLE 2 2 ++ [1, 32]

/-! ## Theorems -/

/-- C1 (evaluation at the failing input): on the backup 1 of the sample engine,
a PrepareRequest of the primary whose transactions are all in the mempool and
whose NextConsensus (99) differs from the computed address (11) makes
`onPrepareRequest` call sendChangeView and then, the `return` of
`processMissingTx` leaving only the helper, sendPrepareResponse and
checkPrepare as well. -/
theorem C1_prepareResponse_sent_after_changeView :
    IsBackup sampleEnv (sampleWorld 0 1).ctx = true ∧
    sampleEnv.RequestSentOrReceived (sampleWorld 0 1).ctx = false ∧
    badNextConsensusRequest.ValidatorIndex =
      sampleEnv.GetPrimaryIndex (sampleWorld 0 1).ctx (sampleWorld 0 1).d.ViewNumber ∧
    ([5, 6].map sampleEnv.GetTx = [some ⟨5, 0⟩, some ⟨6, 0⟩]) ∧
    sampleEnv.GetConsensusAddress (sampleEnv.GetValidators [⟨5, 0⟩, ⟨6, 0⟩]) = 11 ∧
    (onPrepareRequest sampleEnv badNextConsensusRequest (sampleWorld 0 1)).map
        (fun w => w.calls) =
      some [Call.TimerExtend 10000000000, Call.sendChangeView, Call.sendPrepareResponse,
        Call.checkPrepare] := by
  decide

/-! ### The wire form -/

theorem length_putLE (w v : Nat) : (putLE w v).length = w := by
  induction w generalizing v with
  | zero => rfl
  | succ n ih => simp [putLE, ih]

theorem getLE_putLE (w v : Nat) : getLE (putLE w v) = v % 256 ^ w := by
  induction w generalizing v with
  | zero => simp [putLE, getLE, Nat.mod_one]
  | succ n ih =>
    simp only [putLE, getLE, ih]
    have h : (Fin.ofNat (v % 256) : Fin 256).val = v % 256 := by
      simp [Fin.ofNat]
    rw [h, pow_succ, Nat.mul_comm (256 ^ n) 256, Nat.mod_mul]

theorem readFull_append (bs rest : List Byte) :
    readFull bs.length (bs ++ rest) = (Except.ok bs, rest) := by
  simp [readFull]

theorem binaryRead_putLE (w v old : Nat) (rest : List Byte) :
    BinReader.binaryRead { buf := putLE w v ++ rest, Err := none } w old =
      (v % 256 ^ w, { buf := rest, Err := none }) := by
  have h := readFull_append (putLE w v) rest
  rw [length_putLE] at h
  simp [BinReader.binaryRead, h, getLE_putLE]

theorem ReadLE_putLE (w v old : Nat) (rest : List Byte) :
    BinReader.ReadLE { buf := putLE w v ++ rest, Err := none } w old =
      (v % 256 ^ w, { buf := rest, Err := none }) := by
  simp [BinReader.ReadLE, binaryRead_putLE]

theorem WriteLE_ok (buf : List Byte) (w v : Nat) :
    BinWriter.WriteLE { buf := buf, Err := none } w v = { buf := buf ++ putLE w v, Err := none } := by
  simp [BinWriter.WriteLE]

theorem WriteVarUint_ok (buf : List Byte) (val : Nat) :
    BinWriter.WriteVarUint { buf := buf, Err := none } val =
      { buf := buf ++ varUintBytes val, Err := none } := by
  unfold BinWriter.WriteVarUint varUintBytes
  split_ifs <;> simp_all [WriteLE_ok]

theorem WriteBytes_ok (buf b : List Byte) :
    BinWriter.WriteBytes { buf := buf, Err := none } b =
      { buf := buf ++ varUintBytes (b.length % 2 ^ 64) ++ b, Err := none } := by
  simp [BinWriter.WriteBytes, WriteVarUint_ok, BinWriter.WriteRaw]

theorem ReadVarUint_varUintBytes (val : Nat) (hval : val < 2 ^ 64) (rest : List Byte) :
    BinReader.ReadVarUint { buf := varUintBytes val ++ rest, Err := none } =
      (val, { buf := rest, Err := none }) := by
  unfold varUintBytes BinReader.ReadVarUint
  by_cases h1 : val < 0xfd
  · have hlt : val < 256 := by omega
    have h4 : val ≠ 0xfd := by omega
    have h5 : val ≠ 0xfe := by omega
    have h6 : val ≠ 0xff := by omega
    simp [h1, binaryRead_putLE, Nat.mod_eq_of_lt hlt, h4, h5, h6]
  · by_cases h2 : val < 0xFFFF
    · have hlt : val < 65536 := by omega
      simp [h1, h2, binaryRead_putLE, Nat.mod_eq_of_lt hlt]
    · by_cases h3 : val < 0xFFFFFFFF
      · have hlt : val < 4294967296 := by omega
        simp [h1, h2, h3, binaryRead_putLE, Nat.mod_eq_of_lt hlt]
      · have hlt : val < 18446744073709551616 := by omega
        simp [h1, h2, h3, binaryRead_putLE, Nat.mod_eq_of_lt hlt]

theorem ReadBytes_written (b rest : List Byte) (hb : b.length < 2 ^ 64) :
    BinReader.ReadBytes { buf := varUintBytes (b.length % 2 ^ 64) ++ b ++ rest, Err := none } =
      (b, { buf := rest, Err := none }) := by
  have hm : b.length % 2 ^ 64 = b.length := Nat.mod_eq_of_lt hb
  rw [hm]
  unfold BinReader.ReadBytes
  rw [List.append_assoc, ReadVarUint_varUintBytes b.length hb]
  simp [readFull_append]

theorem marshalUnsigned_eq {M : Type} (codec : MessageCodec M) (p : consensusPayload M) :
    p.MarshalUnsigned codec =
      putLE 4 p.version ++ (putLE 32 p.prevHash ++ (putLE 4 p.height ++
        (putLE 2 p.validatorIndex ++
          (varUintBytes ((codec.EncodeBinary p.message NewBufBinWriter).Bytes.length % 2 ^ 64) ++
            ((codec.EncodeBinary p.message NewBufBinWriter).Bytes ++ []))))) := by
  simp [consensusPayload.MarshalUnsigned, consensusPayload.EncodeBinary, NewBufBinWriter,
    WriteLE_ok, WriteBytes_ok, BinWriter.Bytes]

theorem unmarshal_marshal {M : Type} (codec : MessageCodec M) (p q : consensusPayload M)
    (hversion : p.version < 2 ^ 32) (hprev : p.prevHash < 2 ^ 256) (hheight : p.height < 2 ^ 32)
    (hindex : p.validatorIndex < 2 ^ 16)
    (hlen : (codec.EncodeBinary p.message NewBufBinWriter).Bytes.length < 2 ^ 64)
    (hmsg : (codec.DecodeBinary q.message
      (NewBinReaderFromBuf (codec.EncodeBinary p.message NewBufBinWriter).Bytes)).1 = p.message) :
    q.UnmarshalUnsigned codec (p.MarshalUnsigned codec) = ({ p with hash := q.hash }, none) := by
  rw [marshalUnsigned_eq]
  unfold consensusPayload.UnmarshalUnsigned consensusPayload.DecodeBinary
  simp only [NewBinReaderFromBuf, ReadLE_putLE]
  have h := ReadBytes_written (codec.EncodeBinary p.message NewBufBinWriter).Bytes [] hlen
  simp only [List.append_assoc] at h
  simp only [h]
  simp only [NewBinReaderFromBuf] at hmsg
  rw [hmsg]
  have e1 : p.version % 256 ^ 4 = p.version :=
    Nat.mod_eq_of_lt (by rw [show (256 : Nat) ^ 4 = 2 ^ 32 by norm_num]; exact hversion)
  have e2 : p.prevHash % 256 ^ 32 = p.prevHash :=
    Nat.mod_eq_of_lt (by rw [show (256 : Nat) ^ 32 = 2 ^ 256 by norm_num]; exact hprev)
  have e3 : p.height % 256 ^ 4 = p.height :=
    Nat.mod_eq_of_lt (by rw [show (256 : Nat) ^ 4 = 2 ^ 32 by norm_num]; exact hheight)
  have e4 : p.validatorIndex % 256 ^ 2 = p.validatorIndex :=
    Nat.mod_eq_of_lt (by rw [show (256 : Nat) ^ 2 = 2 ^ 16 by norm_num]; exact hindex)
  rw [e1, e2, e3, e4]

/-- C2: for a payload `p` whose fields are in the range of their types and whose
inner message is restored by its own EncodeBinary/DecodeBinary,
`UnmarshalUnsigned` applied to `MarshalUnsigned(p)` returns no error and yields
a payload with the same Version, PrevHash, Height, ValidatorIndex and inner
message, and the same `Hash()`.  The hash cache, which no code assigns, is
empty in the receiver and empty or accurate in `p`. -/
theorem C2_unmarshal_marshal_roundtrip {M : Type} (codec : MessageCodec M)
    (hash256 : List Byte → Uint256) (p q : consensusPayload M)
    (hversion : p.version < 2 ^ 32) (hprev : p.prevHash < 2 ^ 256) (hheight : p.height < 2 ^ 32)
    (hindex : p.validatorIndex < 2 ^ 16)
    (hlen : (codec.EncodeBinary p.message NewBufBinWriter).Bytes.length < 2 ^ 64)
    (hmsg : (codec.DecodeBinary q.message
      (NewBinReaderFromBuf (codec.EncodeBinary p.message NewBufBinWriter).Bytes)).1 = p.message)
    (hp : ∀ h, p.hash = some h → h = hash256 (p.MarshalUnsigned codec)) (hq : q.hash = none) :
    (q.UnmarshalUnsigned codec (p.MarshalUnsigned codec)).2 = none ∧
    (q.UnmarshalUnsigned codec (p.MarshalUnsigned codec)).1.version = p.version ∧
    (q.UnmarshalUnsigned codec (p.MarshalUnsigned codec)).1.prevHash = p.prevHash ∧
    (q.UnmarshalUnsigned codec (p.MarshalUnsigned codec)).1.height = p.height ∧
    (q.UnmarshalUnsigned codec (p.MarshalUnsigned codec)).1.validatorIndex = p.validatorIndex ∧
    (q.UnmarshalUnsigned codec (p.MarshalUnsigned codec)).1.message = p.message ∧
    (q.UnmarshalUnsigned codec (p.MarshalUnsigned codec)).1.Hash codec hash256 =
      p.Hash codec hash256 := by
  rw [unmarshal_marshal codec p q hversion hprev hheight hindex hlen hmsg]
  refine ⟨rfl, rfl, rfl, rfl, rfl, rfl, ?_⟩
  have hleft : consensusPayload.Hash codec hash256 { p with hash := q.hash } =
      hash256 (p.MarshalUnsigned codec) := by
    simp [consensusPayload.Hash, hq, consensusPayload.MarshalUnsigned,
      consensusPayload.EncodeBinary]
  rw [hleft]
  unfold consensusPayload.Hash
  cases hh : p.hash with
  | none => rfl
  | some h => exact (hp h hh).symm

/-- Witness for C2: the sample payload, decoded into the zero value. -/
theorem C2_unmarshal_marshal_roundtrip_witness :
    (emptyPayload.UnmarshalUnsigned sampleCodec (samplePayload.MarshalUnsigned sampleCodec)).2
        = none ∧
    (emptyPayload.UnmarshalUnsigned sampleCodec
        (samplePayload.MarshalUnsigned sampleCodec)).1.version = samplePayload.version ∧
    (emptyPayload.UnmarshalUnsigned sampleCodec
        (samplePayload.MarshalUnsigned sampleCodec)).1.prevHash = samplePayload.prevHash ∧
    (emptyPayload.UnmarshalUnsigned sampleCodec
        (samplePayload.MarshalUnsigned sampleCodec)).1.height = samplePayload.height ∧
    (emptyPayload.UnmarshalUnsigned sampleCodec
        (samplePayload.MarshalUnsigned sampleCodec)).1.validatorIndex =
      samplePayload.validatorIndex ∧
    (emptyPayload.UnmarshalUnsigned sampleCodec
        (samplePayload.MarshalUnsigned sampleCodec)).1.message = samplePayload.message ∧
    (emptyPayload.UnmarshalUnsigned sampleCodec
        (samplePayload.MarshalUnsigned sampleCodec)).1.Hash sampleCodec sampleHash256 =
      samplePayload.Hash sampleCodec sampleHash256 :=
  C2_unmarshal_marshal_roundtrip sampleCodec sampleHash256 samplePayload emptyPayload
    (by decide) (by decide) (by decide) (by decide) (by decide) (by decide)
    (by intro h hh; cases hh) rfl

/-! ### The timer handler -/

theorem wrapInt64_of_range (x : Int) (hlo : -(2 ^ 63) ≤ x) (hhi : x < 2 ^ 63) :
    wrapInt64 x = x := by
  unfold wrapInt64
  rw [Int.emod_eq_of_lt (by omega) (by omega)]
  omega

theorem shl64_one (x : Int) : shl64 x 1 = wrapInt64 (2 * x) := by
  simp [shl64, Int.mul_comm]

/-- C3: the action of `OnTimeout` as a function of the state.  A WatchOnly node
and a timer of another (height, view) leave the world as it is (nothing sent,
timer untouched); otherwise a primary without PrepareRequest calls
sendPrepareRequest and nothing else; otherwise, with Commit sent, the handler
calls sendRecoveryRequest and resets the timer to `SecondsPerBlock << 1`, which
is 2·SecondsPerBlock in `time.Duration` arithmetic (and exactly
2·SecondsPerBlock whenever that fits a Duration); otherwise it calls
sendChangeView and nothing else. -/
theorem C3_OnTimeout_action (env : Env) (height view : Nat) (w : World) :
    ((w.ctx.WatchOnly = true ∨ (height, view) ≠ (w.d.BlockIndex, w.d.ViewNumber)) →
      OnTimeout env height view w = w) ∧
    ((w.ctx.WatchOnly = false ∧ (height, view) = (w.d.BlockIndex, w.d.ViewNumber)) →
      ((IsPrimary env w.ctx = true ∧ env.RequestSentOrReceived w.ctx = false) →
        OnTimeout env height view w =
          { d := env.sendPrepareRequest w.d, calls := w.calls ++ [Call.sendPrepareRequest] }) ∧
      (¬ (IsPrimary env w.ctx = true ∧ env.RequestSentOrReceived w.ctx = false) →
        (env.CommitSent w.ctx = true →
          OnTimeout env height view w =
            { d := env.sendRecoveryRequest w.d,
              calls := w.calls ++ [Call.sendRecoveryRequest,
                Call.TimerReset (env.sendRecoveryRequest w.d).BlockIndex
                  (env.sendRecoveryRequest w.d).ViewNumber
                  (wrapInt64 (2 * env.SecondsPerBlock))] }) ∧
        (env.CommitSent w.ctx = false →
          OnTimeout env height view w =
            { d := env.sendChangeView w.d, calls := w.calls ++ [Call.sendChangeView] }))) ∧
    ((-(2 ^ 62) ≤ env.SecondsPerBlock ∧ env.SecondsPerBlock < 2 ^ 62) →
      wrapInt64 (2 * env.SecondsPerBlock) = 2 * env.SecondsPerBlock) := by
  refine ⟨?_, ?_, ?_⟩
  · rintro (hw | hhv)
    · simp [OnTimeout, hw]
    · have : height ≠ w.d.BlockIndex ∨ view ≠ w.d.ViewNumber := by
        by_contra hc
        push_neg at hc
        exact hhv (by rw [hc.1, hc.2])
      simp [OnTimeout, this]
  · rintro ⟨hw, hhv⟩
    have h1 : height = w.d.BlockIndex := congrArg Prod.fst hhv
    have h2 : view = w.d.ViewNumber := congrArg Prod.snd hhv
    refine ⟨?_, ?_⟩
    · rintro ⟨hp, hr⟩
      simp [OnTimeout, hw, h1, h2, hp, hr, World.invoke]
    · intro hn
      have hb : (IsPrimary env w.ctx && env.RequestSentOrReceived w.ctx ||
          IsBackup env w.ctx) = true := by
        cases hp : IsPrimary env w.ctx <;> cases hr : env.RequestSentOrReceived w.ctx <;>
          simp_all [IsBackup]
      have hn2 : (IsPrimary env w.ctx && !env.RequestSentOrReceived w.ctx) = false := by
        cases hp : IsPrimary env w.ctx <;> cases hr : env.RequestSentOrReceived w.ctx <;>
          simp_all
      refine ⟨?_, ?_⟩
      · intro hc
        simp [OnTimeout, hw, h1, h2, hn2, hb, hc, World.invoke, changeTimer, World.log,
          shl64_one]
      · intro hc
        simp [OnTimeout, hw, h1, h2, hn2, hb, hc, World.invoke]
  · rintro ⟨hlo, hhi⟩
    exact wrapInt64_of_range _ (by omega) (by omega)

/-- Witness for C3: the timer of (10, 0) fires on backup 1 after it has sent
its Commit: a RecoveryRequest is sent and the timer reset to twice the block
time of 15 s. -/
theorem C3_OnTimeout_action_witness :
    OnTimeout sampleEnv 10 0 committedWorld =
      { d := committedWorld.d,
        calls := [Call.sendRecoveryRequest, Call.TimerReset 10 0 30000000000] } :=
  (((C3_OnTimeout_action sampleEnv 10 0 committedWorld).2.1 ⟨by decide, by decide⟩).2
    (by decide)).1 (by decide)

/-! ### The call log of the handlers -/

theorem Added.refl (w : World) : Added w w := ⟨[], by simp, by simp⟩

theorem Added.trans {w1 w2 w3 : World} (h12 : Added w1 w2) (h23 : Added w2 w3) :
    Added w1 w3 := by
  obtain ⟨l1, e1, p1⟩ := h12
  obtain ⟨l2, e2, p2⟩ := h23
  refine ⟨l1 ++ l2, by rw [e2, e1, List.append_assoc], ?_⟩
  intro c hc
  rcases List.mem_append.mp hc with h | h
  · exact p1 c h
  · exact p2 c h

theorem Added.of_calls_eq {w1 w2 : World} (h : w2.calls = w1.calls) : Added w1 w2 :=
  ⟨[], by simp [h], by simp⟩

theorem Added.log (w : World) (c : Call) (hc : c.fromHandler = true) : Added w (w.log c) :=
  ⟨[c], rfl, by simpa using hc⟩

theorem Added.invoke (w : World) (c : Call) (f : DBFT → DBFT) (hc : c.fromHandler = true) :
    Added w (w.invoke c f) :=
  ⟨[c], rfl, by simpa using hc⟩

theorem Added.modify (w : World) (f : DBFT → DBFT) : Added w (w.modify f) :=
  Added.of_calls_eq rfl

theorem extendTimer_added {env : Env} {count : Int} {w w1 : World}
    (h : extendTimer env count w = some w1) : Added w w1 := by
  unfold extendTimer at h
  split_ifs at h with h1 h2
  · cases h
    exact Added.log _ _ rfl
  · cases h
    exact Added.refl _

theorem processMissingTxLoop_calls (env : Env) (hs missing : List Uint256)
    (txx : List Transaction) (w : World) :
    (processMissingTxLoop env hs missing txx w).2.2.calls = w.calls := by
  induction hs generalizing missing txx w with
  | nil => rfl
  | cons h rest ih =>
    unfold processMissingTxLoop
    cases env.GetTx h with
    | none => exact ih _ _ _
    | some tx => simpa [World.modify] using ih missing (txx ++ [tx]) _

theorem processMissingTx_added (env : Env) (w : World) : Added w (processMissingTx env w) := by
  unfold processMissingTx
  have hc := processMissingTxLoop_calls env w.d.TransactionHashes [] [] w
  generalize processMissingTxLoop env w.d.TransactionHashes [] [] w = r at hc
  obtain ⟨missing, txx, w1⟩ := r
  simp only at hc
  have h0 : Added w w1 := Added.of_calls_eq hc
  simp only
  split_ifs
  · exact h0.trans (Added.invoke _ _ _ rfl)
  · exact h0
  · exact h0.trans (Added.log _ _ rfl)

theorem updatePreparationsLoop_calls (env : Env) (msg : ConsensusPayload)
    (slots : List (Option ConsensusPayload)) (i : Nat) (w : World) :
    (updatePreparationsLoop env msg slots i w).calls = w.calls := by
  induction slots generalizing i w with
  | nil => rfl
  | cons m rest ih =>
    unfold updatePreparationsLoop
    split
    · split_ifs
      · split
        · split_ifs
          · rw [ih]; rfl
          · exact ih _ _
        · exact ih _ _
      · exact ih _ _
    · exact ih _ _

theorem updateCommitsLoop_calls (env : Env) (slots : List (Option ConsensusPayload)) (i : Nat)
    (w w1 : World) (h : updateCommitsLoop env slots i w = some w1) : w1.calls = w.calls := by
  induction slots generalizing i w with
  | nil =>
    simp only [updateCommitsLoop, Option.some.injEq] at h
    rw [← h]
  | cons m rest ih =>
    unfold updateCommitsLoop at h
    split at h
    · split_ifs at h
      · split at h
        · split at h
          · split_ifs at h
            · rw [ih _ _ h]; rfl
            · exact ih _ _ h
          · cases h
        · exact ih _ _ h
      · exact ih _ _ h
    · exact ih _ _ h

theorem updateExistingPayloads_calls (env : Env) (msg : ConsensusPayload) (w w1 : World)
    (h : updateExistingPayloads env msg w = some w1) : w1.calls = w.calls := by
  unfold updateExistingPayloads at h
  rw [updateCommitsLoop_calls env _ _ _ _ h, updatePreparationsLoop_calls]

theorem onPrepareRequest_added {env : Env} {msg : ConsensusPayload} {w w' : World}
    (h : onPrepareRequest env msg w = some w') : Added w w' := by
  unfold onPrepareRequest at h
  split_ifs at h with h1 h2 h3
  · cases h; exact Added.refl _
  · cases h; exact Added.refl _
  · cases h; exact Added.refl _
  · simp only [Option.bind_eq_bind, Option.bind_eq_some] at h
    obtain ⟨w1, e1, p, _, w4, e4, slots, _, h⟩ := h
    have a1 := extendTimer_added e1
    have a4 := Added.of_calls_eq (updateExistingPayloads_calls env msg _ _ e4)
    have a5 : Added w w4 :=
      a1.trans ((Added.modify w1 _).trans ((processMissingTx_added env _).trans a4))
    split_ifs at h
    · cases h
      exact a5.trans (Added.modify _ _)
    · cases h
      exact a5.trans ((Added.modify _ _).trans
        ((Added.invoke _ Call.sendPrepareResponse _ rfl).trans
          (Added.invoke _ Call.checkPrepare _ rfl)))

theorem onPrepareResponse_added {env : Env} {msg : ConsensusPayload} {w w' : World}
    (h : onPrepareResponse env msg w = some w') : Added w w' := by
  unfold onPrepareResponse at h
  split_ifs at h with h1
  · cases h; exact Added.refl _
  · simp only [Option.bind_eq_bind, Option.bind_eq_some] at h
    obtain ⟨m, _, h⟩ := h
    split_ifs at h
    · cases h; exact Added.refl _
    · simp only [Option.bind_eq_some] at h
      obtain ⟨slots, _, pm, _, h⟩ := h
      have tailAdded : ∀ w2 w3 : World,
          (do
            let w3 ← extendTimer env 2 w2
            if env.RequestSentOrReceived w3.ctx = true then
              some (w3.invoke Call.checkPrepare env.checkPrepare)
            else some w3) = some w3 → Added w2 w3 := by
        intro w2 w3 ht
        simp only [Option.bind_eq_bind, Option.bind_eq_some] at ht
        obtain ⟨w3a, e3, ht⟩ := ht
        split_ifs at ht
        · cases ht
          exact (extendTimer_added e3).trans (Added.invoke _ _ _ rfl)
        · cases ht
          exact extendTimer_added e3
      split at h
      · split at h
        · cases h; exact Added.modify _ _
        · simp only [Option.bind_eq_some] at h
          obtain ⟨resp, _, h⟩ := h
          split_ifs at h
          · cases h; exact (Added.modify _ _).trans (Added.modify _ _)
          · exact (Added.modify _ _).trans (tailAdded _ _ h)
      · exact (Added.modify _ _).trans (tailAdded _ _ h)

theorem onRecoveryRequest_added {env : Env} {msg : ConsensusPayload} {w w' : World}
    (h : onRecoveryRequest env msg w = some w') : Added w w' := by
  unfold onRecoveryRequest at h
  split_ifs at h
  · simp only [Option.bind_eq_bind, Option.bind_eq_some] at h
    obtain ⟨s, _, h⟩ := h
    split_ifs at h
    · cases h; exact Added.refl _
    · cases h; exact Added.invoke _ _ _ rfl
  · cases h; exact Added.invoke _ _ _ rfl

theorem onChangeView_added {env : Env} {msg : ConsensusPayload} {w w' : World}
    (h : onChangeView env msg w = some w') : Added w w' := by
  unfold onChangeView at h
  simp only [Option.bind_eq_bind, Option.bind_eq_some] at h
  obtain ⟨p, _, h⟩ := h
  split_ifs at h
  · exact onRecoveryRequest_added h
  · cases h; exact Added.refl _
  · simp only [Option.bind_eq_some] at h
    obtain ⟨m, _, drop, _, h⟩ := h
    split_ifs at h
    · cases h; exact Added.refl _
    · simp only [Option.bind_eq_some] at h
      obtain ⟨slots, _, h⟩ := h
      cases h
      exact (Added.modify _ _).trans (Added.invoke _ _ _ rfl)

theorem storeCommit_added {msg : ConsensusPayload} {w w' : World}
    (h : storeCommit msg w = some w') : Added w w' := by
  unfold storeCommit at h
  simp only [Option.bind_eq_bind, Option.bind_eq_some] at h
  obtain ⟨slots, _, h⟩ := h
  cases h
  exact Added.modify _ _

theorem onCommit_added {env : Env} {msg : ConsensusPayload} {w w' : World}
    (h : onCommit env msg w = some w') : Added w w' := by
  unfold onCommit at h
  simp only [Option.bind_eq_bind, Option.bind_eq_some] at h
  obtain ⟨w1, e1, h⟩ := h
  have a1 := extendTimer_added e1
  split_ifs at h
  · split at h
    · exact a1.trans (storeCommit_added h)
    · simp only [Option.bind_eq_some] at h
      obtain ⟨pub, _, c, _, h⟩ := h
      split_ifs at h
      · simp only [Option.bind_eq_some] at h
        obtain ⟨w2, e2, h⟩ := h
        cases h
        exact a1.trans ((storeCommit_added e2).trans (Added.invoke _ _ _ rfl))
      · cases h; exact a1
  · exact a1.trans (storeCommit_added h)

theorem forEach_added {handler : ConsensusPayload → World → Option World}
    (hh : ∀ m w w', handler m w = some w' → Added w w')
    (msgs : List ConsensusPayload) (w w' : World) (h : forEach handler msgs w = some w') :
    Added w w' := by
  induction msgs generalizing w with
  | nil =>
    simp only [forEach, Option.some.injEq] at h
    rw [← h]; exact Added.refl _
  | cons m rest ih =>
    unfold forEach at h
    simp only [Option.bind_eq_bind, Option.bind_eq_some] at h
    obtain ⟨w1, e1, h⟩ := h
    exact (hh _ _ _ e1).trans (ih _ h)

theorem recoverChangeViews_added {env : Env} {msg : ConsensusPayload}
    {recovery : Option RecoveryMessage} {w w' : World}
    (h : recoverChangeViews env msg recovery w = some w') : Added w w' := by
  unfold recoverChangeViews at h
  split_ifs at h
  · split at h
    · exact forEach_added (fun _ _ _ => onChangeView_added) _ _ _ h
    · cases h
  · cases h; exact Added.refl _

theorem recoverPrepareRequest_added {env : Env} {msg : ConsensusPayload}
    {recovery : Option RecoveryMessage} {w w' : World}
    (h : recoverPrepareRequest env msg recovery w = some w') : Added w w' := by
  unfold recoverPrepareRequest at h
  by_cases h1 : (!env.RequestSentOrReceived w.ctx) = true
  · rw [if_pos h1] at h
    cases recovery with
    | none => cases h
    | some r =>
      simp only at h
      cases hg : env.GetPrepareRequest r msg with
      | some prepReq =>
        rw [hg] at h
        exact onPrepareRequest_added h
      | none =>
        rw [hg] at h
        simp only at h
        split_ifs at h
        · cases h; exact Added.invoke _ Call.sendPrepareRequest _ rfl
        · cases h; exact Added.refl _
  · rw [if_neg h1] at h
    cases h; exact Added.refl _

theorem recoverPreparations_added {env : Env} {msg : ConsensusPayload}
    {recovery : Option RecoveryMessage} {w w' : World}
    (h : recoverPreparations env msg recovery w = some w') : Added w w' := by
  unfold recoverPreparations at h
  split_ifs at h
  · split at h
    · rename_i w1 e1
      split at h
      · exact (recoverPrepareRequest_added e1).trans
          (forEach_added (fun _ _ _ => onPrepareResponse_added) _ _ _ h)
      · cases h
    · cases h
  · cases h; exact Added.refl _

theorem recoverCommits_added {env : Env} {msg : ConsensusPayload}
    {recovery : Option RecoveryMessage} {w w' : World}
    (h : recoverCommits env msg recovery w = some w') : Added w w' := by
  unfold recoverCommits at h
  split_ifs at h
  · split at h
    · exact forEach_added (fun _ _ _ => onCommit_added) _ _ _ h
    · cases h
  · cases h; exact Added.refl _

theorem onRecoveryMessageBody_added {env : Env} {msg : ConsensusPayload}
    {recovery : Option RecoveryMessage} {w w' : World}
    (h : onRecoveryMessageBody env msg recovery w = some w') : Added w w' := by
  unfold onRecoveryMessageBody at h
  split_ifs at h with h0
  · cases h; exact Added.refl _
  · simp only [Option.bind_eq_some] at h
    obtain ⟨w1, e1, w2, e2, h⟩ := h
    exact (recoverChangeViews_added e1).trans
      ((recoverPreparations_added e2).trans (recoverCommits_added h))

theorem onRecoveryMessage_added {env : Env} {msg : ConsensusPayload} {w w' : World}
    (h : onRecoveryMessage env msg w = some w') : Added w w' := by
  unfold onRecoveryMessage at h
  simp only [Option.bind_eq_bind, Option.bind_eq_some] at h
  obtain ⟨w2, e2, h⟩ := h
  cases h
  exact (Added.modify _ _).trans ((onRecoveryMessageBody_added e2).trans (Added.modify _ _))

theorem handle_added {env : Env} {msg : ConsensusPayload} {w w' : World}
    (h : handle env msg w = some w') : Added w w' := by
  unfold handle at h
  split at h
  · exact onChangeView_added h
  · exact onPrepareRequest_added h
  · exact onPrepareResponse_added h
  · exact onCommit_added h
  · exact onRecoveryRequest_added h
  · exact onRecoveryMessage_added h
  · cases h; exact Added.refl _

theorem updateLastSeen_added {msg : ConsensusPayload} {w w' : World}
    (h : updateLastSeen msg w = some w') : Added w w' := by
  unfold updateLastSeen at h
  simp only [Option.bind_eq_bind, Option.bind_eq_some] at h
  obtain ⟨x, _, h⟩ := h
  split_ifs at h
  · cases h; exact Added.modify _ _
  · cases h; exact Added.refl _

/-! ### The dispatcher -/

theorem OnReceive_future (env : Env) (msg : ConsensusPayload) (w : World)
    (hidx : msg.ValidatorIndex < w.d.Validators.length) (hbody : msg.Payload ≠ none)
    (hfut : w.d.BlockIndex < msg.Height ∨
      (msg.Height = w.d.BlockIndex ∧ msg.ViewNumber = (w.d.ViewNumber + 1) % 256)) :
    OnReceive env msg w = some (cacheMessage env msg w) := by
  have h1 : ¬ w.d.Validators.length ≤ msg.ValidatorIndex := by omega
  have h2 : msg.Payload.isNone = false := by
    cases hp : msg.Payload with
    | none => exact absurd hp hbody
    | some b => rfl
  have h3 : ¬ msg.Height < w.d.BlockIndex := by
    rcases hfut with h | ⟨h, _⟩ <;> omega
  simp [OnReceive, h1, h2, h3, hfut]

theorem OnReceive_current (env : Env) (msg : ConsensusPayload) (w : World)
    (hidx : msg.ValidatorIndex < w.d.Validators.length) (hbody : msg.Payload ≠ none)
    (hnot : ¬ (w.d.BlockIndex < msg.Height ∨
      (msg.Height = w.d.BlockIndex ∧ msg.ViewNumber = (w.d.ViewNumber + 1) % 256))) :
    OnReceive env msg w = some w ∨
      OnReceive env msg w = (updateLastSeen msg w).bind (handle env msg) := by
  have h1 : ¬ w.d.Validators.length ≤ msg.ValidatorIndex := by omega
  have h2 : msg.Payload.isNone = false := by
    cases hp : msg.Payload with
    | none => exact absurd hp hbody
    | some b => rfl
  unfold OnReceive
  rw [if_neg h1]
  simp only [h2, Bool.false_eq_true, if_false]
  by_cases h3 : msg.Height < w.d.BlockIndex
  · left; rw [if_pos h3]
  · rw [if_neg h3, if_neg hnot]
    by_cases h5 : w.ctx.N % 65536 < msg.ValidatorIndex
    · left; rw [if_pos h5]
    · right; rw [if_neg h5]; rfl

/-- C4 (counterexample): at view 255 a message of the current height that
carries view number 0 is enqueued in the future-message cache, although 0 is
not V+1 = 256 and its height is not above H: `d.ViewNumber+1` is a byte sum. -/
theorem C4_counterexample_view_255 :
    viewZeroMessage.ValidatorIndex < (sampleWorld 255 1).d.Validators.length ∧
    viewZeroMessage.Payload ≠ none ∧
    viewZeroMessage.Height = (sampleWorld 255 1).d.BlockIndex ∧
    viewZeroMessage.ViewNumber ≠ (sampleWorld 255 1).d.ViewNumber + 1 ∧
    (OnReceive sampleEnv viewZeroMessage (sampleWorld 255 1)).map (fun w => w.calls) =
      some [Call.cacheAddMessage viewZeroMessage] := by
  decide

/-- C4 (amended): for a message with ValidatorIndex < N and a non-empty body,
`OnReceive` enqueues the message in the future-message cache and returns
without calling a handler and without changing any Context field when
msg.Height > H, or msg.Height = H and msg.ViewNumber = (V+1) mod 256; in every
other case no call of the cache is added to the log. -/
theorem C4_OnReceive_future_message (env : Env) (msg : ConsensusPayload) (w : World)
    (hidx : msg.ValidatorIndex < w.d.Validators.length) (hbody : msg.Payload ≠ none) :
    ((w.d.BlockIndex < msg.Height ∨
        (msg.Height = w.d.BlockIndex ∧ msg.ViewNumber = (w.d.ViewNumber + 1) % 256)) →
      OnReceive env msg w =
        some { d := { w.d with cache := env.cacheAddMessage w.d.cache msg },
               calls := w.calls ++ [Call.cacheAddMessage msg] }) ∧
    (¬ (w.d.BlockIndex < msg.Height ∨
        (msg.Height = w.d.BlockIndex ∧ msg.ViewNumber = (w.d.ViewNumber + 1) % 256)) →
      ∀ w', OnReceive env msg w = some w' →
        ∃ l : List Call, w'.calls = w.calls ++ l ∧ ∀ c ∈ l, ∀ m, c ≠ Call.cacheAddMessage m) := by
  refine ⟨fun hfut => ?_, fun hnot w' hw' => ?_⟩
  · rw [OnReceive_future env msg w hidx hbody hfut]
    rfl
  · have hadd : Added w w' := by
      rcases OnReceive_current env msg w hidx hbody hnot with h | h
      · rw [h] at hw'
        cases hw'
        exact Added.refl _
      · rw [h] at hw'
        simp only [Option.bind_eq_some] at hw'
        obtain ⟨w1, e1, e2⟩ := hw'
        exact (updateLastSeen_added e1).trans (handle_added e2)
    obtain ⟨l, el, pl⟩ := hadd
    refine ⟨l, el, ?_⟩
    intro c hc m hcm
    have := pl c hc
    rw [hcm] at this
    simp [Call.fromHandler] at this

/-- Witness for C4: at view 0 a PrepareResponse of validator 3 for the next
view (1) of the current height is enqueued. -/
theorem C4_OnReceive_future_message_witness :
    (responseMessage 1).ValidatorIndex < (sampleWorld 0 1).d.Validators.length ∧
    (responseMessage 1).Payload ≠ none ∧
    OnReceive sampleEnv (responseMessage 1) (sampleWorld 0 1) =
      some { d := { (sampleWorld 0 1).d with
               cache := sampleEnv.cacheAddMessage (sampleWorld 0 1).d.cache (responseMessage 1) },
             calls := (sampleWorld 0 1).calls ++ [Call.cacheAddMessage (responseMessage 1)] } :=
  ⟨by decide, by decide,
    (C4_OnReceive_future_message sampleEnv (responseMessage 1) (sampleWorld 0 1)
      (by decide) (by decide)).1 (by decide)⟩
/-- C5: a message whose ValidatorIndex is at least N, or whose body is empty,
or whose Height is below H, leaves the whole world as it is: the Context, the
future-message cache and the call log are unchanged (no handler runs, nothing
is sent), and there is no panic whatever the length of LastSeenMessage.
Moreover, for every message, `OnReceive` goes on to index LastSeenMessage
(neither dropping nor caching the message) only with ValidatorIndex < N. -/
theorem C5_OnReceive_rejects (env : Env) (msg : ConsensusPayload) (w : World)
    (h : w.ctx.N ≤ msg.ValidatorIndex ∨ msg.Payload = none ∨ msg.Height < w.d.BlockIndex) :
    OnReceive env msg w = some w ∧
    ∀ m : ConsensusPayload, OnReceive env m w ≠ some w →
      OnReceive env m w ≠ some (cacheMessage env m w) →
      m.ValidatorIndex < w.ctx.N ∧
        OnReceive env m w = (updateLastSeen m w).bind (handle env m) := by
  constructor
  · unfold OnReceive
    rcases h with h | h | h
    · have h0 : w.d.Validators.length ≤ msg.ValidatorIndex := h
      rw [if_pos h0]
    · by_cases h1 : w.d.Validators.length ≤ msg.ValidatorIndex
      · rw [if_pos h1]
      · rw [if_neg h1]; simp [h]
    · by_cases h1 : w.d.Validators.length ≤ msg.ValidatorIndex
      · rw [if_pos h1]
      · rw [if_neg h1]
        by_cases h2 : msg.Payload.isNone = true
        · rw [if_pos h2]
        · rw [if_neg h2, if_pos h]
  · intro m hne hnc
    have hidx : m.ValidatorIndex < w.d.Validators.length := by
      by_contra hc
      apply hne
      unfold OnReceive
      rw [if_pos (by omega)]
    have hbody : m.Payload ≠ none := by
      intro hc
      apply hne
      unfold OnReceive
      rw [if_neg (by omega)]
      simp [hc]
    refine ⟨hidx, ?_⟩
    by_cases hfut : w.d.BlockIndex < m.Height ∨
        (m.Height = w.d.BlockIndex ∧ m.ViewNumber = (w.d.ViewNumber + 1) % 256)
    · exact absurd (OnReceive_future env m w hidx hbody hfut) hnc
    · rcases OnReceive_current env m w hidx hbody hfut with h | h
      · exact absurd h hne
      · exact h

/-- Witness for C5: a message of validator index 4 among four validators. -/
theorem C5_OnReceive_rejects_witness :
    OnReceive sampleEnv (viewZeroMessage.SetValidatorIndex 4) (sampleWorld 0 1) =
      some (sampleWorld 0 1) :=
  (C5_OnReceive_rejects sampleEnv (viewZeroMessage.SetValidatorIndex 4) (sampleWorld 0 1)
    (Or.inl (by decide))).1

theorem index?_eq_getD {xs : List Int} {i : Nat} (h : i < xs.length) :
    index? xs i = some (xs.getD i 0) := by
  simp [index?, List.getD, List.getElem?_eq_getElem h]

/-- C6: for a message that passes the gates of `OnReceive` (valid sender,
non-empty body, Height = H, ViewNumber other than the byte V+1, and the
residual gate `ValidatorIndex > uint16(N)`, which needs 65536 validators to
fire), the handler runs on the world in which LastSeenMessage[ValidatorIndex] is
max(previous value, msg.Height) and every other entry is as before; no entry
of LastSeenMessage is decreased by the update. -/
theorem C6_OnReceive_updates_LastSeenMessage (env : Env) (msg : ConsensusPayload) (w : World)
    (hidx : msg.ValidatorIndex < w.ctx.N) (hbody : msg.Payload ≠ none)
    (hheight : msg.Height = w.d.BlockIndex)
    (hview : msg.ViewNumber ≠ (w.d.ViewNumber + 1) % 256)
    (hgate : ¬ w.ctx.N % 65536 < msg.ValidatorIndex)
    (hlen : w.d.LastSeenMessage.length = w.ctx.N) :
    OnReceive env msg w =
      handle env msg (w.modify (fun d =>
        { d with LastSeenMessage :=
            raiseTo d.LastSeenMessage msg.ValidatorIndex (msg.Height : Int) })) ∧
    (raiseTo w.d.LastSeenMessage msg.ValidatorIndex (msg.Height : Int)).get?
      msg.ValidatorIndex =
        some (max (w.d.LastSeenMessage.getD msg.ValidatorIndex 0) (msg.Height : Int)) ∧
    (∀ j, j ≠ msg.ValidatorIndex →
      (raiseTo w.d.LastSeenMessage msg.ValidatorIndex (msg.Height : Int)).get? j =
        w.d.LastSeenMessage.get? j) ∧
    (∀ j, w.d.LastSeenMessage.getD j 0 ≤
      (raiseTo w.d.LastSeenMessage msg.ValidatorIndex (msg.Height : Int)).getD j 0) := by
  have hi : msg.ValidatorIndex < w.d.LastSeenMessage.length := by rw [hlen]; exact hidx
  unfold raiseTo
  refine ⟨?_, ?_, ?_, ?_⟩
  · have hnot : ¬ (w.d.BlockIndex < msg.Height ∨
        (msg.Height = w.d.BlockIndex ∧ msg.ViewNumber = (w.d.ViewNumber + 1) % 256)) := by
      rintro (h | ⟨_, h⟩)
      · omega
      · exact hview h
    have h1 : ¬ w.d.Validators.length ≤ msg.ValidatorIndex := by
      have : msg.ValidatorIndex < w.d.Validators.length := hidx
      omega
    have h2 : msg.Payload.isNone = false := by
      cases hp : msg.Payload with
      | none => exact absurd hp hbody
      | some b => rfl
    have h3 : ¬ msg.Height < w.d.BlockIndex := by omega
    unfold OnReceive
    rw [if_neg h1]
    simp only [h2, Bool.false_eq_true, if_false]
    rw [if_neg h3, if_neg hnot, if_neg hgate]
    unfold updateLastSeen
    rw [index?_eq_getD hi]
    simp only [Option.bind_eq_bind, Option.some_bind]
    by_cases hlt : w.d.LastSeenMessage.getD msg.ValidatorIndex 0 < (msg.Height : Int)
    · rw [if_pos hlt]
      simp only [World.modify, Option.some_bind, max_eq_right (le_of_lt hlt)]
    · rw [if_neg hlt]
      have hself : w.d.LastSeenMessage.set msg.ValidatorIndex
          (w.d.LastSeenMessage.getD msg.ValidatorIndex 0) = w.d.LastSeenMessage := by
        apply List.ext_get?
        intro j
        rw [List.get?_eq_getElem?, List.get?_eq_getElem?, List.getElem?_set]
        by_cases hj : msg.ValidatorIndex = j
        · subst hj
          simp [hi, List.getD, List.getElem?_eq_getElem hi]
        · simp [hj]
      simp only [World.modify, Option.some_bind, max_eq_left (not_lt.mp hlt), hself]
  · rw [List.get?_eq_getElem?, List.getElem?_set]
    simp [hi]
  · intro j hj
    rw [List.get?_eq_getElem?, List.get?_eq_getElem?, List.getElem?_set]
    simp [Ne.symm hj]
  · intro j
    simp only [List.getD, List.get?_eq_getElem?, List.getElem?_set]
    by_cases hj : msg.ValidatorIndex = j
    · subst hj
      simp [hi, List.getElem?_eq_getElem hi]
    · simp [hj]

/-- Witness for C6: a PrepareResponse of validator 3 for the current height and
view on the sample engine. -/
theorem C6_OnReceive_updates_LastSeenMessage_witness :
    OnReceive sampleEnv (responseMessage 0) (sampleWorld 0 1) =
      handle sampleEnv (responseMessage 0) ((sampleWorld 0 1).modify (fun d =>
        { d with LastSeenMessage :=
            (raiseTo d.LastSeenMessage (responseMessage 0).ValidatorIndex
              ((responseMessage 0).Height : Int)) })) :=
  (C6_OnReceive_updates_LastSeenMessage sampleEnv (responseMessage 0) (sampleWorld 0 1)
    (by decide) (by decide) (by decide) (by decide) (by decide) (by decide)).1

/-! ### The transaction handler -/

theorem onTransactionLoop_eq (env : Env) (tx : Transaction) (h : Uint256)
    (hashes : List Uint256) (w : World) :
    onTransactionLoop env tx h hashes w =
      if h ∈ hashes then addTransaction env tx w else some w := by
  induction hashes with
  | nil => simp [onTransactionLoop]
  | cons x rest ih =>
    unfold onTransactionLoop
    by_cases hx : h = x
    · simp [hx]
    · rw [if_neg hx, ih]
      simp [hx]

theorem mem_mapInsert (m : List (Uint256 × Transaction)) (h : Uint256) (tx : Transaction) :
    (h, tx) ∈ mapInsert m h tx := by
  induction m with
  | nil => simp [mapInsert]
  | cons e rest ih =>
    unfold mapInsert
    split_ifs
    · simp
    · exact List.mem_cons_of_mem _ ih

/-- C7 (counterexample): on `committedWorld` the node has sent Commit, yet
`OnTransaction` stores the transaction 5: the handler tests `BlockSent()`, not
`CommitSent()`. -/
theorem C7_counterexample_commit_sent :
    IsBackup sampleEnv committedWorld.ctx = true ∧
    sampleEnv.NotAcceptingPayloadsDueToViewChanging committedWorld.ctx = false ∧
    sampleEnv.RequestSentOrReceived committedWorld.ctx = true ∧
    sampleEnv.ResponseSent committedWorld.ctx = false ∧
    sampleEnv.CommitSent committedWorld.ctx = true ∧
    (OnTransaction sampleEnv { Hash := 5, content := 0 } committedWorld).map
        (fun w => w.d.Transactions) =
      some [(5, { Hash := 5, content := 0 })] := by
  decide

/-- C7 (amended): `OnTransaction` stores tx in Transactions (and goes on with
the rest of `addTransaction`) if and only if the node is a backup, it is not
refusing payloads due to view changing, a PrepareRequest has been sent or
received, no PrepareResponse has been sent, `BlockSent()` is false, tx.Hash()
is not already a key of Transactions, and tx.Hash() occurs in
TransactionHashes; in every other case the world is unchanged: same Context,
nothing sent. -/
theorem C7_OnTransaction_stores_iff (env : Env) (tx : Transaction) (w : World) :
    ((IsBackup env w.ctx = true ∧
        env.NotAcceptingPayloadsDueToViewChanging w.ctx = false ∧
        env.RequestSentOrReceived w.ctx = true ∧
        env.ResponseSent w.ctx = false ∧
        env.BlockSent w.ctx = false ∧
        (∀ e ∈ w.d.Transactions, e.1 ≠ tx.Hash) ∧
        tx.Hash ∈ w.d.TransactionHashes) →
      OnTransaction env tx w = addTransactionCheck env (storeTransaction tx w) ∧
      (tx.Hash, tx) ∈ (storeTransaction tx w).d.Transactions ∧
      (storeTransaction tx w).calls = w.calls) ∧
    (¬ (IsBackup env w.ctx = true ∧
        env.NotAcceptingPayloadsDueToViewChanging w.ctx = false ∧
        env.RequestSentOrReceived w.ctx = true ∧
        env.ResponseSent w.ctx = false ∧
        env.BlockSent w.ctx = false ∧
        (∀ e ∈ w.d.Transactions, e.1 ≠ tx.Hash) ∧
        tx.Hash ∈ w.d.TransactionHashes) →
      OnTransaction env tx w = some w) := by
  have hkey : mapHas w.d.Transactions tx.Hash = false ↔
      ∀ e ∈ w.d.Transactions, e.1 ≠ tx.Hash := by
    simp [mapHas]
  constructor
  · rintro ⟨h1, h2, h3, h4, h5, h6, h7⟩
    refine ⟨?_, mem_mapInsert _ _ _, rfl⟩
    unfold OnTransaction
    simp only [h1, h2, h3, h4, h5, Bool.not_true, Bool.or_self, Bool.false_eq_true, if_false,
      hkey.mpr h6, onTransactionLoop_eq, h7, if_true]
    rfl
  · intro hn
    unfold OnTransaction
    by_cases hg : (!IsBackup env w.ctx || env.NotAcceptingPayloadsDueToViewChanging w.ctx ||
        !env.RequestSentOrReceived w.ctx || env.ResponseSent w.ctx || env.BlockSent w.ctx) = true
    · rw [if_pos hg]
    · rw [if_neg hg]
      by_cases hk : mapHas w.d.Transactions tx.Hash = true
      · rw [if_pos hk]
      · rw [if_neg hk, onTransactionLoop_eq]
        by_cases hm : tx.Hash ∈ w.d.TransactionHashes
        · exfalso
          apply hn
          simp only [Bool.or_eq_true, Bool.not_eq_true', not_or, Bool.not_eq_false,
            Bool.not_eq_true] at hg
          obtain ⟨⟨⟨⟨g1, g2⟩, g3⟩, g4⟩, g5⟩ := hg
          exact ⟨g1, g2, g3, g4, g5, hkey.mp (by simpa using hk), hm⟩
        · rw [if_neg hm]

/-- Witness for C7: on `committedWorld` the seven conditions hold for the
transaction 5, which is stored. -/
theorem C7_OnTransaction_stores_iff_witness :
    OnTransaction sampleEnv { Hash := 5, content := 0 } committedWorld =
      addTransactionCheck sampleEnv
        (storeTransaction { Hash := 5, content := 0 } committedWorld) :=
  ((C7_OnTransaction_stores_iff sampleEnv { Hash := 5, content := 0 } committedWorld).1
    (by decide)).1

/-! ### The Commit handler -/

theorem extendTimer_total (env : Env) (count : Int) (w : World)
    (hn : 0 < w.d.Validators.length) :
    ∃ w1, extendTimer env count w = some w1 ∧ w1.d = w.d ∧
      (w1.calls = w.calls ∨ ∃ delay, w1.calls = w.calls ++ [Call.TimerExtend delay]) := by
  have hF : (w.d.Validators.length : Int) - (w.ctx.F : Int) ≠ 0 := by
    have : w.ctx.F < w.d.Validators.length := by
      unfold Context.F Context.N World.ctx
      omega
    omega
  unfold extendTimer
  split_ifs with h1
  · exact ⟨_, rfl, rfl, Or.inr ⟨_, rfl⟩⟩
  · exact ⟨w, rfl, rfl, Or.inl rfl⟩

theorem storeCommit_eq (msg : ConsensusPayload) (w : World)
    (hs : msg.ValidatorIndex < w.d.CommitPayloads.length) :
    storeCommit msg w = some (withCommit msg w) := by
  unfold storeCommit assign?
  rw [if_pos hs]
  rfl

/-- C8: for a Commit message `msg` from sender s (a valid index), `onCommit`
first extends the timer, which leaves the engine alone, and then: if
msg.ViewNumber = V and the header can be built, CommitPayloads[s] becomes msg
and checkCommit runs when the signature verifies against the header under
Validators[s], and the engine is left unchanged (checkCommit not run) when it
does not; if msg.ViewNumber = V and the header cannot be built,
CommitPayloads[s] becomes msg without verification; if msg.ViewNumber differs
from V, CommitPayloads[s] becomes msg unconditionally.  Storing changes slot s
only. -/
theorem C8_onCommit_store (env : Env) (msg : ConsensusPayload) (w : World) (c : Commit)
    (hs : msg.ValidatorIndex < w.d.Validators.length)
    (hlen : w.d.CommitPayloads.length = w.d.Validators.length)
    (hc : msg.GetCommit = some c) :
    ∃ w1, extendTimer env 4 w = some w1 ∧ w1.d = w.d ∧
      (w1.calls = w.calls ∨ ∃ delay, w1.calls = w.calls ++ [Call.TimerExtend delay]) ∧
      (w.d.ViewNumber = msg.ViewNumber →
        (∀ header, env.MakeHeader w.ctx = some header →
          (env.Verify header (w.d.Validators.getD msg.ValidatorIndex 0) c.Signature = true →
            onCommit env msg w =
              some ((withCommit msg w1).invoke Call.checkCommit env.checkCommit)) ∧
          (env.Verify header (w.d.Validators.getD msg.ValidatorIndex 0) c.Signature = false →
            onCommit env msg w = some w1)) ∧
        (env.MakeHeader w.ctx = none → onCommit env msg w = some (withCommit msg w1))) ∧
      (w.d.ViewNumber ≠ msg.ViewNumber → onCommit env msg w = some (withCommit msg w1)) ∧
      (withCommit msg w1).calls = w1.calls ∧
      (withCommit msg w1).d.CommitPayloads.get? msg.ValidatorIndex = some (some msg) ∧
      (∀ j, j ≠ msg.ValidatorIndex →
        (withCommit msg w1).d.CommitPayloads.get? j = w.d.CommitPayloads.get? j) := by
  obtain ⟨w1, e1, hd, hcalls⟩ := extendTimer_total env 4 w (by omega)
  have hctx : w1.ctx = w.ctx := by unfold World.ctx; rw [hd]
  have hs1 : msg.ValidatorIndex < w1.d.CommitPayloads.length := by rw [hd, hlen]; exact hs
  have hpub : index? w1.d.Validators msg.ValidatorIndex =
      some (w.d.Validators.getD msg.ValidatorIndex 0) := by
    rw [hd]
    simp [index?, List.getD, List.getElem?_eq_getElem hs]
  refine ⟨w1, e1, hd, hcalls, ?_, ?_, rfl, ?_, ?_⟩
  · intro hv
    have hv1 : w1.d.ViewNumber = msg.ViewNumber := by rw [hd]; exact hv
    refine ⟨?_, ?_⟩
    · intro header hh
      constructor
      · intro hver
        rw [List.getD_eq_getElem?_getD] at hver
        simp [onCommit, e1, hv1, hctx, hh, hpub, hc, hver, storeCommit_eq msg w1 hs1]
      · intro hver
        rw [List.getD_eq_getElem?_getD] at hver
        simp [onCommit, e1, hv1, hctx, hh, hpub, hc, hver]
    · intro hh
      simp [onCommit, e1, hv1, hctx, hh, storeCommit_eq msg w1 hs1]
  · intro hv
    have hv1 : w1.d.ViewNumber ≠ msg.ViewNumber := by rw [hd]; exact hv
    simp [onCommit, e1, hv1, storeCommit_eq msg w1 hs1]
  · simp only [withCommit, World.modify, List.get?_eq_getElem?, List.getElem?_set]
    simp [hs1]
  · intro j hj
    simp only [withCommit, World.modify, List.get?_eq_getElem?, List.getElem?_set, hd]
    simp [Ne.symm hj]

/-- Witness for C8: the Commit of validator 3 on the sample engine, in whose
state the header cannot be built yet, is stored. -/
theorem C8_onCommit_store_witness :
    ∃ w1, extendTimer sampleEnv 4 (sampleWorld 0 1) = some w1 ∧
      onCommit sampleEnv (commitMessage 0) (sampleWorld 0 1) =
        some (withCommit (commitMessage 0) w1) := by
  obtain ⟨w1, e1, _, _, h, _⟩ := C8_onCommit_store sampleEnv (commitMessage 0)
    (sampleWorld 0 1) { Signature := 14 } (by decide) (by decide) (by decide)
  exact ⟨w1, e1, (h (by decide)).2 (by decide)⟩

/-! ### The ChangeView handler -/

/-- C9: for a ChangeView message from sender s with NewViewNumber nv: if
nv ≤ V the message is handled as a recovery request, on the unchanged world;
if nv > V and Commit has been sent, or the slot of s already holds a
ChangeView with NewViewNumber strictly greater than nv, the world is unchanged
(checkChangeView is not run); otherwise (the slot being empty or holding a
ChangeView not above nv) ChangeViewPayloads[s] becomes msg, no other slot
changes, and checkChangeView(nv) runs.  Hence a ChangeView already in the slot
is only ever replaced by one whose NewViewNumber is at least as large. -/
theorem C9_onChangeView_store (env : Env) (msg : ConsensusPayload) (w : World) (p : ChangeView)
    (hp : msg.GetChangeView = some p) :
    (p.NewViewNumber ≤ w.d.ViewNumber →
      onChangeView env msg w = onRecoveryRequest env msg w) ∧
    (w.d.ViewNumber < p.NewViewNumber →
      (env.CommitSent w.ctx = true ∨
        ∃ m c, index? w.d.ChangeViewPayloads msg.ValidatorIndex = some (some m) ∧
          m.GetChangeView = some c ∧ p.NewViewNumber < c.NewViewNumber) →
      onChangeView env msg w = some w) ∧
    (w.d.ViewNumber < p.NewViewNumber → env.CommitSent w.ctx = false →
      ∀ slot, index? w.d.ChangeViewPayloads msg.ValidatorIndex = some slot →
      (∀ m, slot = some m → ∃ c, m.GetChangeView = some c ∧
        c.NewViewNumber ≤ p.NewViewNumber) →
      onChangeView env msg w =
        some ((withChangeView msg w).invoke (Call.checkChangeView p.NewViewNumber)
          (env.checkChangeView p.NewViewNumber)) ∧
      (withChangeView msg w).calls = w.calls ∧
      (withChangeView msg w).d.ChangeViewPayloads.get? msg.ValidatorIndex = some (some msg) ∧
      (∀ j, j ≠ msg.ValidatorIndex →
        (withChangeView msg w).d.ChangeViewPayloads.get? j = w.d.ChangeViewPayloads.get? j)) ∧
    (∀ m c, index? w.d.ChangeViewPayloads msg.ValidatorIndex = some (some m) →
      m.GetChangeView = some c →
      onChangeView env msg w = onRecoveryRequest env msg w ∨
      onChangeView env msg w = some w ∨
      (c.NewViewNumber ≤ p.NewViewNumber ∧
        onChangeView env msg w =
          some ((withChangeView msg w).invoke (Call.checkChangeView p.NewViewNumber)
            (env.checkChangeView p.NewViewNumber)))) := by
  have hold : p.NewViewNumber ≤ w.d.ViewNumber →
      onChangeView env msg w = onRecoveryRequest env msg w := by
    intro hle
    simp [onChangeView, hp, hle]
  have hdrop : w.d.ViewNumber < p.NewViewNumber →
      (env.CommitSent w.ctx = true ∨
        ∃ m c, index? w.d.ChangeViewPayloads msg.ValidatorIndex = some (some m) ∧
          m.GetChangeView = some c ∧ p.NewViewNumber < c.NewViewNumber) →
      onChangeView env msg w = some w := by
    intro hlt hor
    have hnle : ¬ p.NewViewNumber ≤ w.d.ViewNumber := by omega
    by_cases hcs : env.CommitSent w.ctx = true
    · simp [onChangeView, hp, hnle, hcs]
    · rcases hor with h | ⟨m, c, hm, hc, hgt⟩
      · exact absurd h hcs
      · simp [onChangeView, hp, hnle, hcs, hm, hc, hgt]
  have hstore : w.d.ViewNumber < p.NewViewNumber → env.CommitSent w.ctx = false →
      ∀ slot, index? w.d.ChangeViewPayloads msg.ValidatorIndex = some slot →
      (∀ m, slot = some m → ∃ c, m.GetChangeView = some c ∧
        c.NewViewNumber ≤ p.NewViewNumber) →
      onChangeView env msg w =
        some ((withChangeView msg w).invoke (Call.checkChangeView p.NewViewNumber)
          (env.checkChangeView p.NewViewNumber)) := by
    intro hlt hcs slot hslot hle
    have hnle : ¬ p.NewViewNumber ≤ w.d.ViewNumber := by omega
    have hin : msg.ValidatorIndex < w.d.ChangeViewPayloads.length := by
      by_contra hc
      simp [index?, List.getElem?_eq_none (not_lt.mp hc)] at hslot
    have hassign : assign? w.d.ChangeViewPayloads msg.ValidatorIndex (some msg) =
        some (w.d.ChangeViewPayloads.set msg.ValidatorIndex (some msg)) := by
      simp [assign?, hin]
    cases slot with
    | none =>
      simp [onChangeView, hp, hnle, hcs, hslot, hassign]
      rfl
    | some m =>
      obtain ⟨c, hc, hcle⟩ := hle m rfl
      have hng : ¬ p.NewViewNumber < c.NewViewNumber := by omega
      simp [onChangeView, hp, hnle, hcs, hslot, hc, hng, hassign]
      rfl
  refine ⟨hold, hdrop, ?_, ?_⟩
  · intro hlt hcs slot hslot hle
    have hin : msg.ValidatorIndex < w.d.ChangeViewPayloads.length := by
      by_contra hc
      simp [index?, List.getElem?_eq_none (not_lt.mp hc)] at hslot
    refine ⟨hstore hlt hcs slot hslot hle, rfl, ?_, ?_⟩
    · simp only [withChangeView, World.modify, List.get?_eq_getElem?, List.getElem?_set]
      simp [hin]
    · intro j hj
      simp only [withChangeView, World.modify, List.get?_eq_getElem?, List.getElem?_set]
      simp [Ne.symm hj]
  · intro m c hm hc
    by_cases hle : p.NewViewNumber ≤ w.d.ViewNumber
    · exact Or.inl (hold hle)
    · have hlt : w.d.ViewNumber < p.NewViewNumber := by omega
      by_cases hcs : env.CommitSent w.ctx = true
      · exact Or.inr (Or.inl (hdrop hlt (Or.inl hcs)))
      · by_cases hgt : p.NewViewNumber < c.NewViewNumber
        · exact Or.inr (Or.inl (hdrop hlt (Or.inr ⟨m, c, hm, hc, hgt⟩)))
        · refine Or.inr (Or.inr ⟨by omega, ?_⟩)
          apply hstore hlt (by simpa using hcs) (some m) hm
          intro m' hm'
          cases hm'
          exact ⟨c, hc, by omega⟩

/-- Witness for C9: a ChangeView of validator 3 for view 1 on the sample engine
at view 0 is stored and checkChangeView(1) runs. -/
theorem C9_onChangeView_store_witness :
    onChangeView sampleEnv (changeViewMessage 1) (sampleWorld 0 1) =
      some ((withChangeView (changeViewMessage 1) (sampleWorld 0 1)).invoke
        (Call.checkChangeView 1) (sampleEnv.checkChangeView 1)) :=
  ((C9_onChangeView_store sampleEnv (changeViewMessage 1) (sampleWorld 0 1)
    { NewViewNumber := 1 } (by decide)).2.2.1 (by decide) (by decide) none (by decide)
    (by intro m hm; cases hm)).1

/-! ### The RecoveryRequest handler -/

theorem shouldSendLoop_spec (sender n : Nat) (myIndex : Int) (hn : 0 < n) (remaining i : Nat) :
    ∃ b, shouldSendLoop sender n myIndex remaining i = some b ∧
      (b = true ↔ ∃ k, i ≤ k ∧ k < i + remaining ∧
        myIndex = (((sender + k) % n : Nat) : Int)) := by
  induction remaining generalizing i with
  | zero =>
    refine ⟨false, rfl, ?_⟩
    constructor
    · intro h; cases h
    · rintro ⟨k, h1, h2, _⟩; omega
  | succ r ih =>
    unfold shouldSendLoop
    rw [if_neg (by omega)]
    by_cases hi : (((sender + i) % n : Nat) : Int) = myIndex
    · rw [if_pos hi]
      exact ⟨true, rfl, ⟨fun _ => ⟨i, le_refl _, by omega, hi.symm⟩, fun _ => rfl⟩⟩
    · rw [if_neg hi]
      obtain ⟨b, hb, hiff⟩ := ih (i + 1)
      refine ⟨b, hb, ?_⟩
      rw [hiff]
      constructor
      · rintro ⟨k, h1, h2, h3⟩
        exact ⟨k, by omega, by omega, h3⟩
      · rintro ⟨k, h1, h2, h3⟩
        have hne : k ≠ i := by
          intro hki
          subst hki
          exact hi h3.symm
        exact ⟨k, by omega, by omega, h3⟩

/-- C10: `onRecoveryRequest` calls sendRecoveryMessage, once and on the
unchanged engine, if this node has sent Commit or MyIndex equals
(r + i) mod N for some i with 1 ≤ i ≤ f, where r is the sender index; in
every other case it returns the world as it is. -/
theorem C10_onRecoveryRequest_sends_iff (env : Env) (msg : ConsensusPayload) (w : World) :
    ((env.CommitSent w.ctx = true ∨
        ∃ i, 1 ≤ i ∧ i ≤ w.ctx.F ∧
          w.d.MyIndex = (((msg.ValidatorIndex + i) % w.ctx.N : Nat) : Int)) →
      onRecoveryRequest env msg w =
        some { d := env.sendRecoveryMessage w.d,
               calls := w.calls ++ [Call.sendRecoveryMessage] }) ∧
    (¬ (env.CommitSent w.ctx = true ∨
        ∃ i, 1 ≤ i ∧ i ≤ w.ctx.F ∧
          w.d.MyIndex = (((msg.ValidatorIndex + i) % w.ctx.N : Nat) : Int)) →
      onRecoveryRequest env msg w = some w) := by
  have hloop : ∃ b, shouldSendLoop msg.ValidatorIndex w.d.Validators.length w.d.MyIndex
      w.ctx.F 1 = some b ∧
      (b = true ↔ ∃ i, 1 ≤ i ∧ i ≤ w.ctx.F ∧
        w.d.MyIndex = (((msg.ValidatorIndex + i) % w.ctx.N : Nat) : Int)) := by
    by_cases hn : 0 < w.d.Validators.length
    · obtain ⟨b, hb, hiff⟩ :=
        shouldSendLoop_spec msg.ValidatorIndex w.d.Validators.length w.d.MyIndex hn w.ctx.F 1
      refine ⟨b, hb, ?_⟩
      rw [hiff]
      constructor
      · rintro ⟨k, h1, h2, h3⟩
        exact ⟨k, h1, by omega, h3⟩
      · rintro ⟨k, h1, h2, h3⟩
        exact ⟨k, h1, by omega, h3⟩
    · have hF : w.ctx.F = 0 := by
        unfold Context.F Context.N World.ctx
        have : w.d.Validators.length = 0 := by omega
        simp [this]
      rw [hF]
      refine ⟨false, rfl, ?_⟩
      constructor
      · intro h; cases h
      · rintro ⟨k, h1, h2, _⟩; omega
  obtain ⟨b, hb, hiff⟩ := hloop
  constructor
  · intro h
    unfold onRecoveryRequest
    by_cases hcs : env.CommitSent w.ctx = true
    · simp [hcs, World.invoke]
    · rcases h with h | h
      · exact absurd h hcs
      · have hbt : b = true := hiff.mpr h
        subst hbt
        simp [hcs, hb, World.invoke]
  · intro h
    push_neg at h
    obtain ⟨hcs, hno⟩ := h
    have hbf : b = false := by
      cases b with
      | false => rfl
      | true =>
        obtain ⟨i, h1, h2, h3⟩ := hiff.mp rfl
        exact absurd h3 (hno i h1 h2)
    subst hbf
    unfold onRecoveryRequest
    simp [hcs, hb]

/-- Witness for C10: node 0 of four validators (f = 1) is the successor of the
requester 3 and answers with one RecoveryMessage. -/
theorem C10_onRecoveryRequest_sends_iff_witness :
    onRecoveryRequest sampleEnv (changeViewMessage 0) (sampleWorld 0 0) =
      some { d := (sampleWorld 0 0).d, calls := [Call.sendRecoveryMessage] } :=
  (C10_onRecoveryRequest_sends_iff sampleEnv (changeViewMessage 0) (sampleWorld 0 0)).1
    (Or.inr ⟨1, by decide, by decide, by decide⟩)

/-! ### The timer of `InitializeConsensus` -/

/-- C11 (counterexample): node 1 is the primary of view 1 (not recovering, not
WatchOnly); `InitializeConsensus(1)` schedules the timer with the block time of
15 s left after the last block, not with SecondsPerBlock << 2 = 60 s. -/
theorem C11_counterexample_primary_view_1 :
    (sampleWorld 1 1).ctx.WatchOnly = false ∧
    IsPrimary sampleEnv ((sampleWorld 1 1).invoke (Call.reset 1) (sampleEnv.reset 1)).ctx
      = true ∧
    ((sampleWorld 1 1).invoke (Call.reset 1) (sampleEnv.reset 1)).d.ViewNumber = 1 ∧
    ((sampleWorld 1 1).invoke (Call.reset 1) (sampleEnv.reset 1)).d.recovering = false ∧
    shl64 sampleEnv.SecondsPerBlock 2 = 60000000000 ∧
    (InitializeConsensus sampleEnv 1 (sampleWorld 1 1)).calls =
      [Call.reset 1, Call.TimerReset 10 1 15000000000] := by
  decide

/-- C11 (amended): `w1` being the world after `reset(view)`, with a
non-WatchOnly node at view V: when the node is a backup, or a primary that is
recovering, `InitializeConsensus` schedules the timer with
`SecondsPerBlock << (V+1)` (V+1 a byte sum, equal to V+1 below view 255; the
shift in int64); when the node is a primary that is not recovering it
schedules, at every view, the rest of the block time:
0 if span ≥ SecondsPerBlock and SecondsPerBlock − span otherwise. -/
theorem C11_InitializeConsensus_backoff (env : Env) (view : Nat) (w w1 : World)
    (hreset : w1 = w.invoke (Call.reset view) (env.reset view))
    (hwatch : w1.ctx.WatchOnly = false) :
    ((IsBackup env w1.ctx = true ∨ (IsPrimary env w1.ctx = true ∧ w1.d.recovering = true)) →
      InitializeConsensus env view w =
        changeTimer (shl64 env.SecondsPerBlock ((w1.d.ViewNumber + 1) % 256)) w1) ∧
    ((IsPrimary env w1.ctx = true ∧ w1.d.recovering = false) →
      InitializeConsensus env view w =
        changeTimer
          (if env.SecondsPerBlock ≤ spanSince env.Now w1.d.blockPersistTime then 0
           else wrapInt64 (env.SecondsPerBlock - spanSince env.Now w1.d.blockPersistTime))
          w1) ∧
    (w1.d.ViewNumber < 255 → (w1.d.ViewNumber + 1) % 256 = w1.d.ViewNumber + 1) := by
  subst hreset
  refine ⟨?_, ?_, ?_⟩
  · intro h
    have hgate : (IsPrimary env (w.invoke (Call.reset view) (env.reset view)).ctx &&
        !(w.invoke (Call.reset view) (env.reset view)).d.recovering) = false := by
      rcases h with hb | ⟨_, hr⟩
      · unfold IsBackup at hb
        simp only [Bool.and_eq_true, Bool.not_eq_true'] at hb
        simp [hb.1]
      · simp [hr]
    unfold InitializeConsensus
    simp only [hwatch, hgate, Bool.false_eq_true, if_false]
  · rintro ⟨hp, hr⟩
    unfold InitializeConsensus spanSince
    simp only [hwatch, hp, hr, Bool.false_eq_true, if_false, Bool.not_false, Bool.and_self,
      if_true]
    split_ifs <;> rfl
  · intro hv
    exact Nat.mod_eq_of_lt (by omega)

/-- Witness for C11: backup 1 at view 0 gets SecondsPerBlock << 1 = 30 s. -/
theorem C11_InitializeConsensus_backoff_witness :
    InitializeConsensus sampleEnv 0 (sampleWorld 0 1) =
      changeTimer (shl64 sampleEnv.SecondsPerBlock 1)
        ((sampleWorld 0 1).invoke (Call.reset 0) (sampleEnv.reset 0)) :=
  (C11_InitializeConsensus_backoff sampleEnv 0 (sampleWorld 0 1)
    ((sampleWorld 0 1).invoke (Call.reset 0) (sampleEnv.reset 0)) rfl (by decide)).1
    (Or.inl (by decide))

/-- C12 (counterexample): node 2 is the primary of view 0 and not recovering.
With the zero `blockPersistTime` and a clock at 10^18 ns the timer gets the full
15 s, while max(0, SecondsPerBlock − (now − blockPersistTime)) is 0; with a
block persisted at 5 s and a clock at 0 the timer gets 20 s, more than
SecondsPerBlock. -/
theorem C12_counterexample_zero_time_and_clock_behind :
    IsPrimary lateEnv (sampleWorld 0 2).ctx = true ∧
    (sampleWorld 0 2).d.recovering = false ∧
    (sampleWorld 0 2).d.blockPersistTime = 0 ∧
    max 0 (lateEnv.SecondsPerBlock - (lateEnv.Now - (sampleWorld 0 2).d.blockPersistTime)) = 0 ∧
    (InitializeConsensus lateEnv 0 (sampleWorld 0 2)).calls =
      [Call.reset 0, Call.TimerReset 10 0 15000000000] ∧
    IsPrimary sampleEnv aheadWorld.ctx = true ∧
    aheadWorld.d.recovering = false ∧
    sampleEnv.SecondsPerBlock = 15000000000 ∧
    (InitializeConsensus sampleEnv 0 aheadWorld).calls =
      [Call.reset 0, Call.TimerReset 10 0 20000000000] := by
  decide

/-- C12 (amended): `w1` being the world after `reset(view)`, for a node that is
primary and not recovering `InitializeConsensus` schedules the timer with
delay 0 if span ≥ SecondsPerBlock and SecondsPerBlock − span otherwise, where
span is now − blockPersistTime, and 0 while blockPersistTime is the zero time.
For a SecondsPerBlock in [0, 2^63) and a span that is not negative (the clock
is not behind blockPersistTime) this delay is max(0, SecondsPerBlock − span),
is not negative and does not exceed SecondsPerBlock. -/
theorem C12_InitializeConsensus_primary_delay (env : Env) (view : Nat) (w w1 : World)
    (hreset : w1 = w.invoke (Call.reset view) (env.reset view))
    (hwatch : w1.ctx.WatchOnly = false)
    (hprimary : IsPrimary env w1.ctx = true) (hrec : w1.d.recovering = false) :
    InitializeConsensus env view w =
      changeTimer
        (if env.SecondsPerBlock ≤ spanSince env.Now w1.d.blockPersistTime then 0
         else wrapInt64 (env.SecondsPerBlock - spanSince env.Now w1.d.blockPersistTime))
        w1 ∧
    (w1.d.blockPersistTime = 0 → spanSince env.Now w1.d.blockPersistTime = 0) ∧
    (w1.d.blockPersistTime ≠ 0 →
      spanSince env.Now w1.d.blockPersistTime = timeSub env.Now w1.d.blockPersistTime) ∧
    (0 ≤ env.SecondsPerBlock → env.SecondsPerBlock < 2 ^ 63 →
      0 ≤ spanSince env.Now w1.d.blockPersistTime →
      (if env.SecondsPerBlock ≤ spanSince env.Now w1.d.blockPersistTime then 0
       else wrapInt64 (env.SecondsPerBlock - spanSince env.Now w1.d.blockPersistTime)) =
        max 0 (env.SecondsPerBlock - spanSince env.Now w1.d.blockPersistTime) ∧
      0 ≤ max 0 (env.SecondsPerBlock - spanSince env.Now w1.d.blockPersistTime) ∧
      max 0 (env.SecondsPerBlock - spanSince env.Now w1.d.blockPersistTime) ≤
        env.SecondsPerBlock) := by
  subst hreset
  refine ⟨?_, ?_, ?_, ?_⟩
  · unfold InitializeConsensus spanSince
    simp only [hwatch, hprimary, hrec, Bool.false_eq_true, if_false, Bool.not_false,
      Bool.and_self, if_true]
    split_ifs <;> rfl
  · intro h
    simp [spanSince, h]
  · intro h
    simp [spanSince, h]
  · intro h0 h1 hs
    generalize spanSince env.Now (w.invoke (Call.reset view) (env.reset view)).d.blockPersistTime
      = span at hs ⊢
    refine ⟨?_, le_max_left _ _, max_le h0 (by omega)⟩
    by_cases hle : env.SecondsPerBlock ≤ span
    · rw [if_pos hle, max_eq_left (by omega)]
    · rw [if_neg hle, max_eq_right (by omega)]
      exact wrapInt64_of_range _ (by omega) (by omega)

/-- Witness for C12: primary 2 at view 0 with the zero blockPersistTime gets
the whole block time. -/
theorem C12_InitializeConsensus_primary_delay_witness :
    InitializeConsensus sampleEnv 0 (sampleWorld 0 2) =
      changeTimer
        (if sampleEnv.SecondsPerBlock ≤ spanSince sampleEnv.Now
            ((sampleWorld 0 2).invoke (Call.reset 0) (sampleEnv.reset 0)).d.blockPersistTime
         then 0
         else wrapInt64 (sampleEnv.SecondsPerBlock - spanSince sampleEnv.Now
            ((sampleWorld 0 2).invoke (Call.reset 0) (sampleEnv.reset 0)).d.blockPersistTime))
        ((sampleWorld 0 2).invoke (Call.reset 0) (sampleEnv.reset 0)) :=
  (C12_InitializeConsensus_primary_delay sampleEnv 0 (sampleWorld 0 2)
    ((sampleWorld 0 2).invoke (Call.reset 0) (sampleEnv.reset 0)) rfl (by decide) (by decide)
    (by decide)).1

/-! ### WatchOnly nodes -/

/-- What does hold for a WatchOnly node: `InitializeConsensus` stops after
`reset`, `OnTimeout` and `OnTransaction` leave the world as it is, and
`OnReceive` never adds a `Timer.Reset` to the call log. -/
theorem watchOnly_quiet_entry_points (env : Env) (w : World) :
    (∀ view, (w.invoke (Call.reset view) (env.reset view)).ctx.WatchOnly = true →
      InitializeConsensus env view w = w.invoke (Call.reset view) (env.reset view)) ∧
    (w.ctx.WatchOnly = true →
      (∀ height view, OnTimeout env height view w = w) ∧
      (∀ tx, OnTransaction env tx w = some w)) ∧
    (∀ msg w', OnReceive env msg w = some w' →
      ∃ l : List Call, w'.calls = w.calls ++ l ∧
        ∀ c ∈ l, ∀ h v delay, c ≠ Call.TimerReset h v delay) := by
  refine ⟨?_, ?_, ?_⟩
  · intro view hw
    unfold InitializeConsensus
    simp only [hw, if_true]
  · intro hw
    refine ⟨fun height view => ?_, fun tx => ?_⟩
    · simp [OnTimeout, hw]
    · simp [OnTransaction, IsBackup, hw]
  · intro msg w' h
    unfold OnReceive at h
    split_ifs at h
    · cases h; exact ⟨[], by simp, by simp⟩
    · cases h; exact ⟨[], by simp, by simp⟩
    · cases h; exact ⟨[], by simp, by simp⟩
    · cases h
      refine ⟨[Call.cacheAddMessage msg], rfl, ?_⟩
      intro c hc
      simp only [List.mem_singleton] at hc
      subst hc
      intro h v delay hcontra
      cases hcontra
    · cases h; exact ⟨[], by simp, by simp⟩
    · simp only [Option.bind_eq_bind, Option.bind_eq_some] at h
      obtain ⟨w1, e1, e2⟩ := h
      obtain ⟨l, el, pl⟩ := (updateLastSeen_added e1).trans (handle_added e2)
      refine ⟨l, el, ?_⟩
      intro c hc h v delay hcontra
      have := pl c hc
      rw [hcontra] at this
      simp [Call.fromHandler] at this

/-- C13 (evaluation at the failing input): on a WatchOnly node (MyIndex = −1) a
PrepareRequest of the primary whose transactions are all in the mempool makes
`OnReceive`, through `onPrepareRequest`, call sendPrepareResponse and
checkPrepare; with a wrong NextConsensus it calls sendChangeView as well.
`addTransaction` guards the same send with `WatchOnly()`, `onPrepareRequest`
does not. -/
theorem C13_watchOnly_sends_prepareResponse :
    (sampleWorld 0 (-1)).ctx.WatchOnly = true ∧
    (OnReceive sampleEnv goodRequest (sampleWorld 0 (-1))).map (fun w => w.calls) =
      some [Call.TimerExtend 10000000000, Call.sendPrepareResponse, Call.checkPrepare] ∧
    (OnReceive sampleEnv badNextConsensusRequest (sampleWorld 0 (-1))).map (fun w => w.calls) =
      some [Call.TimerExtend 10000000000, Call.sendChangeView, Call.sendPrepareResponse,
        Call.checkPrepare] := by
  decide

/-! ### The replay of the future-message cache -/

theorem runPlan_append (env : Env) (xs ys : List (Replay × ConsensusPayload)) (w : World) :
    runPlan env (xs ++ ys) w = (runPlan env xs w).bind (runPlan env ys) := by
  induction xs generalizing w with
  | nil => simp [runPlan]
  | cons x rest ih =>
    simp only [List.cons_append, runPlan]
    cases h : x.1.run env x.2 w with
    | none => simp
    | some w1 => simp [ih]

theorem runPlan_map (env : Env) (tag : ConsensusPayload → Replay)
    (msgs : List ConsensusPayload) (w : World) :
    runPlan env (msgs.map (fun m => (tag m, m))) w =
      forEach (fun m => (tag m).run env m) msgs w := by
  induction msgs generalizing w with
  | nil => simp [runPlan, forEach]
  | cons m rest ih =>
    simp only [List.map_cons, runPlan, forEach]
    cases h : (tag m).run env m w with
    | none => simp
    | some w1 => simp [ih]

theorem replayPrepare_eq (env : Env) :
    replayPrepare env = fun m =>
      (if m.MsgType = MessageType.PrepareRequestType then Replay.toPrepareRequest
       else Replay.toPrepareResponse).run env m := by
  funext m w
  unfold replayPrepare
  split_ifs <;> rfl

/-- C14: when `start` replays the bucket `b` of the current height (the node is
not primary), it is the run of exactly this sequence of handler invocations:
every message of `b.prepare` in order (a PrepareRequest to onPrepareRequest,
any other to onPrepareResponse), then every message of `b.chViews` in order to
onChangeView, then every message of `b.commit` in order to onCommit.  The
messages of the sequence are those of the three lists, each once; phases never
go down along it, so no commit comes before a change-view and no change-view
before a prepare. -/
theorem C14_start_replay_order (env : Env) (w : World) (b : Bucket)
    (hprimary : IsPrimary env w.ctx = false)
    (hbucket : w.d.cache.getHeight w.d.BlockIndex = some b) :
    start env w = runPlan env (replayPlan b) w ∧
    (replayPlan b).map Prod.snd = b.prepare ++ (b.chViews ++ b.commit) ∧
    (replayPlan b).Pairwise (fun x y => x.1.phase ≤ y.1.phase) ∧
    (∀ x ∈ replayPlan b,
      (x.1 = Replay.toPrepareRequest ↔
        x.1.phase = 0 ∧ x.2.MsgType = MessageType.PrepareRequestType)) := by
  refine ⟨?_, ?_, ?_, ?_⟩
  · unfold start replayPlan
    simp only [hprimary, Bool.not_false, if_true, hbucket]
    have happ : ∀ xs ys, runPlan env (xs ++ ys) =
        fun w => (runPlan env xs w).bind (runPlan env ys) :=
      fun xs ys => funext (runPlan_append env xs ys)
    have hmap : ∀ (tag : ConsensusPayload → Replay) msgs,
        runPlan env (List.map (fun m => (tag m, m)) msgs) =
          forEach (fun m => (tag m).run env m) msgs :=
      fun tag msgs => funext (runPlan_map env tag msgs)
    rw [happ, happ, hmap, hmap (fun _ => Replay.toChangeView),
      hmap (fun _ => Replay.toCommit), replayPrepare_eq]
    rfl
  · simp [replayPlan, Function.comp_def]
  · unfold replayPlan
    rw [List.pairwise_append, List.pairwise_append]
    refine ⟨?_, ⟨?_, ?_, ?_⟩, ?_⟩
    · rw [List.pairwise_map]
      apply List.pairwise_of_forall
      intro x y
      dsimp only
      split_ifs <;> simp [Replay.phase]
    · rw [List.pairwise_map]
      exact List.pairwise_of_forall (fun _ _ => le_refl _)
    · rw [List.pairwise_map]
      exact List.pairwise_of_forall (fun _ _ => le_refl _)
    · intro x hx y hy
      simp only [List.mem_map] at hx hy
      obtain ⟨_, _, rfl⟩ := hx
      obtain ⟨_, _, rfl⟩ := hy
      simp [Replay.phase]
    · intro x hx y hy
      simp only [List.mem_map, List.mem_append] at hx hy
      obtain ⟨mx, _, rfl⟩ := hx
      rcases hy with ⟨_, _, rfl⟩ | ⟨_, _, rfl⟩ <;>
        (dsimp only; split_ifs <;> simp [Replay.phase])
  · intro x hx
    simp only [replayPlan, List.mem_append, List.mem_map] at hx
    rcases hx with ⟨m, _, rfl⟩ | ⟨m, _, rfl⟩ | ⟨m, _, rfl⟩
    · dsimp only
      split_ifs with ht <;> simp [Replay.phase, ht]
    · simp [Replay.phase]
    · simp [Replay.phase]

/-- Witness for C14: the replay on `cachedWorld` hands the PrepareResponse to
onPrepareResponse, then the ChangeView to onChangeView, then the Commit to
onCommit, although the Commit arrived first. -/
theorem C14_start_replay_order_witness :
    start sampleEnv cachedWorld =
      runPlan sampleEnv
        [(Replay.toPrepareResponse, responseMessage 0),
         (Replay.toChangeView, changeViewMessage 1),
         (Replay.toCommit, commitMessage 0)] cachedWorld :=
  (C14_start_replay_order sampleEnv cachedWorld
    { prepare := [responseMessage 0], chViews := [changeViewMessage 1],
      commit := [commitMessage 0] } (by decide) (by decide)).1

/-! ### The prepare-hash invariant -/

theorem updatePreparationsLoop_slots (env : Env) (msg : ConsensusPayload)
    (slots pre : List (Option ConsensusPayload)) (w : World)
    (h : w.d.PreparationPayloads = pre ++ slots) :
    (updatePreparationsLoop env msg slots pre.length w).d.PreparationPayloads =
      pre ++ slots.map (revalidate env msg) := by
  induction slots generalizing pre w with
  | nil => simpa [updatePreparationsLoop] using h
  | cons m rest ih =>
    have hkeep : revalidate env msg m = m →
        (updatePreparationsLoop env msg rest (pre.length + 1) w).d.PreparationPayloads =
          pre ++ (m :: rest).map (revalidate env msg) := by
      intro hm
      have := ih (pre ++ [m]) w (by simp [h])
      simp only [List.length_append, List.length_singleton] at this
      rw [this]
      simp [hm]
    unfold updatePreparationsLoop
    cases m with
    | none => exact hkeep rfl
    | some m0 =>
      simp only
      by_cases ht : m0.MsgType = MessageType.PrepareResponseType
      · rw [if_pos ht]
        cases hr : m0.GetPrepareResponse with
        | none => exact hkeep (by simp [revalidate, ht, hr])
        | some resp =>
          simp only
          by_cases hh : resp.PreparationHash ≠ env.Hash msg
          · rw [if_pos hh]
            have hset : (w.modify (fun d =>
                { d with PreparationPayloads := d.PreparationPayloads.set pre.length none })
                ).d.PreparationPayloads = (pre ++ [none]) ++ rest := by
              simp [World.modify, h]
            have := ih (pre ++ [none]) _ hset
            simp only [List.length_append, List.length_singleton] at this
            rw [this]
            simp [revalidate, ht, hr, hh]
          · rw [if_neg hh]
            exact hkeep (by simp [revalidate, ht, hr, hh])
      · rw [if_neg ht]
        exact hkeep (by simp [revalidate, ht])

theorem updateCommitsLoop_preparations (env : Env) (slots : List (Option ConsensusPayload))
    (i : Nat) (w w1 : World) (h : updateCommitsLoop env slots i w = some w1) :
    w1.d.PreparationPayloads = w.d.PreparationPayloads := by
  induction slots generalizing i w with
  | nil =>
    simp only [updateCommitsLoop, Option.some.injEq] at h
    rw [← h]
  | cons m rest ih =>
    unfold updateCommitsLoop at h
    split at h
    · split_ifs at h
      · split at h
        · split at h
          · split_ifs at h
            · rw [ih _ _ h]; rfl
            · exact ih _ _ h
          · cases h
        · exact ih _ _ h
      · exact ih _ _ h
    · exact ih _ _ h

theorem updateExistingPayloads_slots (env : Env) (msg : ConsensusPayload) (w w1 : World)
    (h : updateExistingPayloads env msg w = some w1) :
    w1.d.PreparationPayloads = w.d.PreparationPayloads.map (revalidate env msg) := by
  unfold updateExistingPayloads at h
  rw [updateCommitsLoop_preparations env _ _ _ _ h]
  exact updatePreparationsLoop_slots env msg w.d.PreparationPayloads [] w rfl

theorem responsesMatch_revalidate (env : Env) (msg : ConsensusPayload)
    (slots : List (Option ConsensusPayload)) :
    ResponsesMatch (slots.map (revalidate env msg)) (env.Hash msg) := by
  intro j m resp hj ht hr
  rw [List.get?_eq_getElem?, List.getElem?_map] at hj
  cases hs : slots[j]? with
  | none => simp [hs] at hj
  | some slot =>
    simp only [hs, Option.map_some', Option.some.injEq] at hj
    cases slot with
    | none => simp [revalidate] at hj
    | some m0 =>
      unfold revalidate at hj
      simp only at hj
      by_cases ht0 : m0.MsgType = MessageType.PrepareResponseType
      · rw [if_pos ht0] at hj
        cases hr0 : m0.GetPrepareResponse with
        | none =>
          rw [hr0] at hj
          simp only [Option.some.injEq] at hj
          subst hj
          rw [hr0] at hr
          cases hr
        | some resp0 =>
          rw [hr0] at hj
          simp only at hj
          by_cases hh : resp0.PreparationHash ≠ env.Hash msg
          · rw [if_pos hh] at hj
            cases hj
          · rw [if_neg hh] at hj
            simp only [Option.some.injEq] at hj
            subst hj
            rw [hr0] at hr
            cases hr
            exact not_not.mp hh
      · rw [if_neg ht0] at hj
        simp only [Option.some.injEq] at hj
        subst hj
        exact absurd ht ht0

theorem responsesMatch_set (slots : List (Option ConsensusPayload)) (h : Uint256) (i : Nat)
    (slot : Option ConsensusPayload) (hm : ResponsesMatch slots h)
    (hslot : ∀ m resp, slot = some m → m.MsgType = MessageType.PrepareResponseType →
      m.GetPrepareResponse = some resp → resp.PreparationHash = h) :
    ResponsesMatch (slots.set i slot) h := by
  intro j m resp hj ht hr
  rw [List.get?_eq_getElem?, List.getElem?_set] at hj
  by_cases hij : i = j
  · rw [if_pos hij] at hj
    split_ifs at hj
    · simp only [Option.some.injEq] at hj
      exact hslot m resp hj ht hr
  · rw [if_neg hij] at hj
    exact hm j m resp (by rw [List.get?_eq_getElem?]; exact hj) ht hr

theorem not_response_of_request {m : ConsensusPayload} {p : PrepareRequest}
    (h : m.GetPrepareRequest = some p) : m.GetPrepareResponse = none := by
  unfold ConsensusPayload.GetPrepareRequest at h
  unfold ConsensusPayload.GetPrepareResponse
  split at h
  · rename_i hp
    rw [hp]
  · cases h

theorem assign?_eq_some {α : Type} {xs ys : List α} {i : Nat} {v : α}
    (h : assign? xs i v = some ys) : i < xs.length ∧ ys = xs.set i v := by
  unfold assign? at h
  split_ifs at h with hi
  cases h
  exact ⟨hi, rfl⟩

theorem index?_eq_some_lt {α : Type} {xs : List α} {i : Nat} {v : α}
    (h : index? xs i = some v) : i < xs.length := by
  by_contra hc
  simp [index?, List.getElem?_eq_none (not_lt.mp hc)] at h

theorem onPrepareRequest_accept (env : Env) (msg : ConsensusPayload) (w w' : World)
    (hsor : env.RequestSentOrReceived w.ctx = false)
    (hview : w.d.ViewNumber = msg.ViewNumber)
    (hprimary : msg.ValidatorIndex = env.GetPrimaryIndex w.ctx w.d.ViewNumber)
    (hres : onPrepareRequest env msg w = some w') :
    ∃ w5, ResponsesMatch w5.d.PreparationPayloads (env.Hash msg) ∧
      w5.d.PreparationPayloads.get? msg.ValidatorIndex = some (some msg) ∧
      (w' = w5 ∨
        w' = (w5.invoke Call.sendPrepareResponse env.sendPrepareResponse).invoke
          Call.checkPrepare env.checkPrepare) := by
  unfold onPrepareRequest at hres
  rw [if_neg (by simp [hsor]), if_neg (by simp [hview]), if_neg (by simp [hprimary])] at hres
  simp only [Option.bind_eq_bind, Option.bind_eq_some] at hres
  obtain ⟨w1, _, p, hp, w4, e4, slots, hs, hres⟩ := hres
  obtain ⟨hi, hslots⟩ := assign?_eq_some hs
  have h4 := updateExistingPayloads_slots env msg _ _ e4
  have hmatch : ResponsesMatch slots (env.Hash msg) := by
    rw [hslots, h4]
    apply responsesMatch_set _ _ _ _ (responsesMatch_revalidate env msg _)
    intro m resp hm _ hr
    simp only [Option.some.injEq] at hm
    subst hm
    rw [not_response_of_request hp] at hr
    cases hr
  have hget : slots.get? msg.ValidatorIndex = some (some msg) := by
    rw [hslots, List.get?_eq_getElem?, List.getElem?_set]
    simp [hi]
  refine ⟨w4.modify (fun d => { d with PreparationPayloads := slots }), hmatch, hget, ?_⟩
  split_ifs at hres
  · cases hres; exact Or.inl rfl
  · cases hres; exact Or.inr rfl

theorem onPrepareResponse_preserves (env : Env) (msg : ConsensusPayload) (w w' : World)
    (pm : ConsensusPayload) (req : PrepareRequest)
    (hstable : ∀ slots, env.GetPrimaryIndex { w.ctx with PreparationPayloads := slots }
      w.d.ViewNumber = env.GetPrimaryIndex w.ctx w.d.ViewNumber)
    (hpm : w.d.PreparationPayloads.get? (env.GetPrimaryIndex w.ctx w.d.ViewNumber) =
      some (some pm))
    (hreq : pm.GetPrepareRequest = some req)
    (hinv : ResponsesMatch w.d.PreparationPayloads (env.Hash pm))
    (hres : onPrepareResponse env msg w = some w') :
    ∃ w2, w2.d.PreparationPayloads.get? (env.GetPrimaryIndex w.ctx w.d.ViewNumber) =
        some (some pm) ∧
      ResponsesMatch w2.d.PreparationPayloads (env.Hash pm) ∧
      (w' = w2 ∨ w' = w2.invoke Call.checkPrepare env.checkPrepare) ∧
      (∀ resp, msg.GetPrepareResponse = some resp → resp.PreparationHash ≠ env.Hash pm →
        w' = w2 ∧ w2.d.PreparationPayloads = w.d.PreparationPayloads) := by
  have hsame : ∃ w2, w2.d.PreparationPayloads.get? (env.GetPrimaryIndex w.ctx w.d.ViewNumber) =
        some (some pm) ∧
      ResponsesMatch w2.d.PreparationPayloads (env.Hash pm) ∧
      (w = w2 ∨ w = w2.invoke Call.checkPrepare env.checkPrepare) ∧
      (∀ resp, msg.GetPrepareResponse = some resp → resp.PreparationHash ≠ env.Hash pm →
        w = w2 ∧ w2.d.PreparationPayloads = w.d.PreparationPayloads) :=
    ⟨w, hpm, hinv, Or.inl rfl, fun _ _ _ => ⟨rfl, rfl⟩⟩
  unfold onPrepareResponse at hres
  split_ifs at hres with hv
  · cases hres; exact hsame
  · simp only [Option.bind_eq_bind, Option.bind_eq_some] at hres
    obtain ⟨m, hm, hres⟩ := hres
    split_ifs at hres with hfilled
    · cases hres; exact hsame
    · simp only [Option.bind_eq_some] at hres
      obtain ⟨slots, hs, pm1, hpm1, hres⟩ := hres
      obtain ⟨hi, hslots⟩ := assign?_eq_some hs
      have hempty : m = none := by
        cases m with
        | none => rfl
        | some x => simp at hfilled
      have hidx : w.d.PreparationPayloads[msg.ValidatorIndex]? = some none := by
        rw [← hempty]
        simpa [index?] using hm
      have hne : msg.ValidatorIndex ≠ env.GetPrimaryIndex w.ctx w.d.ViewNumber := by
        intro hc
        rw [List.get?_eq_getElem?, ← hc, hidx] at hpm
        cases hpm
      have hP : env.GetPrimaryIndex
          (w.modify (fun d => { d with PreparationPayloads := slots })).ctx
          (w.modify (fun d => { d with PreparationPayloads := slots })).d.ViewNumber =
          env.GetPrimaryIndex w.ctx w.d.ViewNumber := hstable slots
      rw [hP] at hpm1
      have hslotP : slots.get? (env.GetPrimaryIndex w.ctx w.d.ViewNumber) = some (some pm) := by
        rw [hslots, List.get?_eq_getElem?, List.getElem?_set, if_neg hne,
          ← List.get?_eq_getElem?]
        exact hpm
      have hpm1' : pm1 = some pm := by
        have : index? slots (env.GetPrimaryIndex w.ctx w.d.ViewNumber) = some pm1 := hpm1
        unfold index? at this
        rw [hslotP] at this
        exact (Option.some.inj this).symm
      subst hpm1'
      simp only [hreq] at hres
      simp only [Option.bind_eq_some] at hres
      obtain ⟨resp, hresp, hres⟩ := hres
      split_ifs at hres with hmis
      · cases hres
        have hback : (slots.set msg.ValidatorIndex none) = w.d.PreparationPayloads := by
          rw [hslots, List.set_set]
          apply List.ext_get?
          intro j
          rw [List.get?_eq_getElem?, List.get?_eq_getElem?, List.getElem?_set]
          by_cases hj : msg.ValidatorIndex = j
          · subst hj
            simp [hi, hidx]
          · simp [hj]
        refine ⟨_, ?_, ?_, Or.inl rfl, fun _ _ _ => ⟨rfl, ?_⟩⟩
        · simp only [World.modify]
          rw [hback]
          exact hpm
        · simp only [World.modify]
          rw [hback]
          exact hinv
        · simp only [World.modify]
          exact hback
      · have hmatch : ResponsesMatch slots (env.Hash pm) := by
          rw [hslots]
          apply responsesMatch_set _ _ _ _ hinv
          intro m0 resp0 hm0 _ hr0
          simp only [Option.some.injEq] at hm0
          subst hm0
          rw [hresp] at hr0
          cases hr0
          exact not_not.mp hmis
        simp only [Option.bind_eq_bind, Option.bind_eq_some] at hres
        obtain ⟨w3, e3, hres⟩ := hres
        have hd3 : w3.d.PreparationPayloads = slots := by
          unfold extendTimer at e3
          split_ifs at e3 <;> (cases e3; rfl)
        refine ⟨w3, by rw [hd3]; exact hslotP, by rw [hd3]; exact hmatch, ?_, ?_⟩
        · split_ifs at hres
          · cases hres; exact Or.inr rfl
          · cases hres; exact Or.inl rfl
        · intro resp1 hr1 hne1
          rw [hresp] at hr1
          cases hr1
          exact absurd (not_not.mp hmis) hne1

/-- C15: the prepare-hash invariant.  (1) `updateExistingPayloads(msg)` turns
every preparation slot into its re-validation: a PrepareResponse whose
PreparationHash differs from msg.Hash() is cleared, every other slot is kept.
(2) When `onPrepareRequest` accepts `msg` and returns, the engine it returns,
or hands to sendPrepareResponse and checkPrepare, has `msg` in the sender's
slot and every slot that holds a PrepareResponse has PreparationHash =
msg.Hash(), whatever the slots held before.  (3) In a state where the primary's
slot holds its PrepareRequest `pm` and the invariant holds for pm.Hash(), the
engine `onPrepareResponse` returns, or hands to checkPrepare, still has `pm` in
the primary's slot and satisfies the invariant; after a response with another
hash the slots are what they were (the sender's slot empty if it was).  The
primary index depends on height and view, not on the slots. -/
theorem C15_prepare_hash_invariant (env : Env) (msg : ConsensusPayload) (w : World) :
    (∀ w3 w4, updateExistingPayloads env msg w3 = some w4 →
      w4.d.PreparationPayloads = w3.d.PreparationPayloads.map (revalidate env msg) ∧
      ResponsesMatch w4.d.PreparationPayloads (env.Hash msg)) ∧
    (env.RequestSentOrReceived w.ctx = false → w.d.ViewNumber = msg.ViewNumber →
      msg.ValidatorIndex = env.GetPrimaryIndex w.ctx w.d.ViewNumber →
      ∀ w', onPrepareRequest env msg w = some w' →
        ∃ w5, ResponsesMatch w5.d.PreparationPayloads (env.Hash msg) ∧
          w5.d.PreparationPayloads.get? msg.ValidatorIndex = some (some msg) ∧
          (w' = w5 ∨
            w' = (w5.invoke Call.sendPrepareResponse env.sendPrepareResponse).invoke
              Call.checkPrepare env.checkPrepare)) ∧
    (∀ pm req,
      (∀ slots, env.GetPrimaryIndex { w.ctx with PreparationPayloads := slots }
        w.d.ViewNumber = env.GetPrimaryIndex w.ctx w.d.ViewNumber) →
      w.d.PreparationPayloads.get? (env.GetPrimaryIndex w.ctx w.d.ViewNumber) =
        some (some pm) →
      pm.GetPrepareRequest = some req →
      ResponsesMatch w.d.PreparationPayloads (env.Hash pm) →
      ∀ w', onPrepareResponse env msg w = some w' →
        ∃ w2, w2.d.PreparationPayloads.get? (env.GetPrimaryIndex w.ctx w.d.ViewNumber) =
            some (some pm) ∧
          ResponsesMatch w2.d.PreparationPayloads (env.Hash pm) ∧
          (w' = w2 ∨ w' = w2.invoke Call.checkPrepare env.checkPrepare) ∧
          (∀ resp, msg.GetPrepareResponse = some resp →
            resp.PreparationHash ≠ env.Hash pm →
            w' = w2 ∧ w2.d.PreparationPayloads = w.d.PreparationPayloads)) := by
  refine ⟨?_, ?_, ?_⟩
  · intro w3 w4 h
    have hs := updateExistingPayloads_slots env msg w3 w4 h
    exact ⟨hs, by rw [hs]; exact responsesMatch_revalidate env msg _⟩
  · intro h1 h2 h3 w' hres
    exact onPrepareRequest_accept env msg w w' h1 h2 h3 hres
  · intro pm req hstable hpm hreq hinv w' hres
    exact onPrepareResponse_preserves env msg w w' pm req hstable hpm hreq hinv hres

/-- Witness for C15: on `staleResponseWorld` the request `goodRequest` is
accepted and the returned engine satisfies the invariant for its hash. -/
theorem C15_prepare_hash_invariant_witness :
    ∃ w' w5, onPrepareRequest sampleEnv goodRequest staleResponseWorld = some w' ∧
      ResponsesMatch w5.d.PreparationPayloads (sampleEnv.Hash goodRequest) ∧
      w5.d.PreparationPayloads.get? goodRequest.ValidatorIndex = some (some goodRequest) ∧
      (w' = w5 ∨
        w' = (w5.invoke Call.sendPrepareResponse sampleEnv.sendPrepareResponse).invoke
          Call.checkPrepare sampleEnv.checkPrepare) := by
  have hsome : (onPrepareRequest sampleEnv goodRequest staleResponseWorld).isSome = true := by
    decide
  obtain ⟨w', hw'⟩ := Option.isSome_iff_exists.mp hsome
  obtain ⟨w5, h1, h2, h3⟩ :=
    (C15_prepare_hash_invariant sampleEnv goodRequest staleResponseWorld).2.1
      (by decide) (by decide) (by decide) w' hw'
  exact ⟨w', w5, hw', h1, h2, h3⟩

/-! ### The successor loop of `onRecoveryRequest` -/

theorem shouldSendLoop_iff (r n : Nat) (my : Int) (hn : 0 < n) :
    ∃ b, shouldSendLoop r n my ((n - 1) / 3) 1 = some b ∧
      (b = true ↔ ∃ k, 1 ≤ k ∧ k ≤ (n - 1) / 3 ∧ my = (((r + k) % n : Nat) : Int)) := by
  obtain ⟨b, hb, hiff⟩ := shouldSendLoop_spec r n my hn ((n - 1) / 3) 1
  refine ⟨b, hb, ?_⟩
  rw [hiff]
  constructor
  · rintro ⟨k, h1, h2, h3⟩
    exact ⟨k, h1, by omega, h3⟩
  · rintro ⟨k, h1, h2, h3⟩
    exact ⟨k, h1, by omega, h3⟩

theorem successor_iff_mod (r n : Nat) (my : Int) (hn : 0 < n) (h0 : 0 ≤ my)
    (hlt : my < n) :
    (∃ k, 1 ≤ k ∧ k ≤ (n - 1) / 3 ∧ my = (((r + k) % n : Nat) : Int)) ↔
      1 ≤ (my - r) % n ∧ (my - r) % n ≤ (((n - 1) / 3 : Nat) : Int) := by
  have hF : (n - 1) / 3 < n := by omega
  constructor
  · rintro ⟨k, h1, h2, h3⟩
    have hdiv : ((r + k) % n : Nat) + n * ((r + k) / n) = r + k := Nat.mod_add_div _ _
    have hmy : my - r = (k : Int) + (n : Int) * (-(((r + k) / n : Nat) : Int)) := by
      have : (((r + k) % n : Nat) : Int) + (n : Int) * (((r + k) / n : Nat) : Int) =
          (r : Int) + (k : Int) := by exact_mod_cast hdiv
      rw [h3]
      linarith
    have hk : (my - r) % n = k := by
      rw [hmy, Int.add_mul_emod_self_left]
      exact Int.emod_eq_of_lt (by omega) (by omega)
    rw [hk]
    omega
  · rintro ⟨h1, h2⟩
    have hnn : 0 ≤ (my - r) % n := by omega
    refine ⟨((my - r) % n).toNat, by omega, by omega, ?_⟩
    have hcast : ((((my - r) % n).toNat : Nat) : Int) = (my - r) % n := Int.toNat_of_nonneg hnn
    rw [Int.natCast_mod]
    push_cast
    rw [hcast, Int.add_emod_emod]
    have : (r : Int) + (my - r) = my := by ring
    rw [this]
    exact (Int.emod_eq_of_lt h0 hlt).symm

/-- C16 (counterexample): with N = 4, f = 1 and sender 2 the loop does not
send on MyIndex = −1, although (−1 − 2) mod 4 = 1 lies in [1, f]; and with the
remainder of Go (`%` truncates) the predicate misses the successor 0 of
sender 3, on which the loop sends. -/
theorem C16_counterexample_watch_only :
    shouldSendLoop 2 4 (-1) ((4 - 1) / 3) 1 = some false ∧
    ((-1 : Int) - 2) % 4 = 1 ∧
    shouldSendLoop 3 4 0 ((4 - 1) / 3) 1 = some true ∧
    Int.tmod ((0 : Int) - 3) 4 = -3 := by
  decide

/-- C16 (amended): for N ≥ 1 validators, f = ⌊(N−1)/3⌋ and a sender index r,
the successor loop returns; for MyIndex in [0, N) its shouldSend is true if and
only if (MyIndex − r) mod N (the non-negative remainder) lies in [1, f]; for a
negative MyIndex (WatchOnly) it is false. -/
theorem C16_shouldSend_single_predicate (r n : Nat) (my : Int) (hn : 1 ≤ n) :
    (∃ b, shouldSendLoop r n my ((n - 1) / 3) 1 = some b) ∧
    (0 ≤ my → my < n →
      (shouldSendLoop r n my ((n - 1) / 3) 1 = some true ↔
        1 ≤ (my - r) % n ∧ (my - r) % n ≤ (((n - 1) / 3 : Nat) : Int))) ∧
    (my < 0 → shouldSendLoop r n my ((n - 1) / 3) 1 = some false) := by
  obtain ⟨b, hb, hiff⟩ := shouldSendLoop_iff r n my (by omega)
  refine ⟨⟨b, hb⟩, ?_, ?_⟩
  · intro h0 hlt
    rw [hb, ← successor_iff_mod r n my (by omega) h0 hlt, ← hiff]
    simp
  · intro hneg
    rw [hb]
    cases b with
    | false => rfl
    | true =>
      obtain ⟨k, _, _, h3⟩ := hiff.mp rfl
      omega

/-- Witness for C16: seven validators, f = 2, sender 6, node 1. -/
theorem C16_shouldSend_single_predicate_witness :
    shouldSendLoop 6 7 1 ((7 - 1) / 3) 1 = some true ↔
      1 ≤ ((1 : Int) - (6 : Nat)) % (7 : Nat) ∧
        ((1 : Int) - (6 : Nat)) % (7 : Nat) ≤ (((7 - 1) / 3 : Nat) : Int) :=
  (C16_shouldSend_single_predicate 6 7 1 (by decide)).2.1 (by decide) (by decide)

theorem successor_injective (r n a b : Nat) (ha : a < n) (hb : b < n)
    (h : (r + a) % n = (r + b) % n) : a = b := by
  have hmod : a ≡ b [MOD n] := Nat.ModEq.add_left_cancel' r h
  have : a % n = b % n := hmod
  rwa [Nat.mod_eq_of_lt ha, Nat.mod_eq_of_lt hb] at this

theorem shouldSendLoop_true_iff (r n m : Nat) (hn : 0 < n) :
    shouldSendLoop r n (m : Int) ((n - 1) / 3) 1 = some true ↔
      ∃ k, 1 ≤ k ∧ k ≤ (n - 1) / 3 ∧ m = (r + k) % n := by
  obtain ⟨b, hb, hiff⟩ := shouldSendLoop_iff r n (m : Int) hn
  rw [hb]
  constructor
  · intro h
    have hbt : b = true := by simpa using h
    obtain ⟨k, h1, h2, h3⟩ := hiff.mp hbt
    exact ⟨k, h1, h2, by exact_mod_cast h3⟩
  · rintro ⟨k, h1, h2, h3⟩
    have : b = true := hiff.mpr ⟨k, h1, h2, by exact_mod_cast h3⟩
    rw [this]

/-- C17: for N ≥ 1 validators, f = ⌊(N−1)/3⌋ and a requester index r, the
indices m in [0, N) on which the successor loop of `onRecoveryRequest` yields
shouldSend = true are exactly f in number, and r is not one of them. -/
theorem C17_recovery_answered_by_f_nodes (r n : Nat) (hn : 1 ≤ n) :
    ((Finset.range n).filter
      (fun m : Nat => shouldSendLoop r n (m : Int) ((n - 1) / 3) 1 = some true)).card =
        (n - 1) / 3 ∧
    shouldSendLoop r n (r : Int) ((n - 1) / 3) 1 = some false := by
  have hpos : 0 < n := by omega
  have hF : (n - 1) / 3 < n := by omega
  constructor
  · have hset : (Finset.range n).filter
        (fun m : Nat => shouldSendLoop r n (m : Int) ((n - 1) / 3) 1 = some true) =
        (Finset.Icc 1 ((n - 1) / 3)).image (fun k => (r + k) % n) := by
      ext m
      simp only [Finset.mem_filter, Finset.mem_range, Finset.mem_image, Finset.mem_Icc,
        shouldSendLoop_true_iff r n m hpos]
      constructor
      · rintro ⟨_, k, h1, h2, h3⟩
        exact ⟨k, ⟨h1, h2⟩, h3.symm⟩
      · rintro ⟨k, ⟨h1, h2⟩, h3⟩
        exact ⟨by rw [← h3]; exact Nat.mod_lt _ hpos, k, h1, h2, h3.symm⟩
    rw [hset, Finset.card_image_of_injOn, Nat.card_Icc]
    · omega
    · intro a ha b hb hab
      simp only [Finset.coe_Icc, Set.mem_Icc] at ha hb
      exact successor_injective r n a b (by omega) (by omega) hab
  · obtain ⟨b, hb, _⟩ := shouldSendLoop_iff r n (r : Int) hpos
    rw [hb]
    cases b with
    | false => rfl
    | true => ?_
    exfalso
    obtain ⟨k, h1, h2, h3⟩ := (shouldSendLoop_true_iff r n r hpos).mp hb
    by_cases hr : r < n
    · have h0 : (r + 0) % n = (r + k) % n := by
        rw [Nat.add_zero, Nat.mod_eq_of_lt hr]
        exact h3
      have := successor_injective r n 0 k hpos (by omega) h0
      omega
    · have : (r + k) % n < n := Nat.mod_lt _ hpos
      omega

/-- Witness for C17: seven validators, requester 5: two nodes answer. -/
theorem C17_recovery_answered_by_f_nodes_witness :
    ((Finset.range 7).filter
      (fun m : Nat => shouldSendLoop 5 7 (m : Int) ((7 - 1) / 3) 1 = some true)).card = 2 :=
  (C17_recovery_answered_by_f_nodes 5 7 (by decide)).1

/-! ### The `recovering` flag -/

theorem extendTimer_recovering {env : Env} {count : Int} {w w1 : World}
    (h : extendTimer env count w = some w1) : w1.d.recovering = w.d.recovering := by
  unfold extendTimer at h
  split_ifs at h <;> (cases h; rfl)

theorem processMissingTxLoop_recovering (env : Env) (hs missing : List Uint256)
    (txx : List Transaction) (w : World) :
    (processMissingTxLoop env hs missing txx w).2.2.d.recovering = w.d.recovering := by
  induction hs generalizing missing txx w with
  | nil => rfl
  | cons h rest ih =>
    unfold processMissingTxLoop
    cases env.GetTx h with
    | none => exact ih _ _ _
    | some tx => simpa [World.modify] using ih missing (txx ++ [tx]) _

theorem processMissingTx_recovering (env : Env) (hk : KeepsRecovering env) (w : World) :
    (processMissingTx env w).d.recovering = w.d.recovering := by
  unfold processMissingTx
  have hc := processMissingTxLoop_recovering env w.d.TransactionHashes [] [] w
  generalize processMissingTxLoop env w.d.TransactionHashes [] [] w = r at hc
  obtain ⟨missing, txx, w1⟩ := r
  simp only at hc ⊢
  split_ifs
  · simp only [World.invoke, hk.2.2.1, hc]
  · exact hc
  · exact hc

theorem updatePreparationsLoop_recovering (env : Env) (msg : ConsensusPayload)
    (slots : List (Option ConsensusPayload)) (i : Nat) (w : World) :
    (updatePreparationsLoop env msg slots i w).d.recovering = w.d.recovering := by
  induction slots generalizing i w with
  | nil => rfl
  | cons m rest ih =>
    unfold updatePreparationsLoop
    split
    · split_ifs
      · split
        · split_ifs
          · rw [ih]; rfl
          · exact ih _ _
        · exact ih _ _
      · exact ih _ _
    · exact ih _ _

theorem updateCommitsLoop_recovering (env : Env) (slots : List (Option ConsensusPayload))
    (i : Nat) (w w1 : World) (h : updateCommitsLoop env slots i w = some w1) :
    w1.d.recovering = w.d.recovering := by
  induction slots generalizing i w with
  | nil =>
    simp only [updateCommitsLoop, Option.some.injEq] at h
    rw [← h]
  | cons m rest ih =>
    unfold updateCommitsLoop at h
    split at h
    · split_ifs at h
      · split at h
        · split at h
          · split_ifs at h
            · rw [ih _ _ h]; rfl
            · exact ih _ _ h
          · cases h
        · exact ih _ _ h
      · exact ih _ _ h
    · exact ih _ _ h

theorem onPrepareRequest_recovering {env : Env} (hk : KeepsRecovering env)
    {msg : ConsensusPayload} {w w' : World}
    (h : onPrepareRequest env msg w = some w') : w'.d.recovering = w.d.recovering := by
  unfold onPrepareRequest at h
  split_ifs at h with h1 h2 h3
  · cases h; rfl
  · cases h; rfl
  · cases h; rfl
  · simp only [Option.bind_eq_bind, Option.bind_eq_some] at h
    obtain ⟨w1, e1, p, _, w4, e4, slots, _, h⟩ := h
    have a1 := extendTimer_recovering e1
    unfold updateExistingPayloads at e4
    have a4 := updateCommitsLoop_recovering env _ _ _ _ e4
    rw [updatePreparationsLoop_recovering, processMissingTx_recovering env hk] at a4
    have a5 : w4.d.recovering = w.d.recovering := by rw [a4]; exact a1
    split_ifs at h
    · cases h; exact a5
    · cases h
      simp only [World.invoke, World.modify, hk.2.2.2.2.1, hk.2.1]
      exact a5

theorem onPrepareResponse_recovering {env : Env} (hk : KeepsRecovering env)
    {msg : ConsensusPayload} {w w' : World}
    (h : onPrepareResponse env msg w = some w') : w'.d.recovering = w.d.recovering := by
  unfold onPrepareResponse at h
  split_ifs at h with h1
  · cases h; rfl
  · simp only [Option.bind_eq_bind, Option.bind_eq_some] at h
    obtain ⟨m, _, h⟩ := h
    split_ifs at h
    · cases h; rfl
    · simp only [Option.bind_eq_some] at h
      obtain ⟨slots, _, pm, _, h⟩ := h
      have tailKeeps : ∀ w2 w3 : World,
          (do
            let w3 ← extendTimer env 2 w2
            if env.RequestSentOrReceived w3.ctx = true then
              some (w3.invoke Call.checkPrepare env.checkPrepare)
            else some w3) = some w3 → w3.d.recovering = w2.d.recovering := by
        intro w2 w3 ht
        simp only [Option.bind_eq_bind, Option.bind_eq_some] at ht
        obtain ⟨w3a, e3, ht⟩ := ht
        split_ifs at ht
        · cases ht
          simp only [World.invoke, hk.2.2.2.2.1]
          exact extendTimer_recovering e3
        · cases ht
          exact extendTimer_recovering e3
      split at h
      · split at h
        · cases h; rfl
        · simp only [Option.bind_eq_some] at h
          obtain ⟨resp, _, h⟩ := h
          split_ifs at h
          · cases h; rfl
          · rw [tailKeeps _ _ h]; rfl
      · rw [tailKeeps _ _ h]; rfl

theorem onRecoveryRequest_recovering {env : Env} (hk : KeepsRecovering env)
    {msg : ConsensusPayload} {w w' : World}
    (h : onRecoveryRequest env msg w = some w') : w'.d.recovering = w.d.recovering := by
  unfold onRecoveryRequest at h
  split_ifs at h
  · simp only [Option.bind_eq_bind, Option.bind_eq_some] at h
    obtain ⟨s, _, h⟩ := h
    split_ifs at h
    · cases h; rfl
    · cases h; exact hk.2.2.2.1 _
  · cases h; exact hk.2.2.2.1 _

theorem onChangeView_recovering {env : Env} (hk : KeepsRecovering env)
    {msg : ConsensusPayload} {w w' : World}
    (h : onChangeView env msg w = some w') : w'.d.recovering = w.d.recovering := by
  unfold onChangeView at h
  simp only [Option.bind_eq_bind, Option.bind_eq_some] at h
  obtain ⟨p, _, h⟩ := h
  split_ifs at h
  · exact onRecoveryRequest_recovering hk h
  · cases h; rfl
  · simp only [Option.bind_eq_some] at h
    obtain ⟨m, _, drop, _, h⟩ := h
    split_ifs at h
    · cases h; rfl
    · simp only [Option.bind_eq_some] at h
      obtain ⟨slots, _, h⟩ := h
      cases h
      simp only [World.invoke, World.modify, hk.2.2.2.2.2.2]

theorem storeCommit_recovering {msg : ConsensusPayload} {w w' : World}
    (h : storeCommit msg w = some w') : w'.d.recovering = w.d.recovering := by
  unfold storeCommit at h
  simp only [Option.bind_eq_bind, Option.bind_eq_some] at h
  obtain ⟨slots, _, h⟩ := h
  cases h
  rfl

theorem onCommit_recovering {env : Env} (hk : KeepsRecovering env)
    {msg : ConsensusPayload} {w w' : World}
    (h : onCommit env msg w = some w') : w'.d.recovering = w.d.recovering := by
  unfold onCommit at h
  simp only [Option.bind_eq_bind, Option.bind_eq_some] at h
  obtain ⟨w1, e1, h⟩ := h
  have a1 := extendTimer_recovering e1
  split_ifs at h
  · split at h
    · rw [storeCommit_recovering h]; exact a1
    · simp only [Option.bind_eq_some] at h
      obtain ⟨pub, _, c, _, h⟩ := h
      split_ifs at h
      · simp only [Option.bind_eq_some] at h
        obtain ⟨w2, e2, h⟩ := h
        cases h
        simp only [World.invoke, hk.2.2.2.2.2.1]
        rw [storeCommit_recovering e2]; exact a1
      · cases h; exact a1
  · rw [storeCommit_recovering h]; exact a1

theorem replayRun_recovering {env : Env} (hk : KeepsRecovering env) (k : Replay)
    {m : ConsensusPayload} {w w' : World} (h : k.run env m w = some w') :
    w'.d.recovering = w.d.recovering := by
  cases k
  · exact onPrepareRequest_recovering hk h
  · exact onPrepareResponse_recovering hk h
  · exact onChangeView_recovering hk h
  · exact onCommit_recovering hk h

theorem calleeRun_recovering {env : Env} (hk : KeepsRecovering env) (c : Callee)
    {w w' : World} (h : c.run env w = some w') : w'.d.recovering = w.d.recovering := by
  cases c with
  | handler k m => exact replayRun_recovering hk k h
  | sendPrepareRequest =>
    simp only [Callee.run, Option.some.injEq] at h
    rw [← h]
    exact hk.1 _

theorem andThen_snd (r : Traced) (f : World → Traced) :
    (r.andThen f).2 = r.2.bind (fun w => (f w).2) := by
  unfold Traced.andThen
  cases r.2 <;> rfl

theorem forEachTraced_snd (env : Env) (k : Replay) (msgs : List ConsensusPayload) (w : World) :
    (forEachTraced env k msgs w).2 = forEach (k.run env) msgs w := by
  induction msgs generalizing w with
  | nil => rfl
  | cons m rest ih =>
    unfold forEachTraced forEach
    rw [andThen_snd]
    simp only [traceCall, Callee.run, Option.bind_eq_bind]
    congr 1
    funext w1
    exact ih w1

theorem recoverChangeViewsTraced_snd (env : Env) (msg : ConsensusPayload)
    (recovery : Option RecoveryMessage) (w : World) :
    (recoverChangeViewsTraced env msg recovery w).2 = recoverChangeViews env msg recovery w := by
  unfold recoverChangeViewsTraced recoverChangeViews
  split_ifs
  · cases recovery with
    | none => rfl
    | some r => exact forEachTraced_snd env Replay.toChangeView _ w
  · rfl

theorem recoverPrepareRequestTraced_snd (env : Env) (msg : ConsensusPayload)
    (recovery : Option RecoveryMessage) (w : World) :
    (recoverPrepareRequestTraced env msg recovery w).2 =
      recoverPrepareRequest env msg recovery w := by
  unfold recoverPrepareRequestTraced recoverPrepareRequest
  by_cases h1 : (!env.RequestSentOrReceived w.ctx) = true
  · rw [if_pos h1, if_pos h1]
    cases recovery with
    | none => rfl
    | some r =>
      simp only
      cases env.GetPrepareRequest r msg with
      | some prepReq => rfl
      | none =>
        simp only
        split_ifs <;> rfl
  · rw [if_neg h1, if_neg h1]

theorem recoverPreparationsTraced_snd (env : Env) (msg : ConsensusPayload)
    (recovery : Option RecoveryMessage) (w : World) :
    (recoverPreparationsTraced env msg recovery w).2 =
      recoverPreparations env msg recovery w := by
  unfold recoverPreparationsTraced recoverPreparations
  split_ifs
  · rw [andThen_snd, recoverPrepareRequestTraced_snd]
    cases recoverPrepareRequest env msg recovery w with
    | none => rfl
    | some w1 =>
      cases recovery with
      | none => rfl
      | some r => exact forEachTraced_snd env Replay.toPrepareResponse _ w1
  · rfl

theorem recoverCommitsTraced_snd (env : Env) (msg : ConsensusPayload)
    (recovery : Option RecoveryMessage) (w : World) :
    (recoverCommitsTraced env msg recovery w).2 = recoverCommits env msg recovery w := by
  unfold recoverCommitsTraced recoverCommits
  split_ifs
  · cases recovery with
    | none => rfl
    | some r => exact forEachTraced_snd env Replay.toCommit _ w
  · rfl

theorem onRecoveryMessageBodyTraced_snd (env : Env) (msg : ConsensusPayload)
    (recovery : Option RecoveryMessage) (w : World) :
    (onRecoveryMessageBodyTraced env msg recovery w).2 =
      onRecoveryMessageBody env msg recovery w := by
  unfold onRecoveryMessageBodyTraced onRecoveryMessageBody
  split_ifs
  · rfl
  · rw [andThen_snd, recoverChangeViewsTraced_snd]
    congr 1
    funext w1
    rw [andThen_snd, recoverPreparationsTraced_snd]
    congr 1
    funext w2
    exact recoverCommitsTraced_snd env msg recovery w2

theorem onRecoveryMessage_eq_map (env : Env) (msg : ConsensusPayload) (w : World) :
    onRecoveryMessage env msg w =
      (onRecoveryMessageBody env msg msg.GetRecoveryMessage
        (w.modify (fun d => { d with recovering := true }))).map
        (fun w2 => w2.modify (fun d => { d with recovering := false })) := by
  unfold onRecoveryMessage
  simp only [Option.bind_eq_bind]
  generalize onRecoveryMessageBody env msg msg.GetRecoveryMessage
    (w.modify (fun d => { d with recovering := true })) = o
  cases o <;> rfl

theorem isRun_append {env : Env} {t1 t2 : List Invocation} {w w1 : World}
    {res : Option World} (h1 : IsRun env w t1 (some w1)) (h2 : IsRun env w1 t2 res) :
    IsRun env w (t1 ++ t2) res := by
  induction t1 generalizing w with
  | nil =>
    simp only [IsRun, Option.some.injEq] at h1
    rw [h1 w1 rfl] at h2
    exact h2
  | cons i rest ih =>
    simp only [IsRun] at h1
    obtain ⟨hw, h1⟩ := h1
    simp only [List.cons_append, IsRun]
    refine ⟨hw, ?_⟩
    cases hr : i.callee.run env w with
    | none =>
      rw [hr] at h1
      exact absurd h1.2 (by simp)
    | some w0 =>
      rw [hr] at h1
      exact ih h1

theorem isRun_andThen {env : Env} {r : Traced} {f : World → Traced} {w : World}
    (h1 : IsRun env w r.1 r.2) (h2 : ∀ w1, r.2 = some w1 → IsRun env w1 (f w1).1 (f w1).2) :
    IsRun env w (r.andThen f).1 (r.andThen f).2 := by
  unfold Traced.andThen
  cases hr : r.2 with
  | none =>
    simp only
    rw [hr] at h1
    exact h1
  | some w1 =>
    simp only
    rw [hr] at h1
    exact isRun_append h1 (h2 w1 hr)

theorem isRun_nil_some (env : Env) (w : World) : IsRun env w [] (some w) := by
  intro w1 h
  cases h
  rfl

theorem isRun_nil_none (env : Env) (w : World) : IsRun env w [] none := by
  intro w1 h
  cases h

theorem isRun_traceCall (env : Env) (c : Callee) (w : World) :
    IsRun env w (traceCall env c w).1 (traceCall env c w).2 := by
  refine ⟨rfl, ?_⟩
  show (match c.run env w with
    | some w1 => IsRun env w1 [] (c.run env w)
    | none => ([] : List Invocation) = [] ∧ c.run env w = none)
  cases hr : c.run env w with
  | none => exact ⟨rfl, rfl⟩
  | some w1 => exact isRun_nil_some env w1

theorem isRun_forEachTraced (env : Env) (k : Replay) (msgs : List ConsensusPayload)
    (w : World) : IsRun env w (forEachTraced env k msgs w).1 (forEachTraced env k msgs w).2 := by
  induction msgs generalizing w with
  | nil =>
    intro w1 h
    cases h
    rfl
  | cons m rest ih =>
    unfold forEachTraced
    exact isRun_andThen (isRun_traceCall env _ w) (fun w1 _ => ih w1)

theorem isRun_recoverChangeViewsTraced (env : Env) (msg : ConsensusPayload)
    (recovery : Option RecoveryMessage) (w : World) :
    IsRun env w (recoverChangeViewsTraced env msg recovery w).1
      (recoverChangeViewsTraced env msg recovery w).2 := by
  unfold recoverChangeViewsTraced
  split_ifs
  · cases recovery with
    | none => exact isRun_nil_none env w
    | some r => exact isRun_forEachTraced env _ _ w
  · exact isRun_nil_some env w

theorem isRun_recoverPrepareRequestTraced (env : Env) (msg : ConsensusPayload)
    (recovery : Option RecoveryMessage) (w : World) :
    IsRun env w (recoverPrepareRequestTraced env msg recovery w).1
      (recoverPrepareRequestTraced env msg recovery w).2 := by
  unfold recoverPrepareRequestTraced
  by_cases h1 : (!env.RequestSentOrReceived w.ctx) = true
  · rw [if_pos h1]
    cases recovery with
    | none => exact isRun_nil_none env w
    | some r =>
      simp only
      cases env.GetPrepareRequest r msg with
      | some prepReq => exact isRun_traceCall env _ w
      | none =>
        simp only
        split_ifs
        · exact isRun_traceCall env _ w
        · exact isRun_nil_some env w
  · rw [if_neg h1]
    exact isRun_nil_some env w

theorem isRun_recoverPreparationsTraced (env : Env) (msg : ConsensusPayload)
    (recovery : Option RecoveryMessage) (w : World) :
    IsRun env w (recoverPreparationsTraced env msg recovery w).1
      (recoverPreparationsTraced env msg recovery w).2 := by
  unfold recoverPreparationsTraced
  split_ifs
  · refine isRun_andThen (isRun_recoverPrepareRequestTraced env msg recovery w) ?_
    intro w1 _
    cases recovery with
    | none => exact isRun_nil_none env w1
    | some r => exact isRun_forEachTraced env _ _ w1
  · exact isRun_nil_some env w

theorem isRun_recoverCommitsTraced (env : Env) (msg : ConsensusPayload)
    (recovery : Option RecoveryMessage) (w : World) :
    IsRun env w (recoverCommitsTraced env msg recovery w).1
      (recoverCommitsTraced env msg recovery w).2 := by
  unfold recoverCommitsTraced
  split_ifs
  · cases recovery with
    | none => exact isRun_nil_none env w
    | some r => exact isRun_forEachTraced env _ _ w
  · exact isRun_nil_some env w

theorem isRun_onRecoveryMessageBodyTraced (env : Env) (msg : ConsensusPayload)
    (recovery : Option RecoveryMessage) (w : World) :
    IsRun env w (onRecoveryMessageBodyTraced env msg recovery w).1
      (onRecoveryMessageBodyTraced env msg recovery w).2 := by
  unfold onRecoveryMessageBodyTraced
  split_ifs
  · exact isRun_nil_some env w
  · refine isRun_andThen (isRun_recoverChangeViewsTraced env msg recovery w) ?_
    intro w1 _
    refine isRun_andThen (isRun_recoverPreparationsTraced env msg recovery w1) ?_
    intro w2 _
    exact isRun_recoverCommitsTraced env msg recovery w2

theorem isRun_recovering {env : Env} (hk : KeepsRecovering env) {t : List Invocation}
    {w : World} {res : Option World} (h : IsRun env w t res) (hw : w.d.recovering = true) :
    ∀ inv ∈ t, inv.world.d.recovering = true := by
  induction t generalizing w with
  | nil =>
    intro inv hin
    cases hin
  | cons i rest ih =>
    simp only [IsRun] at h
    obtain ⟨hiw, h⟩ := h
    intro inv hin
    rcases List.mem_cons.mp hin with e | hin
    · rw [e, hiw]
      exact hw
    · cases hr : i.callee.run env w with
      | none =>
        rw [hr] at h
        rw [h.1] at hin
        cases hin
      | some w1 =>
        rw [hr] at h
        refine ih h ?_ inv hin
        rw [calleeRun_recovering hk _ hr]
        exact hw

/-- C18: `recovering` is a scope guard of `onRecoveryMessage`.  For every
environment, state and RecoveryMessage, `onRecoveryMessageTraced` records the
calls `onRecoveryMessage` makes (onChangeView, onPrepareRequest,
onPrepareResponse, onCommit and `sendPrepareRequest`), each with the world it
starts in, and (1) it returns what `onRecoveryMessage` returns; (2) the
recorded calls are a run that starts in the world with `recovering` set, every
call in the world the one before it returned, and `onRecoveryMessage` returns
the world that run ends in with `recovering` cleared; (3) when the methods
defined in other files leave the flag alone, `recovering` is true in the world
every recorded call starts in and in the world it returns; (4) whenever
`onRecoveryMessage` returns, `recovering` is false; (5) on the early return
(msg.ViewNumber > V with Commit sent) no call is made and the result is the
state with `recovering` false. -/
theorem C18_recovering_scope_guard (env : Env) (msg : ConsensusPayload) (w : World) :
    (onRecoveryMessageTraced env msg w).2 = onRecoveryMessage env msg w ∧
    (∃ res, IsRun env (w.modify (fun d => { d with recovering := true }))
        (onRecoveryMessageTraced env msg w).1 res ∧
      onRecoveryMessage env msg w =
        res.map (fun w2 => w2.modify (fun d => { d with recovering := false }))) ∧
    (KeepsRecovering env →
      ∀ inv ∈ (onRecoveryMessageTraced env msg w).1,
        inv.world.d.recovering = true ∧
        ∀ w1, inv.callee.run env inv.world = some w1 → w1.d.recovering = true) ∧
    (∀ w', onRecoveryMessage env msg w = some w' → w'.d.recovering = false) ∧
    ((w.d.ViewNumber < msg.ViewNumber ∧ env.CommitSent w.ctx = true) →
      (onRecoveryMessageTraced env msg w).1 = [] ∧
      onRecoveryMessage env msg w =
        some (w.modify (fun d => { d with recovering := false }))) := by
  have hbody := onRecoveryMessage_eq_map env msg w
  have hsnd := onRecoveryMessageBodyTraced_snd env msg msg.GetRecoveryMessage
    (w.modify (fun d => { d with recovering := true }))
  have hrun := isRun_onRecoveryMessageBodyTraced env msg msg.GetRecoveryMessage
    (w.modify (fun d => { d with recovering := true }))
  refine ⟨?_, ?_, ?_, ?_, ?_⟩
  · rw [hbody, ← hsnd]
    rfl
  · refine ⟨_, hrun, ?_⟩
    rw [hbody, ← hsnd]
  · intro hkeep inv hin
    have hin1 : inv.world.d.recovering = true := isRun_recovering hkeep hrun rfl inv hin
    refine ⟨hin1, fun w1 h1 => ?_⟩
    rw [calleeRun_recovering hkeep _ h1]
    exact hin1
  · intro w' h
    rw [hbody] at h
    simp only [Option.map_eq_some'] at h
    obtain ⟨w2, _, h⟩ := h
    rw [← h]
    rfl
  · rintro ⟨hv, hc⟩
    have hc' : env.CommitSent (w.modify (fun d => { d with recovering := true })).ctx
        = true := hc
    have hv' : (w.modify (fun d => { d with recovering := true })).d.ViewNumber <
        msg.ViewNumber := hv
    constructor
    · show (onRecoveryMessageBodyTraced env msg msg.GetRecoveryMessage
        (w.modify (fun d => { d with recovering := true }))).1 = []
      unfold onRecoveryMessageBodyTraced
      rw [if_pos ⟨hv', hc'⟩]
    · rw [hbody]
      unfold onRecoveryMessageBody
      rw [if_pos ⟨hv', hc'⟩]
      rfl

theorem recoveryEnv_keepsRecovering : KeepsRecovering recoveryEnv :=
  ⟨fun _ => rfl, fun _ => rfl, fun _ => rfl, fun _ => rfl, fun _ => rfl, fun _ => rfl,
    fun _ _ => rfl⟩

/-- Witness for C18: a RecoveryMessage of view 0 on the sample engine of backup
1 at view 0: the calls are onPrepareResponse and onCommit (a RecoveryMessage of
view 1 makes one call of onChangeView), both start and end with `recovering`
set, and the handler returns with `recovering` false; and a RecoveryMessage of
view 1 on the engine that has sent its Commit takes the early return. -/
theorem C18_recovering_scope_guard_witness :
    KeepsRecovering recoveryEnv ∧
    (onRecoveryMessageTraced recoveryEnv (recoveryMessage 0) (sampleWorld 0 1)).1.map
        (fun inv => inv.callee) =
      [Callee.handler Replay.toPrepareResponse (responseMessage 0),
        Callee.handler Replay.toCommit (commitMessage 0)] ∧
    (onRecoveryMessageTraced recoveryEnv (recoveryMessage 1) (sampleWorld 0 1)).1.map
        (fun inv => inv.callee) =
      [Callee.handler Replay.toChangeView (changeViewMessage 1)] ∧
    (∀ inv ∈ (onRecoveryMessageTraced recoveryEnv (recoveryMessage 0) (sampleWorld 0 1)).1,
      inv.world.d.recovering = true ∧
      ∀ w1, inv.callee.run recoveryEnv inv.world = some w1 → w1.d.recovering = true) ∧
    (∃ w', onRecoveryMessage recoveryEnv (recoveryMessage 0) (sampleWorld 0 1) = some w' ∧
      w'.d.recovering = false) ∧
    (committedWorld.d.ViewNumber < (recoveryMessage 1).ViewNumber ∧
      recoveryEnv.CommitSent committedWorld.ctx = true) ∧
    onRecoveryMessage recoveryEnv (recoveryMessage 1) committedWorld =
      some (committedWorld.modify (fun d => { d with recovering := false })) := by
  have hsome :
      (onRecoveryMessage recoveryEnv (recoveryMessage 0) (sampleWorld 0 1)).isSome = true := by
    decide
  obtain ⟨w', hw'⟩ := Option.isSome_iff_exists.mp hsome
  have hearly : committedWorld.d.ViewNumber < (recoveryMessage 1).ViewNumber ∧
      recoveryEnv.CommitSent committedWorld.ctx = true := by decide
  refine ⟨recoveryEnv_keepsRecovering, by decide, by decide, ?_, ⟨w', hw', ?_⟩, hearly, ?_⟩
  · exact (C18_recovering_scope_guard recoveryEnv (recoveryMessage 0)
      (sampleWorld 0 1)).2.2.1 recoveryEnv_keepsRecovering
  · exact (C18_recovering_scope_guard recoveryEnv (recoveryMessage 0)
      (sampleWorld 0 1)).2.2.2.1 w' hw'
  · exact ((C18_recovering_scope_guard recoveryEnv (recoveryMessage 1)
      committedWorld).2.2.2.2 hearly).2

/-! ### The primary's preparation slot -/

/-- C19 (evaluation at the failing input): on backup 1 at view 0 the primary's
slot (index 2) of PreparationPayloads is empty; a PrepareResponse of the
current view with ValidatorIndex 2 is stored in it and stays there, the
handler returning at `req == nil`.  Afterwards RequestSentOrReceived is true
and the PrepareRequest of the primary is ignored. -/
theorem C19_response_fills_primary_slot :
    sampleEnv.GetPrimaryIndex (sampleWorld 0 1).ctx (sampleWorld 0 1).d.ViewNumber = 2 ∧
    (sampleWorld 0 1).d.PreparationPayloads.get? 2 = some none ∧
    sampleEnv.RequestSentOrReceived (sampleWorld 0 1).ctx = false ∧
    (onPrepareResponse sampleEnv primaryResponse (sampleWorld 0 1)).map
        (fun w => w.d.PreparationPayloads.get? 2) = some (some (some primaryResponse)) ∧
    (onPrepareResponse sampleEnv primaryResponse (sampleWorld 0 1)).map
        (fun w => sampleEnv.RequestSentOrReceived w.ctx) = some true ∧
    (onPrepareResponse sampleEnv primaryResponse (sampleWorld 0 1)).bind
        (onPrepareRequest sampleEnv goodRequest) =
      onPrepareResponse sampleEnv primaryResponse (sampleWorld 0 1) := by
  decide

/-! ### Decoding failures -/

theorem unmarshal_error_ignores_message {M : Type} (codec1 codec2 : MessageCodec M)
    (p : consensusPayload M) (data : List Byte) :
    (p.UnmarshalUnsigned codec1 data).2 = (p.UnmarshalUnsigned codec2 data).2 := by
  rfl

/-- C20 (evaluation at the failing input): the bytes `truncatedData` hold a
whole header and an inner message of one byte.  Decoding the inner message
from that byte fails with EOF (the view number is missing), yet
`UnmarshalUnsigned` returns nil: the reader `rr` of the inner message is
dropped with its error. -/
theorem C20_inner_error_not_reported :
    (sampleCodec.DecodeBinary emptyPayload.message (NewBinReaderFromBuf [32])).2.Err =
      some ReadError.EOF ∧
    (emptyPayload.UnmarshalUnsigned sampleCodec truncatedData).2 = none ∧
    (emptyPayload.UnmarshalUnsigned sampleCodec truncatedData).1.message =
      { msgType := 32, viewNumber := 0 } := by
  decide

end Dbft
